import Mathlib

/-!
# mtPaint `spawn.c`: command templating, temp files and process spawning

A shallow embedding of the POSIX (non-`WIN32`) build of `src/spawn.c`.

* C strings are lists of byte values (`Str`); the terminating NUL is not part
  of the list.
* `int` variables that only ever hold a truth value (`cmd`, `extend`, `rgb`,
  `mem_changed`) are `Bool`.
* An output buffer that the C code fills strictly left to right
  (`buf[d] = c; d++`) is the list of the bytes stored so far; a `NULL` buffer
  is `none`, in which case only the counter advances.
-/

namespace Spawn

/-- C strings: the bytes before the terminating NUL. -/
abbrev Str := List Nat

/-- A well-formed C string: every element is a non-NUL byte. -/
def CStr (s : Str) : Prop := ∀ c ∈ s, 0 < c ∧ c < 256

instance (s : Str) : Decidable (CStr s) := by
  unfold CStr; infer_instance

/-! ## `escape_filename` -/

/-- `#define QF 1`: quote it. -/
def QF : Nat := 1
/-- `#define WF 2`: wildcard, quote or unquote. -/
def WF : Nat := 2
/-- `#define UF 4`: unquote it. -/
def UF : Nat := 4
/-- `#define EF 8`: escape it. -/
def EF : Nat := 8

/-- `#define QUOTE '\''` (non-`WIN32`). -/
def QUOTE : Nat := 39
/-- `#define ESCAPE '\\'` (non-`WIN32`). -/
def ESCAPE : Nat := 92

/-- Modelled from the spec: `DIR_SEP` is defined in another header; the spec
names the prefix written before a leading minus sign as `./`, so on the POSIX
build `DIR_SEP` is the byte `/`. -/
def DIR_SEP : Nat := 47

/-- The bytes of `static char *spec`, in source order:
space `!` `"` `#` `$` `%` `&` `'` `(` `)` `*` `+` `,` `:` `;` `<` `=` `>` `?`
`@` `[` `]` `^` backquote, opening brace, `|`, closing brace, `~`. -/
def spec : Str :=
  [32, 33, 34, 35, 36, 37, 38, 39, 40, 41, 42, 43, 44, 58, 59, 60, 61, 62, 63,
   64, 91, 93, 94, 96, 123, 124, 125, 126]

/-- The table `what[256]` after its one-time initialisation, one layer per
assignment statement of the source (later layers override earlier ones). -/
def what : Nat → Nat :=
  let w0 : Nat → Nat := fun _ => 0
  -- for (i = 0; i < ' '; i++) what[i] = QF;
  let w1 : Nat → Nat := fun c => if c < 32 then QF else w0 c
  -- for (p = spec; *p; p++) what[(unsigned char)*p] = QF;
  let w2 : Nat → Nat := fun c => if c ∈ spec then QF else w1 c
  -- what['?'] = what['*'] = WF;
  let w3 : Nat → Nat := fun c => if c = 63 ∨ c = 42 then WF else w2 c
  -- what['\\'] = QF;
  let w4 : Nat → Nat := fun c => if c = 92 then QF else w3 c
  -- what['\''] = UF | EF;
  fun c => if c = 39 then UF ||| EF else w4 c

/-- Loop state of `escape_filename`: the bytes stored so far at `buf[0..d)`
(`none` when `buf` is `NULL`), the counter `d` and the quoting state `q`. -/
structure EscSt where
  buf : Option Str
  d : Nat
  q : Nat
deriving DecidableEq, Repr

/-- The statement pair `if (buf) buf[d] = c; d++;`. -/
def EscSt.put (st : EscSt) (c : Nat) : EscSt :=
  { st with buf := st.buf.map (fun b => b ++ [c]), d := st.d + 1 }

/-- The first loop of `escape_filename`:
`for (i = 0; i < l; i++) if ((v = what[name[i]] & (QF | WF | UF))) break;`
run on the bytes from index `i` on; returns the final `(i, v)`.  The incoming
`v` is the value the variable holds before the loop. -/
def escScan : Str → Nat → Nat → Nat × Nat
  | [], i, v => (i, v)
  | c :: cs, i, _ =>
    let v := what c &&& (QF ||| WF ||| UF)
    if v ≠ 0 then (i, v) else escScan cs (i + 1) v

/-- The part of one iteration of the main loop of `escape_filename` that runs
before the byte `c` at index `i` is stored: the quote toggle and the escape. -/
def escPre (tail : Int) (i : Nat) (c : Nat) (st : EscSt) : EscSt :=
  let v := what c
  -- if (v & WF) v |= i >= tail ? UF : QF;
  let v := if v &&& WF ≠ 0 then v ||| (if (i : Int) ≥ tail then UF else QF) else v
  -- if (v & q) { if (buf) buf[d] = QUOTE; q ^= QF | UF; d++; }
  let st := if v &&& st.q ≠ 0 then { st.put QUOTE with q := st.q ^^^ (QF ||| UF) } else st
  -- if (v & EF) { if (buf) buf[d] = ESCAPE; d++; }
  if v &&& EF ≠ 0 then st.put ESCAPE else st

/-- One iteration of the main loop of `escape_filename` for the byte `c` at
index `i`; it ends with `if (buf) buf[d] = name[i]; d++;`. -/
def escStep (tail : Int) (i : Nat) (c : Nat) (st : EscSt) : EscSt :=
  (escPre tail i c st).put c

/-- The main loop `for (i = 0; i < l; i++) { ... }` on the bytes from index
`i` on. -/
def escLoop (tail : Int) : Str → Nat → EscSt → EscSt
  | [], _, st => st
  | c :: cs, i, st => escLoop tail cs (i + 1) (escStep tail i c st)

/-- The state of `escape_filename` when its main loop is entered: the table
scan, the decision on a leading quote and the `./` put before a leading minus
sign.  `tail` is already normalised. -/
def escInit (buf : Option Str) (name : Str) (tail : Int) (v0 : Nat) : EscSt :=
  -- for (i = 0; i < l; i++) if ((v = what[...] & (QF | WF | UF))) break;
  let iv := escScan name 0 v0
  -- if (v & WF) v |= i >= tail ? UF : QF;
  let v := if iv.2 &&& WF ≠ 0 then iv.2 ||| (if (iv.1 : Int) ≥ tail then UF else QF) else iv.2
  -- q = QF, d = 0
  let st : EscSt := { buf := buf, d := 0, q := QF }
  -- if (v & QF) { if (buf) buf[d] = QUOTE; d++ , q = UF; }
  let st := if v &&& QF ≠ 0 then { st.put QUOTE with q := UF } else st
  -- if (name[0] == '-') { if (buf) buf[d] = '.' , buf[d + 1] = DIR_SEP; d += 2; }
  if name.head? = some 45 then (st.put 46).put DIR_SEP else st

/-- The function `escape_filename(buf, name, tail)`.  `buf` is `none` for a
`NULL` buffer and `some []` for a buffer to fill; the result is the returned
count `d` and the bytes stored in front of the terminating NUL.  `v0` is the
indeterminate value the uninitialised local `v` holds on entry: the code reads
it when `name` is empty. -/
def escape_filename (buf : Option Str) (name : Str) (tail : Int) (v0 : Nat) :
    Nat × Option Str :=
  -- l = strlen(name); if (tail < 0) tail = l;
  let l := name.length
  let tail : Int := if tail < 0 then (l : Int) else tail
  let st := escInit buf name tail v0
  let st := escLoop tail name 0 st
  -- if (q & UF) { if (buf) buf[d] = QUOTE; d++; }
  let st := if st.q &&& UF ≠ 0 then st.put QUOTE else st
  (st.d, st.buf)

/-- The token `escape_filename` writes into a buffer. -/
def escaped (name : Str) (tail : Int) (v0 : Nat) : Str :=
  ((escape_filename (some []) name tail v0).2).getD []

/-! ### Reading a token as a POSIX shell word -/

/-- Scanner state of a shell word: outside quotes, between single quotes, or
right after a backslash outside quotes. -/
inductive ShMode where
  | plain
  | quoted
  | escaped
deriving DecidableEq, Repr

/-- One byte of a shell word: bytes between single quotes are literal, a
backslash outside quotes makes the next byte literal. -/
def shStep (s : ShMode × Str) (c : Nat) : ShMode × Str :=
  match s.1 with
  | ShMode.plain =>
    if c = 39 then (ShMode.quoted, s.2)
    else if c = 92 then (ShMode.escaped, s.2)
    else (ShMode.plain, s.2 ++ [c])
  | ShMode.quoted =>
    if c = 39 then (ShMode.plain, s.2) else (ShMode.quoted, s.2 ++ [c])
  | ShMode.escaped => (ShMode.plain, s.2 ++ [c])

/-- Scanner state after reading `tok` from the start. -/
def shScan (tok : Str) : ShMode × Str := tok.foldl shStep (ShMode.plain, [])

/-- The scanner mode that corresponds to the quoting state `q`. -/
def modeOf (q : Nat) : ShMode := if q = UF then ShMode.quoted else ShMode.plain

/-- The buffer holds `out`, the counter is its length, and the shell scanner
after `out` is in the mode of `q`, having read `acc`. -/
def Sync (st : EscSt) (out acc : Str) : Prop :=
  st.buf = some out ∧ st.d = out.length ∧ (st.q = QF ∨ st.q = UF) ∧
    shScan out = (modeOf st.q, acc)

/-- The bytes `escape_filename` puts in front of a name that starts with a
minus sign. -/
def dashLead (name : Str) : Str := if name.head? = some 45 then [46, 47] else []

/-- The state in which iteration `i` of the main loop of
`escape_filename(buf, name, tail)` executes `buf[d] = name[i]`: its `d` is the
index at which byte `i` of the name is stored, its `buf` what has been stored
before. -/
def escAt (name : Str) (tail : Int) (v0 : Nat) (i : Nat) : EscSt :=
  let t : Int := if tail < 0 then (name.length : Int) else tail
  escPre t i (name.getD i 0) (escLoop t (name.take i) 0 (escInit (some []) name t v0))

/-- The two runs of `escape_filename`, with a `NULL` buffer and with a buffer
to fill, are in step: same `q`, same `d`, and the filled buffer holds `d`
bytes. -/
def EscRel (s1 s2 : EscSt) : Prop :=
  s1.q = s2.q ∧ s1.d = s2.d ∧ s1.buf = none ∧ ∃ b, s2.buf = some b ∧ b.length = s2.d

/-! ## Program state and collaborators -/

/-- One `tempfile` record.  Records live in the `tempstore` arena; a pointer to
a record is its index in the arena. -/
structure tempfile where
  next : Option Nat
  id : Nat
  type : Nat
  rgb : Bool
  name : Str
deriving DecidableEq, Repr

/-- Calls that leave the program, and calls of `get_temp_file`, in the order
they are made.  The program never reads this trace. -/
inductive Event where
  | get_temp_file (type : Nat) (rgb : Bool)
  | open_excl (path : Str)
  | save_image (path : Str)
  | unlink (path : Str)
  | rmdir (path : Str)
deriving DecidableEq, Repr

/-- The state `spawn.c` reads and writes: the document globals of `memory.h`
it consults, its own statics, the names present on disk, and the trace. -/
structure World where
  /-- `mem_changed`. -/
  mem_changed : Bool
  /-- `mem_filename`, `none` for `NULL`. -/
  mem_filename : Option Str
  /-- `mem_img_bpp`. -/
  mem_img_bpp : Nat
  /-- `mem_tempfiles`: the anchor record, `none` for `NULL`. -/
  mem_tempfiles : Option Nat
  mem_width : Int
  mem_height : Int
  mem_cols : Int
  mem_xpm_trans : Int
  perim_wx : Int
  perim_wy : Int
  /-- What `marquee_at(rect)` stores when `marq_status > MARQUEE_NONE`;
  `none` when there is no marquee. -/
  marquee : Option (Int × Int × Int × Int)
  /-- Whether `mem_img[CHN_ALPHA]`, `mem_img[CHN_SEL]`, `mem_img[CHN_MASK]`
  are non-`NULL`. -/
  has_alpha : Bool
  has_sel : Bool
  has_mask : Bool
  /-- `static char *mt_temp_dir`. -/
  mt_temp_dir : Option Str
  /-- `static int index` of `last_temp_index`: an `int` that starts at 0 and in
  which `last_temp_index` stores only values that are not negative. -/
  index : Int
  /-- `static void *tempchain`. -/
  tempchain : Option Nat
  /-- The records allocated from `static wjmem *tempstore`. -/
  tempstore : List tempfile
  /-- Names of the files present on disk. -/
  files : List Str
  /-- Names of the directories present on disk. -/
  dirs : List Str
  /-- The trace. -/
  log : List Event
deriving DecidableEq, Repr

/-- The document globals of `memory.h` that `spawn.c` reads and never
writes. -/
abbrev DocPart :=
  Bool × Option Str × Nat × Int × Int × Int × Int × Int × Int × Option (Int × Int × Int × Int) ×
    Bool × Bool × Bool

/-- The document globals of a state. -/
def docPart (w : World) : DocPart :=
  (w.mem_changed, w.mem_filename, w.mem_img_bpp, w.mem_width, w.mem_height, w.mem_cols,
    w.mem_xpm_trans, w.perim_wx, w.perim_wy, w.marquee, w.has_alpha, w.has_sel, w.has_mask)

/-- One entry of `file_formats[]`. -/
structure fformat where
  name : Str
  ext : Str
  ext2 : Str
  flags : Nat
deriving DecidableEq, Repr

/-- What `spawn.c` takes from the rest of mtPaint and from the operating
system: constants and tables declared in other headers (`global.h`,
`memory.h`, `png.h`), and the outcomes of calls that can fail. -/
structure Env where
  /-- `FT_NONE`. -/
  FT_NONE : Nat
  /-- `FT_PNG`. -/
  FT_PNG : Nat
  /-- `NUM_FTYPES`. -/
  NUM_FTYPES : Nat
  /-- `file_formats[i]`. -/
  file_formats : Nat → fformat
  FF_IMAGE : Nat
  FF_NOSAVE : Nat
  FF_RGB : Nat
  /-- The macro `FF_SAVE_MASK`, which reads the document globals. -/
  FF_SAVE_MASK : DocPart → Nat
  /-- `PATHBUF`. -/
  PATHBUF : Nat
  /-- `NAMEBUF`. -/
  NAMEBUF : Nat
  /-- `detect_file_format(name, FALSE)`. -/
  detect_file_format : Str → Nat
  /-- `file_type_by_ext(name, mask)`. -/
  file_type_by_ext : Str → Nat → Nat
  /-- The directory `mkdtemp`/`mkdir` creates in `new_temp_dir`, `none` when
  the creation fails. -/
  mkdtemp : World → Option Str
  /-- Whether `open(..., O_CREAT | O_EXCL)` is allowed to create a name that
  is not on disk yet (permissions, free space). -/
  creat_ok : World → Str → Bool
  /-- Whether `malloc` of the RGB conversion buffer succeeds. -/
  malloc_ok : World → Bool
  /-- The return value of `save_image(buf, &settings)`. -/
  save_image : World → Str → Nat → Int
  /-- Whether `wjmemnew`/`wjmalloc` in `remember_temp_file` succeed. -/
  wjmalloc_ok : World → Bool
  /-- Whether `calloc(n, 1)` in `interpolate_line` succeeds. -/
  calloc_ok : World → Nat → Bool
  /-- The indeterminate value the uninitialised local `v` of `escape_filename`
  holds on entry: `v_uninit false` in a call with a NULL buffer (a length
  pass), `v_uninit true` in a call with a buffer to fill.  Nothing in the
  source relates the two. -/
  v_uninit : Bool → Nat

/-- The statement `sprintf(buf, "%d", j)`: the decimal digits of `j`. -/
def fmt_d (j : Int) : Str := (toString j).toList.map Char.toNat

/-- Modelled from the spec: `wjstrcat(dest, max, s0, l, NULL)` is defined in
another file; it stores in `dest` the first `l` bytes of `s0`, cut to fit `max`
bytes with the terminator (the spec: the stub is the basename without
extension). -/
def wjstrcat (max : Nat) (s0 : Str) (l : Nat) : Str := (s0.take l).take (max - 1)

/-- `strrchr(s, c)`: the index of the last occurrence of `c`, `none` for
`NULL`. -/
def strrchr (s : Str) (c : Nat) : Option Nat :=
  (List.range s.length).reverse.find? (fun i => s.getD i 0 = c)

/-! ## Temp-file manager -/

/-- `new_temp_dir()`: the new directory, or `NULL`. -/
def new_temp_dir (env : Env) (w : World) : Option Str × World :=
  match env.mkdtemp w with
  | some d => (some d, { w with dirs := d :: w.dirs })
  | none => (none, w)

/-- `last_temp_index(name, idx)`:
`if (idx >= 0) index = idx; return (index);`. -/
def last_temp_index (idx : Int) (w : World) : Int × World :=
  let w := if idx ≥ 0 then { w with index := idx } else w
  (w.index, w)

/-- `open(buf, O_WRONLY | O_CREAT | O_EXCL, 0644)`: whether a descriptor is
returned.  The call fails on a name that is on disk. -/
def open_excl (env : Env) (buf : Str) (w : World) : Bool × World :=
  let ok := decide (buf ∉ w.files) && env.creat_ok w buf
  (ok, { w with files := if ok then buf :: w.files else w.files,
                log := w.log ++ [Event.open_excl buf] })

/-- `INT_MAX` of a 32-bit `int`. -/
def INT_MAX : Int := 2147483647

/-- The value a 32-bit `int` holds after a computation whose exact result is
`x`: the two's complement residue, so `INT_MAX + 1` is `INT_MIN`. -/
def wrapInt (x : Int) : Int := (x + 2147483648) % 4294967296 - 2147483648

/-- State of the `for (cnt = 0; cnt < 256; cnt++ , idx++)` loop of
`get_tempname`. -/
structure ScanSt where
  /-- Whether `fd >= 0`. -/
  fd_ok : Bool
  idx : Int
  ids : Str
  buf : Str
  w : World
deriving DecidableEq, Repr

/-- The loop `for (cnt = 0; cnt < 256; cnt++ , idx++)` of `get_tempname`,
with `n` iterations left. -/
def scanLoop (env : Env) (dir f ext : Str) : Nat → ScanSt → ScanSt
  | 0, st => st
  | n + 1, st =>
    -- if (idx) sprintf(ids, "%d", idx);
    let ids := if st.idx ≠ 0 then fmt_d st.idx else st.ids
    -- snprintf(buf, PATHBUF, "%s" DIR_SEP_STR "%s%s.%s", mt_temp_dir, f, ids, ext);
    let buf := (dir ++ [DIR_SEP] ++ f ++ ids ++ [46] ++ ext).take (env.PATHBUF - 1)
    -- fd = open(buf, O_WRONLY | O_CREAT | O_EXCL, 0644);
    let r := open_excl env buf st.w
    -- if (fd >= 0) break;
    if r.1 then { fd_ok := true, idx := st.idx, ids := ids, buf := buf, w := r.2 }
    -- cnt++ , idx++ (on the `int` `idx`: past `INT_MAX` it goes on at `INT_MIN`)
    else scanLoop env dir f ext n
      { fd_ok := false, idx := wrapInt (st.idx + 1), ids := ids, buf := buf, w := r.2 }

/-- One turn of the `while (TRUE)` loop of `get_tempname` up to and including
`last_temp_index(f, idx)`. -/
def scanRound (env : Env) (dir f ext : Str) (buf : Str) (w : World) : ScanSt :=
  -- idx = last_temp_index(f, -1);
  let r := last_temp_index (-1) w
  -- ids[0] = 0;
  let st := scanLoop env dir f ext 256
    { fd_ok := false, idx := r.1, ids := [], buf := buf, w := r.2 }
  -- last_temp_index(f, idx);
  { st with w := (last_temp_index st.idx st.w).2 }

/-- The file-name stub `get_tempname` derives from `f`. -/
def stubify (env : Env) (f : Option Str) : Str :=
  -- strcpy(nstub, "tmp");
  let nstub : Str := [116, 109, 112]
  match f with
  | none => nstub
  | some f =>
    -- c = strrchr(f, DIR_SEP); if (c) f = c + 1;
    let f := match strrchr f DIR_SEP with
      | some c => f.drop (c + 1)
      | none => f
    -- c = strrchr(f, '.');
    -- if (c != f) wjstrcat(nstub, NAMEBUF, f, c ? c - f : strlen(f), NULL);
    match strrchr f 46 with
    | some 0 => nstub
    | some c => wjstrcat env.NAMEBUF f c
    | none => wjstrcat env.NAMEBUF f f.length

/-- The function `get_tempname(buf, f, type)`: the returned truth value and
the contents of `buf`.  The `while (TRUE)` loop runs at most twice, because
its second turn has `f = "tmp"` and so leaves the function. -/
def get_tempname (env : Env) (f : Option Str) (type : Nat) (w : World) :
    (Bool × Str) × World :=
  -- if (!mt_temp_dir) mt_temp_dir = new_temp_dir();
  let w := match w.mt_temp_dir with
    | some _ => w
    | none => let r := new_temp_dir env w; { r.2 with mt_temp_dir := r.1 }
  -- if (!mt_temp_dir) return (FALSE);
  match w.mt_temp_dir with
  | none => ((false, []), w)
  | some dir =>
    let f := stubify env f
    let ext := (env.file_formats type).ext
    let st := scanRound env dir f ext [] w
    -- if (fd >= 0) break;
    if st.fd_ok then ((true, st.buf), st.w)
    -- if (!strcmp(f, "tmp")) return (FALSE);
    else if f = [116, 109, 112] then ((false, st.buf), st.w)
    else
      -- f = "tmp";
      let st := scanRound env dir [116, 109, 112] ext st.buf st.w
      if st.fd_ok then ((true, st.buf), st.w) else ((false, st.buf), st.w)

/-- The function `remember_temp_file(name, type, rgb)`: the stored name, or
`NULL`. -/
def remember_temp_file (env : Env) (name : Str) (type : Nat) (rgb : Bool) (w : World) :
    Option Str × World :=
  if env.wjmalloc_ok w then
    let tmp := w.tempstore.length
    match w.mem_tempfiles with
    | some tm0 =>
      -- tm0 = tmp->id = mem_tempfiles; tmp->next = tm0->next; tm0->next = tmp;
      let nxt := (w.tempstore.get? tm0).bind (fun r => r.next)
      let store := w.tempstore.modify (fun r => { r with next := some tmp }) tm0
      (some name, { w with tempstore := store ++
        [{ next := nxt, id := tm0, type := type, rgb := rgb, name := name }] })
    | none =>
      -- tmp->next = tempchain; mem_tempfiles = tempchain = tmp->id = tmp;
      (some name, { w with
        tempstore := w.tempstore ++
          [{ next := w.tempchain, id := tmp, type := type, rgb := rgb, name := name }],
        mem_tempfiles := some tmp, tempchain := some tmp })
  else (none, w)

/-- The loop
`for (tmp = mem_tempfiles; tmp; tmp = tmp->next) { if (tmp->id != mem_tempfiles) break; if (...) return (tmp->name); }`
of `get_temp_file`, from the record `tmp` on, for at most `fuel` records.  A
walk along a chain without a cycle visits each record at most once, so the
fuel `tempstore.length + 1` that `get_temp_file` gives is not used up on
one. -/
def findTemp (store : List tempfile) (anchor : Option Nat) (type : Nat) (rgb : Bool) :
    Nat → Option Nat → Option Str
  | 0, _ => none
  | _ + 1, none => none
  | fuel + 1, some a =>
    match store.get? a with
    | none => none
    | some r =>
      if some r.id ≠ anchor then none
      else if r.type = type ∧ r.rgb = rgb then some r.name
      else findTemp store anchor type rgb fuel r.next

/-- The first statement of `get_temp_file`, "use the original file if
possible": the name it returns, `none` when it does not return.
`if (!mem_changed && mem_filename && (!rgb ^ (mem_img_bpp == 3)) &&
((type == FT_NONE) || (detect_file_format(mem_filename, FALSE) == type)))
return (mem_filename);` -/
def useOriginal (env : Env) (type : Nat) (rgb : Bool) (w : World) : Option Str :=
  match w.mem_filename with
  | some fn =>
    if !w.mem_changed && xor (!rgb) (decide (w.mem_img_bpp = 3)) &&
        (decide (type = env.FT_NONE) || decide (env.detect_file_format fn = type))
    then some fn else none
  | none => none

/-- The part "analyze name" of `get_temp_file`: the final `type` and the name
hint `f`. -/
def tempType (env : Env) (type : Nat) (w : World) : Nat × Str :=
  -- char *f = "tmp.png";
  let f : Str := [116, 109, 112, 46, 112, 110, 103]
  -- if ((type == FT_NONE) && mem_filename)
  --   type = file_type_by_ext(f = mem_filename, FF_SAVE_MASK);
  let tf : Nat × Str := match w.mem_filename with
    | some fn =>
      if type = env.FT_NONE then (env.file_type_by_ext fn (env.FF_SAVE_MASK (docPart w)), fn)
      else (type, f)
    | none => (type, f)
  -- if (type == FT_NONE) type = FT_PNG;
  (if tf.1 = env.FT_NONE then env.FT_PNG else tf.1, tf.2)

/-- The last part of `get_temp_file`, from "create temp file" on: a new name,
the image saved under it, and the record. -/
def makeTemp (env : Env) (type : Nat) (rgb : Bool) (f : Str) (w : World) : Option Str × World :=
  -- if (!get_tempname(buf, f, type)) return (NULL);
  let r := get_tempname env (some f) type w
  if !r.1.1 then (none, r.2)
  else
    let buf := r.1.2
    let w := r.2
    -- if (rgb && (mem_img_bpp == 1)) { img = malloc(...); if (!img) return (NULL); ... }
    if rgb && decide (w.mem_img_bpp = 1) && !env.malloc_ok w then (none, w)
    else
      -- res = save_image(buf, &settings); free(img); if (res) return (NULL);
      let res := env.save_image w buf type
      let w := { w with log := w.log ++ [Event.save_image buf] }
      if res ≠ 0 then (none, w)
      -- return (remember_temp_file(buf, type, rgb));
      else remember_temp_file env buf type rgb w

/-- The body of `get_temp_file(type, rgb)`. -/
def get_temp_file_body (env : Env) (type : Nat) (rgb : Bool) (w : World) : Option Str × World :=
  match useOriginal env type rgb w with
  | some fn => (some fn, w)
  | none =>
    let tf := tempType env type w
    -- for (tmp = mem_tempfiles; tmp; tmp = tmp->next) ...
    match findTemp w.tempstore w.mem_tempfiles tf.1 rgb (w.tempstore.length + 1)
        w.mem_tempfiles with
    | some nm => (some nm, w)
    | none => makeTemp env tf.1 rgb tf.2 w

/-- The function `get_temp_file(type, rgb)`: the returned name, or `NULL`.
The call is entered in the trace. -/
def get_temp_file (env : Env) (type : Nat) (rgb : Bool) (w : World) : Option Str × World :=
  get_temp_file_body env type rgb { w with log := w.log ++ [Event.get_temp_file type rgb] }

/-- The loop `for (tmp = tempchain; tmp; tmp = tmp->next) unlink(tmp->name);`
of `spawn_quit`, from the record `tmp` on, for at most `fuel` records (see
`findTemp` for the fuel). -/
def unlinkChain (store : List tempfile) : Nat → Option Nat → World → World
  | 0, _, w => w
  | _ + 1, none, w => w
  | fuel + 1, some a, w =>
    match store.get? a with
    | none => w
    | some r =>
      unlinkChain store fuel r.next
        { w with files := w.files.filter (fun p => p ≠ r.name),
                 log := w.log ++ [Event.unlink r.name] }

/-- `rmdir(dir)`: removes the directory when no file on disk lies in it. -/
def rmdir (dir : Str) (w : World) : World :=
  let w := { w with log := w.log ++ [Event.rmdir dir] }
  if w.files.any (fun p => (dir ++ [DIR_SEP]).isPrefixOf p) then w
  else { w with dirs := w.dirs.filter (fun d => d ≠ dir) }

/-- The function `spawn_quit()`. -/
def spawn_quit (w : World) : World :=
  -- for (tmp = tempchain; tmp; tmp = tmp->next) unlink(tmp->name);
  let w := unlinkChain w.tempstore (w.tempstore.length + 1) w.tempchain w
  -- if (mt_temp_dir) rmdir(mt_temp_dir);
  match w.mt_temp_dir with
  | some dir => rmdir dir w
  | none => w

/-! ### Vocabulary for the temp-file manager -/

/-- The records and the two pointers into them. -/
def storePart (w : World) : List tempfile × Option Nat × Option Nat :=
  (w.tempstore, w.mem_tempfiles, w.tempchain)

/-- The anchor is as `remember_temp_file` leaves it: `mem_tempfiles` is
`NULL` or points to a record whose `id` is the record itself. -/
def AnchorOk (w : World) : Prop :=
  match w.mem_tempfiles with
  | none => True
  | some a => (w.tempstore.get? a).map (fun r => r.id) = some a

/-- Every recorded temp file is still on disk. -/
def FilesKept (w : World) : Prop := ∀ r ∈ w.tempstore, r.name ∈ w.files

/-- No two records share a name, and the document's own file, if it has one,
is on disk and is not a recorded temp file. -/
def NamesApart (w : World) : Prop :=
  (w.tempstore.map (fun r => r.name)).Nodup ∧
    ∀ fn, w.mem_filename = some fn → fn ∈ w.files ∧ fn ∉ w.tempstore.map (fun r => r.name)

/-- The number of `open` calls in the trace. -/
def openCalls (w : World) : Nat :=
  w.log.countP (fun e => match e with
    | Event.open_excl _ => true
    | _ => false)

/-- The name `get_tempname` tries for the stub `f` and the index `idx`. -/
def candidate (env : Env) (dir f ext : Str) (idx : Int) : Str :=
  (dir ++ [DIR_SEP] ++ f ++ (if idx ≠ 0 then fmt_d idx else []) ++ [46] ++ ext).take
    (env.PATHBUF - 1)

/-- The `open` calls of one window of `n` names for the stub `f`, from the
index `idx` on: the index of the call number `k` is the `int` value of
`idx + k`. -/
def window (env : Env) (dir f ext : Str) (idx : Int) (n : Nat) : List Event :=
  (List.range n).map
    (fun (k : Nat) => Event.open_excl (candidate env dir f ext (wrapInt (idx + (k : Int)))))

/-- The index `last_temp_index` holds after a window of 256 failed calls that
began at `idx`: the loop leaves `idx + 256` as an `int`, which is stored unless
it is negative. -/
def nextIndex (idx : Int) : Int := if idx + 256 ≤ INT_MAX then idx + 256 else idx

/-- The temp directory `get_tempname` works in: the one the session has, or
else the one `new_temp_dir` makes; `none` when there is none and none can be
made. -/
def tempDir (env : Env) (w : World) : Option Str :=
  match w.mt_temp_dir with
  | some d => some d
  | none => env.mkdtemp w

/-- The `open` calls of a `get_tempname` that finds no free name, for the
stub `stub` and the stored index `idx`: one window of 256 names with the stub,
and, unless the stub is `tmp` itself, one more window of 256 names with the
stub `tmp` from the index the first window left. -/
def tries (env : Env) (dir stub ext : Str) (idx : Int) : List Event :=
  if stub = [116, 109, 112] then window env dir [116, 109, 112] ext idx 256
  else window env dir stub ext idx 256 ++ window env dir [116, 109, 112] ext (nextIndex idx) 256

/-! ## `interpolate_line` -/

/-- `static char *pat_chars = "%fNxywhXYWHCTBASM"`. -/
def pat_chars : Str :=
  [37, 102, 78, 120, 121, 119, 104, 88, 89, 87, 72, 67, 84, 66, 65, 83, 77]

def PAT_percent : Nat := 0
def PAT_f : Nat := 1
def PAT_N : Nat := 2
def PAT_x : Nat := 3
def PAT_y : Nat := 4
def PAT_w : Nat := 5
def PAT_h : Nat := 6
def PAT_X : Nat := 7
def PAT_Y : Nat := 8
def PAT_W : Nat := 9
def PAT_H : Nat := 10
def PAT_C : Nat := 11
def PAT_T : Nat := 12
def PAT_B : Nat := 13
def PAT_A : Nat := 14
def PAT_S : Nat := 15
def PAT_M : Nat := 16
def PAT_NONE : Nat := 17

/-- `tolower(c)` in the C locale. -/
def tolower (c : Nat) : Nat := if 65 ≤ c ∧ c ≤ 90 then c + 32 else c

/-- `strncmp(a, b, n) == 0`: the first `n` bytes agree, up to a common
terminator. -/
def strncmp_eq : Str → Str → Nat → Bool
  | _, _, 0 => true
  | [], [], _ + 1 => true
  | [], _ :: _, _ + 1 => false
  | _ :: _, [], _ + 1 => false
  | x :: a, y :: b, n + 1 => decide (x = y) && strncmp_eq a b n

/-- `strncasecmp(a, b, n) == 0`. -/
def strncasecmp_eq : Str → Str → Nat → Bool
  | _, _, 0 => true
  | [], [], _ + 1 => true
  | [], _ :: _, _ + 1 => false
  | _ :: _, [], _ + 1 => false
  | x :: a, y :: b, n + 1 => decide (tolower x = tolower y) && strncasecmp_eq a b n

/-- `strspn(s, " \t")`. -/
def strspn_blank (s : Str) : Nat := (s.takeWhile (fun c => c = 32 ∨ c = 9)).length

/-- `strcspn(s, "> \t")`. -/
def strcspn_dir (s : Str) : Nat := (s.takeWhile (fun c => ¬ (c = 62 ∨ c = 32 ∨ c = 9))).length

/-- `strstr(s, "%f") != NULL`. -/
def strstr_pf (s : Str) : Bool := decide ([37, 102] <:+: s)

/-- The variables the directive loop of `interpolate_line` sets. -/
structure DirSt where
  rgb : Bool
  fform : Nat
  extend : Bool
deriving DecidableEq, Repr

/-- The loop `for (i = FT_NONE + 1; i < NUM_FTYPES; i++) { ... fform = i; }`
over the savable image formats whose name or extension the token of length
`l` at `pat` abbreviates. -/
def formatLoop (env : Env) (pat : Str) (l : Nat) (fform : Nat) : Nat :=
  (List.range' (env.FT_NONE + 1) (env.NUM_FTYPES - (env.FT_NONE + 1))).foldl
    (fun fform i =>
      let ff := env.file_formats i
      if (ff.flags &&& env.FF_IMAGE ≠ 0) ∧ ¬ (ff.flags &&& env.FF_NOSAVE ≠ 0) ∧
          (strncasecmp_eq ff.name pat l ∨ strncasecmp_eq ff.ext pat l ∨
            (ff.ext2 ≠ [] ∧ strncasecmp_eq ff.ext2 pat l))
      then i else fform)
    fform

/-- One directive of the `while (cmd)` loop, the token of length `l` at
`pat`: the three-way `if` that sets `rgb`, `extend` or `fform`. -/
def dirToken (env : Env) (pat : Str) (l : Nat) (st : DirSt) : DirSt :=
  -- if (!strncasecmp("RGB", pat, l)) rgb = TRUE;
  if strncasecmp_eq [82, 71, 66] pat l then { st with rgb := true }
  -- else if (!strncmp("%", pat, l)) extend = TRUE;
  else if strncmp_eq [37] pat l then { st with extend := true }
  else { st with fform := formatLoop env pat l st.fform }

/-- The loop `while (cmd) { ... }` of `interpolate_line` for `cmd` true: the
final variables and the final `pat`.  Every turn that does not leave the loop
moves `pat` past a `>`, so `fuel` above the length of `pat` is never used
up. -/
def dirLoop (env : Env) : Nat → Str → DirSt → DirSt × Str
  | 0, pat, st => (st, pat)
  | fuel + 1, pat, st =>
    -- pat += strspn(pat, " \t");
    let pat := pat.drop (strspn_blank pat)
    -- if (*pat != '>') break;
    match pat with
    | 62 :: pat =>
      -- l = strcspn(++pat, "> \t");
      let l := strcspn_dir pat
      -- pat += l;
      dirLoop env fuel (pat.drop l) (dirToken env pat l st)
    | _ => (st, pat)

/-- Variables of the expansion loop of `interpolate_line` that change while
it runs. -/
structure PassSt where
  w : World
  fname : Option Str
  /-- The bytes stored so far at `line[0..l)`, `none` while `line` is `NULL`. -/
  line : Option Str
  l : Nat
deriving DecidableEq, Repr

/-- How one pass over the pattern ends: at the end of the pattern, or with
`return (NULL)` after a failed `get_temp_file`. -/
inductive PassRes where
  | done (st : PassSt)
  | failed (w : World)
deriving DecidableEq, Repr

/-- The statement pair `if (line) line[l] = c; l++;`. -/
def PassSt.put (st : PassSt) (c : Nat) : PassSt :=
  { st with line := st.line.map (fun b => b ++ [c]), l := st.l + 1 }

/-- The statement pair `if (line) memcpy(line + l, s, j); l += j;` with
`j = strlen(s)`. -/
def PassSt.puts (st : PassSt) (s : Str) : PassSt :=
  { st with line := st.line.map (fun b => b ++ s), l := st.l + s.length }

/-- The number a numeric code `i` (from `PAT_x` to `PAT_M`) expands to. -/
def patNumber (rect : Int × Int × Int × Int) (w : World) (i : Nat) : Int :=
  -- j = rect[i - PAT_x];
  if i = PAT_x then rect.1
  else if i = PAT_y then rect.2.1
  else if i = PAT_w then rect.2.2.1
  else if i = PAT_h then rect.2.2.2
  else if i = PAT_X then w.perim_wx
  else if i = PAT_Y then w.perim_wy
  else if i = PAT_W then w.mem_width
  else if i = PAT_H then w.mem_height
  else if i = PAT_C then w.mem_cols
  else if i = PAT_T then w.mem_xpm_trans
  else if i = PAT_B then (w.mem_img_bpp : Int)
  else if i = PAT_A then (if w.has_alpha then 1 else 0)
  else if i = PAT_S then (if w.has_sel then 1 else 0)
  else (if w.has_mask then 1 else 0)

/-- The code `i` the expansion loop gives to the byte `c` followed by the byte
`d`: `PAT_NONE` unless `c` is `%` and `d` is in `pat_chars` and either
`extend` is set or the code is `PAT_f`. -/
def patCode (extend : Bool) (c d : Nat) : Nat :=
  let k := pat_chars.indexOf d
  if c = 37 ∧ k < pat_chars.length ∧ (extend ∨ k = PAT_f) then k else PAT_NONE

/-- The statements `j = escape_filename(line ? line + l : NULL, fname, -1); l += j;`
for `fname = fn`, in the world `w`. -/
def patEscape (env : Env) (st : PassSt) (fn : Str) (w : World) : PassSt :=
  let e := escape_filename (st.line.map (fun _ => [])) fn (-1) (env.v_uninit st.line.isSome)
  { w := w, fname := some fn, line := st.line.map (fun b => b ++ e.2.getD []), l := st.l + e.1 }

/-- The body of `case PAT_f` after `p++`. -/
def patFile (env : Env) (cmd rgb : Bool) (fform : Nat) (st : PassSt) : PassRes :=
  -- if (!cmd) continue;
  if !cmd then PassRes.done st
  else
    match st.fname with
    | some fn => PassRes.done (patEscape env st fn st.w)
    | none =>
      -- if (!fname) { fname = get_temp_file(fform, rgb); if (!fname) return (NULL); }
      match get_temp_file env fform rgb st.w with
      | (none, w) => PassRes.failed w
      | (some fn, w) => PassRes.done (patEscape env st fn w)

/-- The loop `while ((c = *p++)) { ... }` of `interpolate_line` from `p` on. -/
def passLoop (env : Env) (cmd extend rgb : Bool) (fform : Nat) (rect : Int × Int × Int × Int) :
    Str → PassSt → PassRes
  | [], st => PassRes.done st
  -- `*p` is the terminator: `default`
  | [c], st => PassRes.done (st.put c)
  | c :: d :: p, st =>
    let i := patCode extend c d
    if i = PAT_f then
      match patFile env cmd rgb fform st with
      | PassRes.done st => passLoop env cmd extend rgb fform rect p st
      | PassRes.failed w => PassRes.failed w
    else if i = PAT_N then
      -- p++; if (!mem_filename) continue; j = strlen(mem_filename); ...
      match st.w.mem_filename with
      | none => passLoop env cmd extend rgb fform rect p st
      | some fn => passLoop env cmd extend rgb fform rect p (st.puts fn)
    else if i = PAT_percent then
      -- p++; if (line) line[l] = c; l++;
      passLoop env cmd extend rgb fform rect p (st.put c)
    else if i = PAT_NONE then
      -- if (line) line[l] = c; l++;
      passLoop env cmd extend rgb fform rect (d :: p) (st.put c)
    else
      -- j = sprintf(buf, "%d", j); if (line) memcpy(line + l, buf, j); l += j; p++;
      passLoop env cmd extend rgb fform rect p (st.puts (fmt_d (patNumber rect st.w i)))

/-- What `interpolate_line` returns: `NULL`, the pointer `pattern` it was
given, or a new string. -/
inductive Ret where
  | null
  | pattern
  | line (s : Str)
deriving DecidableEq, Repr

/-- The adjustment of `fform` and `rgb` after the directive loop
(`if (fform != FT_NONE) { ... }`). -/
def fixFormat (env : Env) (w : World) (st : DirSt) : DirSt :=
  if st.fform ≠ env.FT_NONE then
    let flags := (env.file_formats st.fform).flags
    -- if (rgb && !(flags & FF_RGB)) fform = FT_NONE;
    if st.rgb ∧ flags &&& env.FF_RGB = 0 then { st with fform := env.FT_NONE }
    -- else if (flags & FF_SAVE_MASK);
    else if flags &&& env.FF_SAVE_MASK (docPart w) ≠ 0 then st
    -- else if (flags & FF_RGB) rgb = TRUE;
    else if flags &&& env.FF_RGB ≠ 0 then { st with rgb := true }
    -- else fform = FT_NONE;
    else { st with fform := env.FT_NONE }
  else st

/-- The variables and the position `pat` with which `interpolate_line` enters
its expansion loop. -/
def lineSetup (env : Env) (pattern : Str) (cmd : Bool) (w : World) : DirSt × Str :=
  -- int rgb = mem_img_bpp == 3, fform = FT_NONE, extend = !cmd;
  let st0 : DirSt := { rgb := decide (w.mem_img_bpp = 3), fform := env.FT_NONE, extend := !cmd }
  -- while (cmd) { ... }
  if cmd then dirLoop env (pattern.length + 1) pattern st0 else (st0, pattern)

/-- The function `interpolate_line(pattern, cmd)`. -/
def interpolate_line (env : Env) (pattern : Str) (cmd : Bool) (w : World) : Ret × World :=
  let r := lineSetup env pattern cmd w
  let pat := r.2
  -- if (!extend && !strstr(pattern, "%f")) return (pattern);
  if !r.1.extend && !strstr_pf pattern then (Ret.pattern, w)
  else
    -- if (fform != FT_NONE) { ... }
    let st := fixFormat env w r.1
    -- memset(rect, 0, sizeof(rect)); if (marq_status > MARQUEE_NONE) marquee_at(rect);
    let rect : Int × Int × Int × Int := w.marquee.getD (0, 0, 0, 0)
    -- first turn of `while (TRUE)`: `line` is `NULL`
    match passLoop env cmd st.extend st.rgb st.fform rect pat
        { w := w, fname := none, line := none, l := 0 } with
    | PassRes.failed w => (Ret.null, w)
    | PassRes.done p1 =>
      -- line = calloc(l + 1, 1); if (!line) return (NULL);
      if !env.calloc_ok p1.w (p1.l + 1) then (Ret.null, p1.w)
      else
        -- second turn: `line` is set, `fname` is kept
        match passLoop env cmd st.extend st.rgb st.fform rect pat
            { w := p1.w, fname := p1.fname, line := some [], l := 0 } with
        | PassRes.failed w => (Ret.null, w)
        -- if (line) return (line);
        | PassRes.done p2 => (Ret.line (p2.line.getD []), p2.w)

/-! ### Specification vocabulary for `interpolate_line` -/

/-- The leading directives of a template, read byte by byte: blanks are
skipped, a `>` opens a token, the token runs up to the next `>`, blank or the
end, and the first byte that is neither blank nor `>` outside a token ends the
directives.  `cur` is the token being read, if any. -/
def dirTokens : Str → Option Str → List Str
  | [], none => []
  | [], some t => [t]
  | c :: s, none =>
    if c = 32 ∨ c = 9 then dirTokens s none
    else if c = 62 then dirTokens s (some [])
    else []
  | c :: s, some t =>
    if c = 62 then t :: dirTokens s (some [])
    else if c = 32 ∨ c = 9 then t :: dirTokens s none
    else dirTokens s (some (t ++ [c]))

/-- The expansion of a template body in which every file placeholder stands
for the one token `ftok`: `%f` gives `ftok` (nothing outside command mode),
`%N` the document's file name `name` (nothing when there is none), `%%` a
percent sign, a numeric code `i` the decimal digits of `num i`, and any other
byte itself. -/
def expandWith (cmd extend : Bool) (name : Option Str) (num : Nat → Int) (ftok : Str) :
    Str → Str
  | [] => []
  | [c] => [c]
  | c :: d :: p =>
    let i := patCode extend c d
    if i = PAT_f then (if cmd then ftok else []) ++ expandWith cmd extend name num ftok p
    else if i = PAT_N then name.getD [] ++ expandWith cmd extend name num ftok p
    else if i = PAT_percent then c :: expandWith cmd extend name num ftok p
    else if i = PAT_NONE then c :: expandWith cmd extend name num ftok (d :: p)
    else fmt_d (num i) ++ expandWith cmd extend name num ftok p

/-- Whether the expansion of a template body reaches a file placeholder that
needs a file name: a `%f` in command mode. -/
def usesFile (cmd extend : Bool) : Str → Bool
  | [] => false
  | [_] => false
  | c :: d :: p =>
    let i := patCode extend c d
    if i = PAT_f then cmd || usesFile cmd extend p
    else if i = PAT_NONE then usesFile cmd extend (d :: p)
    else usesFile cmd extend p

/-- The state of the expansion loop after the bytes `x` have been added to
the line, with file name `fname` and world `w`. -/
def PassSt.ext (st : PassSt) (fname : Option Str) (w : World) (x : Str) : PassSt :=
  { w := w, fname := fname, line := st.line.map (fun b => b ++ x), l := st.l + x.length }

/-- The number of `get_temp_file` calls in the trace. -/
def gtfCalls (w : World) : Nat :=
  w.log.countP (fun e => match e with
    | Event.get_temp_file _ _ => true
    | _ => false)

/-! ### A concrete environment and document -/

/-- A small format table: PNG (1) and JPEG (2). -/
def sampleFormats (i : Nat) : fformat :=
  if i = 1 then { name := [80, 78, 71], ext := [112, 110, 103], ext2 := [], flags := 7 }
  else if i = 2 then
    { name := [74, 80, 69, 71], ext := [106, 112, 103], ext2 := [106, 112, 101, 103], flags := 5 }
  else { name := [], ext := [], ext2 := [], flags := 0 }

/-- An environment in which every call succeeds: the temp directory is
`/tmp/mt`, formats are told by their extension. -/
def sampleEnv : Env where
  FT_NONE := 0
  FT_PNG := 1
  NUM_FTYPES := 3
  file_formats := sampleFormats
  FF_IMAGE := 1
  FF_NOSAVE := 8
  FF_RGB := 4
  FF_SAVE_MASK := fun d => if d.2.2.1 = 3 then 4 else 2
  PATHBUF := 2048
  NAMEBUF := 256
  detect_file_format := fun s => if [46, 112, 110, 103] <:+ s then 1 else 0
  file_type_by_ext := fun s _ => if [46, 112, 110, 103] <:+ s then 1 else 0
  mkdtemp := fun _ => some [47, 116, 109, 112, 47, 109, 116]
  creat_ok := fun _ _ => true
  malloc_ok := fun _ => true
  save_image := fun _ _ _ => 0
  wjmalloc_ok := fun _ => true
  calloc_ok := fun _ _ => true
  v_uninit := fun _ => 0

/-- A fresh session with an unmodified indexed image loaded from `name`. -/
def sampleWorld (name : Option Str) : World where
  mem_changed := false
  mem_filename := name
  mem_img_bpp := 1
  mem_tempfiles := none
  mem_width := 640
  mem_height := 480
  mem_cols := 256
  mem_xpm_trans := -1
  perim_wx := 0
  perim_wy := 0
  marquee := none
  has_alpha := false
  has_sel := false
  has_mask := false
  mt_temp_dir := none
  index := 0
  tempchain := none
  tempstore := []
  files := match name with
    | some n => [n]
    | none => []
  dirs := []
  log := []

instance (w : World) : Decidable (AnchorOk w) := by
  unfold AnchorOk
  split <;> infer_instance

instance (w : World) : Decidable (FilesKept w) := by
  unfold FilesKept
  infer_instance

/-- The state after this session: a modified indexed image without a file
name; `get_temp_file(FT_NONE, FALSE)` saved it as `/tmp/mt/tmp.png` for a
spawned command, and the command has moved that file away. -/
def consumedWorld : World :=
  { (get_temp_file sampleEnv 0 false { sampleWorld none with mem_changed := true }).2 with
    files := [] }

/-- The environment `sampleEnv` with a temp directory in which no file can
be created. -/
def fullEnv : Env := { sampleEnv with creat_ok := fun _ _ => false }

/-- The environment `sampleEnv` with no memory left for the RGB conversion
buffer. -/
def leakEnv : Env := { sampleEnv with malloc_ok := fun _ => false }

/-- A fresh session whose temp directory `/tmp/mt` exists already. -/
def dirWorld : World :=
  { sampleWorld none with
    mt_temp_dir := some [47, 116, 109, 112, 47, 109, 116],
    dirs := [[47, 116, 109, 112, 47, 109, 116]] }

/-- A fresh session (no temp directory yet) on a disk where every name
`get_tempname` tries in `/tmp/mt` for the hint `a.png` is taken. -/
def occupiedWorld : World :=
  { sampleWorld none with
    files := (tries sampleEnv [47, 116, 109, 112, 47, 109, 116] [97] [112, 110, 103] 0).filterMap
      (fun e => match e with
        | Event.open_excl p => some p
        | _ => none) }

/-- The environment `sampleEnv` with no memory left for a new `tempfile`
record. -/
def noRecordEnv : Env := { sampleEnv with wjmalloc_ok := fun _ => false }

/-! ## `spawn_process` (POSIX) -/

/-- The outcomes of the calls `spawn_process` makes in its three processes. -/
structure SpawnOutcomes where
  /-- The first `fork()` does not return a negative value. -/
  fork_ok : Bool
  /-- `pipe(fds) != -1`. -/
  pipe_ok : Bool
  /-- The second `fork()` succeeds: `grandchild > 0` in the child. -/
  fork2_ok : Bool
  /-- `chdir(directory)` succeeds. -/
  chdir_ok : Bool
  /-- `close(fds[0]) != -1` in the grandchild. -/
  close_ok : Bool
  /-- `fcntl(fds[1], F_GETFD) != -1`. -/
  getfd_ok : Bool
  /-- `fcntl(fds[1], F_SETFD, fd_flags | FD_CLOEXEC) != -1`. -/
  setfd_ok : Bool
  /-- `execvp` starts the program, so it does not return. -/
  exec_ok : Bool
  /-- The return value of `write(fds[1], &err, sizeof(err))`. -/
  write_n : Int
  /-- `read(fds[0], &err, sizeof(err))` does not fail. -/
  read_ok : Bool
deriving DecidableEq, Repr

/-- The grandchild: `none` when it becomes the program (the close-on-exec
write end closes with nothing written), else the return value of its `write`
of the error code, after which it calls `_exit(1)`. -/
def grandchild (directory : Option Str) (o : SpawnOutcomes) : Option Int :=
  -- if (directory) chdir(directory);        (the return value is not looked at)
  let _chdir : Bool := match directory with
    | some _ => o.chdir_ok
    | none => true
  -- if (close(fds[0]) != -1)
  --   if ((fd_flags = fcntl(fds[1], F_GETFD)) != -1)
  --     if (fcntl(fds[1], F_SETFD, fd_flags | FD_CLOEXEC) != -1)
  --       execvp(argv[0], &argv[0]);
  if o.close_ok && o.getfd_ok && o.setfd_ok && o.exec_ok then none
  -- err = errno; write(fds[1], &err, sizeof(err)); _exit(1);
  else some o.write_n

/-- The child: the value it passes to `_exit`. -/
def supervisor (directory : Option Str) (o : SpawnOutcomes) : Int :=
  -- if (pipe(fds) == -1) _exit(1);
  if !o.pipe_ok then 1
  else
    -- res = -1; if (grandchild > 0) res = read(fds[0], &err, sizeof(err));
    let res : Int :=
      if o.fork2_ok then
        if !o.read_ok then -1
        else match grandchild directory o with
          -- end of file: every write end is closed and the pipe is empty
          | none => 0
          | some n => if 0 < n then n else 0
      else -1
    -- _exit(res);
    res

/-- `WEXITSTATUS(status)` for a child that called `_exit(code)`: the low
eight bits of `code`. -/
def WEXITSTATUS (code : Int) : Int := code % 256

/-- The function `spawn_process(argv, directory)` of the POSIX build, as a
function of the outcomes of its calls. -/
def spawn_process (directory : Option Str) (o : SpawnOutcomes) : Int :=
  -- child = fork(); if ( child < 0 ) return 1;
  if !o.fork_ok then 1
  -- waitpid(child, &status, 0); res = WEXITSTATUS(status); return (res);
  else WEXITSTATUS (supervisor directory o)

/-! ### Specification vocabulary for the directive tokens -/

/-- The token `tok` abbreviates `name`, letter case aside: it is no longer
than `name` and agrees with the start of `name` up to the case of letters. -/
def isAbbrev : Str → Str → Bool
  | [], _ => true
  | _ :: _, [] => false
  | x :: tok, y :: name => decide (tolower x = tolower y) && isAbbrev tok name

/-- The format `ff` is an image format that can be saved, and the token `tok`
abbreviates its name or one of its extensions. -/
def namesFormat (env : Env) (tok : Str) (ff : fformat) : Bool :=
  decide (ff.flags &&& env.FF_IMAGE ≠ 0) && decide (ff.flags &&& env.FF_NOSAVE = 0) &&
    (isAbbrev tok ff.name || isAbbrev tok ff.ext || isAbbrev tok ff.ext2)

/-! ## `interpolate_action` -/

/-- Modelled from the spec: `da_settings` is declared in another file; these
are the fields `interpolate_action` reads from it (the spec: source path,
destination path, delay, width, height).  The two names are C strings, not
`NULL`. -/
structure da_settings where
  sname : Str
  dname : Str
  delay : Int
  width : Int
  height : Int
deriving DecidableEq, Repr

/-- `strstr(s, "))")`: the offset of the first `))` in `s`, `none` for
`NULL`. -/
def strstr_close : Str → Option Nat
  | [] => none
  | [_] => none
  | c :: d :: s =>
    if c = 41 ∧ d = 41 then some 0 else (strstr_close (d :: s)).map (fun k => k + 1)

/-- Variables of the loop of `interpolate_action` that change while it runs:
the bytes stored so far at `line[0..l)` (`none` while `line` is `NULL`), and
`l`. -/
structure ActSt where
  line : Option Str
  l : Nat
deriving DecidableEq, Repr

/-- The statements `if (line) line[l] = c; l++;`, and for a text `s` of
`j` bytes the pair `j = sprintf(line ? line + l : buf, ...); l += j;`. -/
def ActSt.puts (st : ActSt) (s : Str) : ActSt :=
  { line := st.line.map (fun b => b ++ s), l := st.l + s.length }

/-- The statements `j = escape_filename(line ? line + l : NULL, name, tail);
l += j;`. -/
def actEscape (env : Env) (st : ActSt) (name : Str) (tail : Int) : ActSt :=
  let e := escape_filename (st.line.map (fun _ => [])) name tail (env.v_uninit st.line.isSome)
  { line := st.line.map (fun b => b ++ e.2.getD []), l := st.l + e.1 }

/-- The `if` chain of `interpolate_action` for the variable name of length
`n` at `p`, up to `l += j`. -/
def actVar (env : Env) (ds : da_settings) (p : Str) (n : Nat) (st : ActSt) : ActSt :=
  -- if (!n); // Paranoia: skip if no name
  if n = 0 then st
  -- else if (!strncmp(p, "src", n))
  else if strncmp_eq p [115, 114, 99] n then actEscape env st ds.sname (-1)
  -- else if (!strncmp(p, "srcmask", n))
  else if strncmp_eq p [115, 114, 99, 109, 97, 115, 107] n then
    -- char *w = strrchr(ds->sname, DIR_SEP); tail is w ? w - ds->sname : 0
    actEscape env st ds.sname
      (match strrchr ds.sname DIR_SEP with
        | some i => (i : Int)
        | none => 0)
  -- else if (!strncmp(p, "dest", n))
  else if strncmp_eq p [100, 101, 115, 116] n then actEscape env st ds.dname (-1)
  -- else if (!strncmp(p, "delay", n)) j = sprintf(..., "%d", ds->delay);
  else if strncmp_eq p [100, 101, 108, 97, 121] n then st.puts (fmt_d ds.delay)
  -- else if (!strncmp(p, "w", n)) { if (ds->width) j = sprintf(..., "-w %d", ds->width); }
  else if strncmp_eq p [119] n then
    if ds.width ≠ 0 then st.puts ([45, 119, 32] ++ fmt_d ds.width) else st
  -- else if (!strncmp(p, "h", n)) { if (ds->height) j = sprintf(..., "-h %d", ds->height); }
  else if strncmp_eq p [104] n then
    if ds.height ≠ 0 then st.puts ([45, 104, 32] ++ fmt_d ds.height) else st
  -- Unknown vars are skipped
  else st

/-- The loop `while ((c = *p++)) { ... }` of `interpolate_action` from `p` on.
Every turn moves `p` forward, so `fuel` from the length of `p` on is never used
up. -/
def actLoop (env : Env) (ds : da_settings) : Nat → Str → ActSt → ActSt
  | 0, _, st => st
  | _ + 1, [], st => st
  | fuel + 1, c :: p, st =>
    -- if ((c != '(') || (*p != '(') || (p[1] == '(') || !((res = strstr(p + 1, "))"))))
    -- { if (line) line[l] = c; l++; continue; }
    if c ≠ 40 ∨ p.getD 0 0 ≠ 40 ∨ p.getD 1 0 = 40 then actLoop env ds fuel p (st.puts [c])
    else
      match strstr_close (p.drop 1) with
      | none => actLoop env ds fuel p (st.puts [c])
      | some n =>
        -- n = res - ++p; ... l += j; p += n + 2;
        actLoop env ds fuel ((p.drop 1).drop (n + 2)) (actVar env ds (p.drop 1) n st)

/-- The function `interpolate_action(pattern, ds)`, in the state `w`: `none`
for `NULL`. -/
def interpolate_action (env : Env) (w : World) (pattern : Str) (ds : da_settings) :
    Option Str :=
  -- first turn of `while (TRUE)`: `line` is `NULL`
  let p1 := actLoop env ds (pattern.length + 1) pattern { line := none, l := 0 }
  -- line = calloc(l + 1, 1); if (!line) return (NULL);
  if !env.calloc_ok w (p1.l + 1) then none
  else
    -- second turn: `line` is set; if (line) return (line);
    (actLoop env ds (pattern.length + 1) pattern { line := some [], l := 0 }).line

/-- The variable names `interpolate_action` knows, in the order it tries
them: `src`, `srcmask`, `dest`, `delay`, `w`, `h`. -/
def actNames : List Str :=
  [[115, 114, 99], [115, 114, 99, 109, 97, 115, 107], [100, 101, 115, 116],
    [100, 101, 108, 97, 121], [119], [104]]

/-- The environment `sampleEnv` in which the uninitialised local `v` of
`escape_filename` holds 0 on entry to a call with a `NULL` buffer and 1 (the
bit `QF`) on entry to a call that fills a buffer. -/
def staleEnv : Env := { sampleEnv with v_uninit := fun b => if b then 1 else 0 }

/-! # Theorems -/

/-! ## `escape_filename` -/

theorem what_cases (c : Nat) :
    (what c = 0 ∧ c ≠ 39 ∧ c ≠ 92 ∧ c ≠ 42 ∧ c ≠ 63) ∨ (what c = 1 ∧ c ≠ 39 ∧ c ≠ 42 ∧ c ≠ 63) ∨
    (what c = 2 ∧ (c = 42 ∨ c = 63)) ∨ (what c = 12 ∧ c = 39) := by
  unfold what
  simp only [QF, WF, UF, EF, spec]
  by_cases h39 : c = 39
  · subst h39; decide
  by_cases h92 : c = 92
  · subst h92; decide
  by_cases h63 : c = 63
  · subst h63; decide
  by_cases h42 : c = 42
  · subst h42; decide
  simp only [h39, h92, h63, h42, if_false, or_self]
  split_ifs <;> simp_all

theorem shScan_snoc (out : Str) (c : Nat) : shScan (out ++ [c]) = shStep (shScan out) c := by
  simp [shScan, List.foldl_append]

theorem shScan_snoc2 (out : Str) (a b : Nat) :
    shScan (out ++ [a, b]) = shStep (shStep (shScan out) a) b := by
  simp [shScan, List.foldl_append]

theorem escPre_sync (tail : Int) (i c : Nat) (st : EscSt) (out acc : Str)
    (h : Sync st out acc) :
    ∃ ext, (escPre tail i c st).buf = some (out ++ ext) ∧
      (escPre tail i c st).d = (out ++ ext).length ∧
      ((escPre tail i c st).q = QF ∨ (escPre tail i c st).q = UF) ∧
      shStep (shScan (out ++ ext)) c = (modeOf (escPre tail i c st).q, acc ++ [c]) ∧
      (c = 42 ∨ c = 63 →
        shScan (out ++ ext) = (if (i : Int) ≥ tail then ShMode.plain else ShMode.quoted, acc)) := by
  obtain ⟨hb, hd, hq, hs⟩ := h
  rcases what_cases c with ⟨hw, h1, h2, h3, h4⟩ | ⟨hw, h1, h3, h4⟩ | ⟨hw, h1⟩ | ⟨hw, h1⟩
  · rcases hq with hq | hq <;> refine ⟨[], ?_⟩ <;>
      simp +decide [escPre, hw, hq, hb, hd, hs, QF, UF, WF, EF, modeOf, shStep, h1, h2, h3, h4]
  · rcases hq with hq | hq
    · refine ⟨[QUOTE], ?_⟩
      simp +decide [escPre, EscSt.put, hw, hq, hb, hd, hs, QF, UF, WF, EF, QUOTE, modeOf, shStep, h1,
        h3, h4, shScan_snoc]
    · refine ⟨[], ?_⟩
      simp +decide [escPre, hw, hq, hb, hd, hs, QF, UF, WF, EF, modeOf, shStep, h1, h3, h4]
  · have hc : c ≠ 39 ∧ c ≠ 92 := by omega
    by_cases ht : (i : Int) ≥ tail
    · rcases hq with hq | hq
      · refine ⟨[], ?_⟩
        simp +decide [escPre, hw, hq, hb, hd, hs, QF, UF, WF, EF, modeOf, shStep, hc, ht]
      · refine ⟨[QUOTE], ?_⟩
        simp +decide [escPre, EscSt.put, hw, hq, hb, hd, hs, QF, UF, WF, EF, QUOTE, modeOf, shStep, hc,
          ht, shScan_snoc]
    · rcases hq with hq | hq
      · refine ⟨[QUOTE], ?_⟩
        simp +decide [escPre, EscSt.put, hw, hq, hb, hd, hs, QF, UF, WF, EF, QUOTE, modeOf, shStep, hc,
          ht, shScan_snoc]
      · refine ⟨[], ?_⟩
        simp +decide [escPre, hw, hq, hb, hd, hs, QF, UF, WF, EF, modeOf, shStep, hc, ht]
  · subst h1
    rcases hq with hq | hq
    · refine ⟨[ESCAPE], ?_⟩
      simp +decide [escPre, EscSt.put, hw, hq, hb, hd, hs, QF, UF, WF, EF, ESCAPE, modeOf, shStep,
        shScan_snoc]
    · refine ⟨[QUOTE, ESCAPE], ?_⟩
      simp +decide [escPre, EscSt.put, hw, hq, hb, hd, hs, QF, UF, WF, EF, QUOTE, ESCAPE, modeOf,
        shStep, shScan_snoc2]

theorem escLoop_sync (tail : Int) (cs : Str) : ∀ (i : Nat) (st : EscSt) (out acc : Str),
    Sync st out acc → ∃ ext, Sync (escLoop tail cs i st) (out ++ ext) (acc ++ cs) := by
  induction cs with
  | nil =>
    intro i st out acc h
    exact ⟨[], by simpa [escLoop] using h⟩
  | cons c cs ih =>
    intro i st out acc h
    obtain ⟨ext, hb, hd, hq, hs, -⟩ := escPre_sync tail i c st out acc h
    have h1 : Sync (escStep tail i c st) (out ++ ext ++ [c]) (acc ++ [c]) := by
      refine ⟨?_, ?_, ?_, ?_⟩
      · simp [escStep, EscSt.put, hb]
      · simp [escStep, EscSt.put, hd, Nat.add_assoc]
      · simpa [escStep, EscSt.put] using hq
      · rw [shScan_snoc, hs]; rfl
    obtain ⟨ext2, h2⟩ := ih (i + 1) _ _ _ h1
    refine ⟨ext ++ [c] ++ ext2, ?_⟩
    simpa [escLoop, List.append_assoc] using h2

theorem escInit_sync (name : Str) (tail : Int) (v0 : Nat) :
    ∃ out, Sync (escInit (some []) name tail v0) out (dashLead name) := by
  unfold escInit dashLead
  simp only []
  split_ifs <;>
    simp +decide [Sync, EscSt.put, QF, UF, QUOTE, DIR_SEP, modeOf, shScan, shStep]

theorem escLoop_append (tail : Int) (a b : Str) : ∀ (i : Nat) (st : EscSt),
    escLoop tail (a ++ b) i st = escLoop tail b (i + a.length) (escLoop tail a i st) := by
  induction a with
  | nil => intro i st; simp [escLoop]
  | cons c cs ih =>
    intro i st
    have e : i + (cs.length + 1) = i + 1 + cs.length := by omega
    rw [List.cons_append, List.length_cons, e]
    exact ih (i + 1) (escStep tail i c st)

theorem escAt_spec (name : Str) (tail : Int) (v0 i : Nat) (hi : i < name.length) :
    ∃ pre post, (escAt name tail v0 i).buf = some pre ∧ (escAt name tail v0 i).d = pre.length ∧
      escaped name tail v0 = pre ++ name[i] :: post ∧
      (name[i] = 42 ∨ name[i] = 63 →
        shScan pre = (if (i : Int) ≥ (if tail < 0 then (name.length : Int) else tail)
          then ShMode.plain else ShMode.quoted, dashLead name ++ name.take i)) := by
  generalize ht : (if tail < 0 then (name.length : Int) else tail) = t
  obtain ⟨out0, h0⟩ := escInit_sync name t v0
  obtain ⟨e1, h1⟩ := escLoop_sync t (name.take i) 0 _ _ _ h0
  obtain ⟨ext, hb, hd, hq, hs, hwild⟩ := escPre_sync t i name[i] _ _ _ h1
  have h2 : Sync (escStep t i name[i] (escLoop t (name.take i) 0 (escInit (some []) name t v0)))
      (out0 ++ e1 ++ ext ++ [name[i]]) (dashLead name ++ name.take i ++ [name[i]]) := by
    refine ⟨?_, ?_, ?_, ?_⟩
    · simp [escStep, EscSt.put, hb]
    · simp [escStep, EscSt.put, hd, Nat.add_assoc]
    · simpa [escStep, EscSt.put] using hq
    · rw [shScan_snoc, hs]; rfl
  obtain ⟨e2, h3b, -, h3q, -⟩ := escLoop_sync t (name.drop (i + 1)) (i + 1) _ _ _ h2
  have hsplit : name = name.take i ++ name[i] :: name.drop (i + 1) := by
    simp
  have hloop : escLoop t name 0 (escInit (some []) name t v0) =
      escLoop t (name.drop (i + 1)) (i + 1)
        (escStep t i name[i] (escLoop t (name.take i) 0 (escInit (some []) name t v0))) := by
    conv_lhs => rw [hsplit, escLoop_append]
    simp only [escLoop, List.length_take, Nat.zero_add]
    rw [Nat.min_eq_left (Nat.le_of_lt hi)]
    simp
  have hget : name.getD i 0 = name[i] := by
    simp [List.getD_eq_getElem?_getD, List.getElem?_eq_getElem hi]
  refine ⟨out0 ++ e1 ++ ext, e2 ++ (if (escLoop t name 0 (escInit (some []) name t v0)).q &&& UF ≠ 0
    then [QUOTE] else []), ?_, ?_, ?_, ?_⟩
  · simp only [escAt, ht, hget]; exact hb
  · simp only [escAt, ht, hget]; exact hd
  · unfold escaped escape_filename
    simp only [ht]
    split_ifs <;> simp [hloop, h3b, EscSt.put]
  · intro hw
    exact hwild hw

/-- C3: for every name and every boundary `0 <= tail <= strlen(name)`, a
wildcard byte (`*` or `?`) at index `i` of the name is stored by
`escape_filename(buf, name, tail)` at a place of the token where the shell has
read the bytes before it as the (possibly `./`-prefixed) first `i` bytes of the
name and is between single quotes when `i < tail`, and outside quotes (and not
after a backslash) when `i >= tail`. -/
theorem escape_filename_wildcards (name : Str) (tail : Int) (v0 i c : Nat) (hs : CStr name)
    (h0 : 0 ≤ tail) (hl : tail ≤ (name.length : Int)) (hc : name[i]? = some c)
    (hw : c = 42 ∨ c = 63) :
    ∃ pre post, escaped name tail v0 = pre ++ c :: post ∧
      (escAt name tail v0 i).buf = some pre ∧ (escAt name tail v0 i).d = pre.length ∧
      (shScan pre).2 = dashLead name ++ name.take i ∧
      ((i : Int) < tail → (shScan pre).1 = ShMode.quoted) ∧
      (tail ≤ (i : Int) → (shScan pre).1 = ShMode.plain) := by
  have _ := hs
  have _ := hl
  obtain ⟨hi, hci⟩ := List.getElem?_eq_some_iff.mp hc
  obtain ⟨pre, post, hb, hd, he, hq⟩ := escAt_spec name tail v0 i hi
  rw [hci] at he hq
  have hq2 := hq hw
  have ht : (if tail < 0 then (name.length : Int) else tail) = tail := by
    rw [if_neg (by omega)]
  rw [ht] at hq2
  refine ⟨pre, post, he, hb, hd, by rw [hq2], ?_, ?_⟩
  · intro h
    rw [hq2, if_neg (by omega)]
  · intro h
    rw [hq2, if_pos (by omega)]

/-- Witness for C3: the name `d*/a?` with the boundary after the slash: the
`?` at index 4 is stored outside quotes. -/
theorem escape_filename_wildcards_witness :
    CStr [100, 42, 47, 97, 63] ∧
    ∃ pre post, escaped [100, 42, 47, 97, 63] 3 0 = pre ++ 63 :: post ∧
      (escAt [100, 42, 47, 97, 63] 3 0 4).buf = some pre ∧
      (escAt [100, 42, 47, 97, 63] 3 0 4).d = pre.length ∧
      (shScan pre).2 = dashLead [100, 42, 47, 97, 63] ++ [100, 42, 47, 97, 63].take 4 ∧
      (((4 : Nat) : Int) < 3 → (shScan pre).1 = ShMode.quoted) ∧
      ((3 : Int) ≤ ((4 : Nat) : Int) → (shScan pre).1 = ShMode.plain) :=
  ⟨by decide,
   escape_filename_wildcards [100, 42, 47, 97, 63] 3 0 4 63 (by decide) (by decide) (by decide)
     (by decide) (Or.inr rfl)⟩

/-! ## `escape_filename`: length probe and fill agree -/

theorem escRel_put {s1 s2 : EscSt} (c : Nat) (h : EscRel s1 s2) :
    EscRel (s1.put c) (s2.put c) := by
  obtain ⟨hq, hd, hn, b, hb, hl⟩ := h
  exact ⟨hq, by simp [EscSt.put, hd], by simp [EscSt.put, hn], b ++ [c],
    by simp [EscSt.put, hb], by simp [EscSt.put, hl]⟩

theorem escRel_q {s1 s2 : EscSt} (q : Nat) (h : EscRel s1 s2) :
    EscRel { s1 with q := q } { s2 with q := q } := by
  obtain ⟨-, hd, hn, b, hb, hl⟩ := h
  exact ⟨rfl, hd, hn, b, hb, hl⟩

theorem escRel_pre (tail : Int) (i c : Nat) {s1 s2 : EscSt} (h : EscRel s1 s2) :
    EscRel (escPre tail i c s1) (escPre tail i c s2) := by
  have hq : s1.q = s2.q := h.1
  unfold escPre
  simp only [hq]
  split_ifs <;>
    first
    | exact h
    | exact escRel_put _ h
    | exact escRel_q _ (escRel_put _ h)
    | exact escRel_put _ (escRel_q _ (escRel_put _ h))

theorem escRel_loop (tail : Int) (cs : Str) : ∀ (i : Nat) {s1 s2 : EscSt}, EscRel s1 s2 →
    EscRel (escLoop tail cs i s1) (escLoop tail cs i s2) := by
  induction cs with
  | nil => intro i s1 s2 h; exact h
  | cons c cs ih =>
    intro i s1 s2 h
    exact ih (i + 1) (escRel_put c (escRel_pre tail i c h))

theorem escRel_init (name : Str) (tail : Int) (v0 : Nat) :
    EscRel (escInit none name tail v0) (escInit (some []) name tail v0) := by
  have h0 : EscRel { buf := none, d := 0, q := QF } { buf := some [], d := 0, q := QF } :=
    ⟨rfl, rfl, rfl, [], rfl, rfl⟩
  unfold escInit
  simp only []
  split_ifs <;>
    first
    | exact h0
    | exact escRel_put _ (escRel_put _ h0)
    | exact escRel_q _ (escRel_put _ h0)
    | exact escRel_put _ (escRel_put _ (escRel_q _ (escRel_put _ h0)))

theorem escRel_fin {s1 s2 : EscSt} (h : EscRel s1 s2) :
    EscRel (if s1.q &&& UF ≠ 0 then s1.put QUOTE else s1)
      (if s2.q &&& UF ≠ 0 then s2.put QUOTE else s2) := by
  rw [h.1]
  split_ifs
  · exact escRel_put _ h
  · exact h

theorem escape_filename_rel (name : Str) (tail : Int) (v0 : Nat) :
    ∃ out, escape_filename none name tail v0 = (out.length, none) ∧
      escape_filename (some []) name tail v0 = (out.length, some out) := by
  unfold escape_filename
  simp only []
  generalize (if tail < 0 then (name.length : Int) else tail) = t
  obtain ⟨-, hd, hn, b, hb, hl⟩ := escRel_fin (escRel_loop t name 0 (escRel_init name t v0))
  exact ⟨b, by rw [hn, hd, hl], by rw [hb, hl]⟩

theorem escape_filename_null (name : Str) (tail : Int) (v0 : Nat) :
    escape_filename none name tail v0 = ((escaped name tail v0).length, none) := by
  obtain ⟨out, h1, h2⟩ := escape_filename_rel name tail v0
  simp [escaped, h1, h2]

theorem escape_filename_fill (name : Str) (tail : Int) (v0 : Nat) :
    escape_filename (some []) name tail v0 =
      ((escaped name tail v0).length, some (escaped name tail v0)) := by
  obtain ⟨out, h1, h2⟩ := escape_filename_rel name tail v0
  simp [escaped, h2]

/-! ## `interpolate_line` -/

theorem strspn_blank_cons (c : Nat) (s : Str) :
    strspn_blank (c :: s) = if c = 32 ∨ c = 9 then strspn_blank s + 1 else 0 := by
  unfold strspn_blank
  by_cases h : c = 32 ∨ c = 9 <;> simp [List.takeWhile_cons, h]

theorem strcspn_dir_cons (c : Nat) (s : Str) :
    strcspn_dir (c :: s) = if c = 62 ∨ c = 32 ∨ c = 9 then 0 else strcspn_dir s + 1 := by
  unfold strcspn_dir
  by_cases h : c = 62 ∨ c = 32 ∨ c = 9
  · have hd : decide (¬ (c = 62 ∨ c = 32 ∨ c = 9)) = false :=
      decide_eq_false (not_not_intro h)
    rw [if_pos h, List.takeWhile_cons, hd]
    rfl
  · have hd : decide (¬ (c = 62 ∨ c = 32 ∨ c = 9)) = true := decide_eq_true h
    rw [if_neg h, List.takeWhile_cons, hd]
    rfl

theorem strcspn_dir_le (s : Str) : strcspn_dir s ≤ s.length := by
  unfold strcspn_dir
  exact (List.takeWhile_prefix _).length_le

theorem dirTokens_skip (pat : Str) :
    dirTokens pat none = dirTokens (pat.drop (strspn_blank pat)) none := by
  induction pat with
  | nil => rfl
  | cons c s ih =>
    rw [strspn_blank_cons]
    by_cases h : c = 32 ∨ c = 9
    · simp only [h, if_true, List.drop_succ_cons, dirTokens]
      exact ih
    · simp [h]

theorem dirTokens_token (rest : Str) : ∀ t : Str,
    dirTokens rest (some t) =
      (t ++ rest.take (strcspn_dir rest)) :: dirTokens (rest.drop (strcspn_dir rest)) none := by
  induction rest with
  | nil => intro t; simp [dirTokens, strcspn_dir]
  | cons c s ih =>
    intro t
    rw [strcspn_dir_cons]
    by_cases h62 : c = 62
    · simp [dirTokens, h62]
    · by_cases hb : c = 32 ∨ c = 9
      · have hd : (c = 62 ∨ c = 32 ∨ c = 9) := Or.inr hb
        rw [if_pos hd]
        simp [dirTokens, h62, hb]
      · have hd : ¬ (c = 62 ∨ c = 32 ∨ c = 9) := by
          intro h
          rcases h with h | h
          · exact h62 h
          · exact hb h
        rw [if_neg hd]
        simp only [dirTokens, h62, hb, if_false, List.take_succ_cons, List.drop_succ_cons]
        rw [ih]
        simp

theorem dirToken_extend (env : Env) (pat : Str) (st : DirSt)
    (h : pat.take (strcspn_dir pat) ≠ [37]) :
    (dirToken env pat (strcspn_dir pat) st).extend = st.extend := by
  have hle := strcspn_dir_le pat
  unfold dirToken
  split_ifs with h1 h2
  · rfl
  · exfalso
    generalize strcspn_dir pat = l at h h1 h2 hle
    match l, pat with
    | 0, _ => simp [strncasecmp_eq] at h1
    | 1, [] => simp at hle
    | 1, y :: b => simp [strncmp_eq] at h2; simp [h2] at h
    | _ + 2, [] => simp at hle
    | _ + 2, [_] => simp at hle
    | _ + 2, y :: y2 :: b => simp [strncmp_eq] at h2
  · rfl

theorem dirLoop_extend (env : Env) : ∀ (fuel : Nat) (pat : Str) (st : DirSt),
    pat.length < fuel → [37] ∉ dirTokens pat none →
    (dirLoop env fuel pat st).1.extend = st.extend := by
  intro fuel
  induction fuel with
  | zero => intro pat st h; omega
  | succ n ih =>
    intro pat st hlen htok
    rw [dirTokens_skip] at htok
    have hdrop : (pat.drop (strspn_blank pat)).length ≤ pat.length := by
      rw [List.length_drop]; omega
    unfold dirLoop
    simp only []
    generalize pat.drop (strspn_blank pat) = p at htok hdrop
    split
    · rename_i rest
      have h2 : dirTokens (62 :: rest) none =
          rest.take (strcspn_dir rest) :: dirTokens (rest.drop (strcspn_dir rest)) none := by
        simp [dirTokens, dirTokens_token]
      rw [h2] at htok
      simp only [List.mem_cons, not_or] at htok
      rw [ih _ _ (by rw [List.length_drop]; simp at hdrop; omega) htok.2]
      exact dirToken_extend env rest st (fun h => htok.1 h.symm)
    · rfl

/-- The fuel of `dirLoop` is never used up: any two amounts above the length
of `pat` give the same result. -/
theorem dirLoop_fuel (env : Env) : ∀ (n m : Nat) (pat : Str) (st : DirSt),
    pat.length < n → pat.length < m → dirLoop env n pat st = dirLoop env m pat st := by
  intro n
  induction n with
  | zero => intro m pat st h; omega
  | succ n ih =>
    intro m pat st hn hm
    cases m with
    | zero => omega
    | succ m =>
      have hdrop : (pat.drop (strspn_blank pat)).length ≤ pat.length := by
        rw [List.length_drop]; omega
      unfold dirLoop
      simp only []
      generalize pat.drop (strspn_blank pat) = p at hdrop
      split
      · rename_i rest
        have hr : (rest.drop (strcspn_dir rest)).length ≤ rest.length := by
          rw [List.length_drop]; omega
        simp only [List.length_cons] at hdrop
        exact ih m _ _ (by omega) (by omega)
      · rfl

/-- C5: in command mode, for every template that contains no `%f` and none of
whose leading `>` directives is `%`, `interpolate_line` returns the pointer it
was given and leaves the whole state as it was: the trace shows no
`get_temp_file` call, and the temp directory, the files on disk and the
temp-file chain are untouched. -/
theorem interpolate_line_leaves_alone (env : Env) (pattern : Str) (w : World)
    (hpf : ¬ [37, 102] <:+: pattern) (hdir : [37] ∉ dirTokens pattern none) :
    interpolate_line env pattern true w = (Ret.pattern, w) := by
  have he : (lineSetup env pattern true w).1.extend = false := by
    unfold lineSetup
    simp only [if_true]
    rw [dirLoop_extend env _ _ _ (Nat.lt_succ_self _) hdir]
    rfl
  have hs : strstr_pf pattern = false := by
    simp [strstr_pf, hpf]
  unfold interpolate_line
  simp [he, hs]

/-- Witness for C5: the template `>RGB >png echo 100%` has the directives
`RGB` and `png` and no `%f`. -/
theorem interpolate_line_leaves_alone_witness :
    interpolate_line sampleEnv
        [62, 82, 71, 66, 32, 62, 112, 110, 103, 32, 101, 99, 104, 111, 32, 49, 48, 48, 37] true
        (sampleWorld none) =
      (Ret.pattern, sampleWorld none) :=
  interpolate_line_leaves_alone sampleEnv
    [62, 82, 71, 66, 32, 62, 112, 110, 103, 32, 101, 99, 104, 111, 32, 49, 48, 48, 37]
    (sampleWorld none) (by decide) (by decide)

/-! ## What the temp-file manager leaves alone -/

theorem gtfCalls_log (w : World) (es : List Event) :
    gtfCalls { w with log := w.log ++ es } =
      gtfCalls w + es.countP (fun e => match e with
        | Event.get_temp_file _ _ => true
        | _ => false) := by
  simp [gtfCalls, List.countP_append]

theorem open_excl_frame (env : Env) (buf : Str) (w : World) :
    docPart (open_excl env buf w).2 = docPart w ∧
      gtfCalls (open_excl env buf w).2 = gtfCalls w := by
  simp [open_excl, docPart, gtfCalls, List.countP_append]

theorem last_temp_index_frame (idx : Int) (w : World) :
    docPart (last_temp_index idx w).2 = docPart w ∧
      gtfCalls (last_temp_index idx w).2 = gtfCalls w := by
  unfold last_temp_index
  simp only []
  split_ifs <;> simp [docPart, gtfCalls]

theorem scanLoop_frame (env : Env) (dir f ext : Str) : ∀ (n : Nat) (st : ScanSt),
    docPart (scanLoop env dir f ext n st).w = docPart st.w ∧
      gtfCalls (scanLoop env dir f ext n st).w = gtfCalls st.w := by
  intro n
  induction n with
  | zero => intro st; exact ⟨rfl, rfl⟩
  | succ n ih =>
    intro st
    unfold scanLoop
    simp only []
    generalize (if st.idx ≠ 0 then fmt_d st.idx else st.ids) = ids
    generalize (dir ++ [DIR_SEP] ++ f ++ ids ++ [46] ++ ext).take (env.PATHBUF - 1) = buf
    split_ifs
    · exact open_excl_frame env buf st.w
    · exact ⟨(ih _).1.trans (open_excl_frame env buf st.w).1,
        (ih _).2.trans (open_excl_frame env buf st.w).2⟩

theorem scanRound_frame (env : Env) (dir f ext buf : Str) (w : World) :
    docPart (scanRound env dir f ext buf w).w = docPart w ∧
      gtfCalls (scanRound env dir f ext buf w).w = gtfCalls w := by
  unfold scanRound
  simp only []
  obtain ⟨h1, h2⟩ := last_temp_index_frame (-1) w
  obtain ⟨h3, h4⟩ := scanLoop_frame env dir f ext 256
    { fd_ok := false, idx := (last_temp_index (-1) w).1, ids := [], buf := buf,
      w := (last_temp_index (-1) w).2 }
  obtain ⟨h5, h6⟩ := last_temp_index_frame
    (scanLoop env dir f ext 256
      { fd_ok := false, idx := (last_temp_index (-1) w).1, ids := [], buf := buf,
        w := (last_temp_index (-1) w).2 }).idx
    (scanLoop env dir f ext 256
      { fd_ok := false, idx := (last_temp_index (-1) w).1, ids := [], buf := buf,
        w := (last_temp_index (-1) w).2 }).w
  exact ⟨h5.trans (h3.trans h1), h6.trans (h4.trans h2)⟩

theorem get_tempname_frame (env : Env) (f : Option Str) (type : Nat) (w : World) :
    docPart (get_tempname env f type w).2 = docPart w ∧
      gtfCalls (get_tempname env f type w).2 = gtfCalls w := by
  have hdir : ∀ w0 : World,
      docPart (match w0.mt_temp_dir with
        | some _ => w0
        | none => { (new_temp_dir env w0).2 with mt_temp_dir := (new_temp_dir env w0).1 }) =
          docPart w0 ∧
      gtfCalls (match w0.mt_temp_dir with
        | some _ => w0
        | none => { (new_temp_dir env w0).2 with mt_temp_dir := (new_temp_dir env w0).1 }) =
          gtfCalls w0 := by
    intro w0
    cases h : w0.mt_temp_dir with
    | some d => exact ⟨rfl, rfl⟩
    | none =>
      unfold new_temp_dir
      cases env.mkdtemp w0 <;> exact ⟨rfl, rfl⟩
  obtain ⟨h1, h2⟩ := hdir w
  unfold get_tempname
  simp only []
  generalize (match w.mt_temp_dir with
    | some _ => w
    | none => { (new_temp_dir env w).2 with mt_temp_dir := (new_temp_dir env w).1 }) = w1
    at h1 h2
  cases hd : w1.mt_temp_dir with
  | none => exact ⟨h1, h2⟩
  | some dir =>
    simp only []
    obtain ⟨h3, h4⟩ := scanRound_frame env dir (stubify env f) (env.file_formats type).ext [] w1
    split_ifs
    · exact ⟨h3.trans h1, h4.trans h2⟩
    · exact ⟨h3.trans h1, h4.trans h2⟩
    · obtain ⟨h5, h6⟩ := scanRound_frame env dir [116, 109, 112] (env.file_formats type).ext
        (scanRound env dir (stubify env f) (env.file_formats type).ext [] w1).buf
        (scanRound env dir (stubify env f) (env.file_formats type).ext [] w1).w
      exact ⟨h5.trans (h3.trans h1), h6.trans (h4.trans h2)⟩
    · obtain ⟨h5, h6⟩ := scanRound_frame env dir [116, 109, 112] (env.file_formats type).ext
        (scanRound env dir (stubify env f) (env.file_formats type).ext [] w1).buf
        (scanRound env dir (stubify env f) (env.file_formats type).ext [] w1).w
      exact ⟨h5.trans (h3.trans h1), h6.trans (h4.trans h2)⟩

theorem remember_temp_file_frame (env : Env) (name : Str) (type : Nat) (rgb : Bool) (w : World) :
    docPart (remember_temp_file env name type rgb w).2 = docPart w ∧
      gtfCalls (remember_temp_file env name type rgb w).2 = gtfCalls w := by
  unfold remember_temp_file
  split_ifs
  · cases w.mem_tempfiles <;> exact ⟨rfl, rfl⟩
  · exact ⟨rfl, rfl⟩

theorem makeTemp_frame (env : Env) (type : Nat) (rgb : Bool) (f : Str) (w : World) :
    docPart (makeTemp env type rgb f w).2 = docPart w ∧
      gtfCalls (makeTemp env type rgb f w).2 = gtfCalls w := by
  obtain ⟨h3, h4⟩ := get_tempname_frame env (some f) type w
  unfold makeTemp
  simp only []
  generalize get_tempname env (some f) type w = r at h3 h4
  split_ifs
  · exact ⟨h3, h4⟩
  · exact ⟨h3, h4⟩
  · exact ⟨h3, by rw [gtfCalls_log]; simp [h4]⟩
  · refine ⟨(remember_temp_file_frame env _ _ _ _).1.trans h3, ?_⟩
    rw [(remember_temp_file_frame env _ _ _ _).2, gtfCalls_log]
    simp [h4]

theorem get_temp_file_body_frame (env : Env) (type : Nat) (rgb : Bool) (w : World) :
    docPart (get_temp_file_body env type rgb w).2 = docPart w ∧
      gtfCalls (get_temp_file_body env type rgb w).2 = gtfCalls w := by
  unfold get_temp_file_body
  split
  · exact ⟨rfl, rfl⟩
  · simp only []
    split
    · exact ⟨rfl, rfl⟩
    · exact makeTemp_frame env _ _ _ w

theorem get_temp_file_frame (env : Env) (type : Nat) (rgb : Bool) (w : World) :
    docPart (get_temp_file env type rgb w).2 = docPart w ∧
      gtfCalls (get_temp_file env type rgb w).2 = gtfCalls w + 1 := by
  unfold get_temp_file
  obtain ⟨h1, h2⟩ := get_temp_file_body_frame env type rgb
    { w with log := w.log ++ [Event.get_temp_file type rgb] }
  refine ⟨h1, ?_⟩
  rw [h2, gtfCalls_log]
  rfl

/-! ## The expansion loop of `interpolate_line` -/

theorem patNumber_congr {w1 w : World} (h : docPart w1 = docPart w)
    (rect : Int × Int × Int × Int) : patNumber rect w1 = patNumber rect w := by
  funext i
  simp only [docPart, Prod.mk.injEq] at h
  obtain ⟨-, -, h3, h4, h5, h6, h7, h8, h9, -, h11, h12, h13⟩ := h
  simp only [patNumber, h3, h4, h5, h6, h7, h8, h9, h11, h12, h13]

theorem mem_filename_congr {w1 w : World} (h : docPart w1 = docPart w) :
    w1.mem_filename = w.mem_filename := by
  simp only [docPart, Prod.mk.injEq] at h
  exact h.2.1

theorem ext_put (st : PassSt) (c : Nat) (fname : Option Str) (w : World) (x : Str) :
    (st.put c).ext fname w x = st.ext fname w (c :: x) := by
  cases hl : st.line <;> simp [PassSt.put, PassSt.ext, hl] <;> omega

theorem ext_puts (st : PassSt) (s : Str) (fname : Option Str) (w : World) (x : Str) :
    (st.puts s).ext fname w x = st.ext fname w (s ++ x) := by
  cases hl : st.line <;> simp [PassSt.puts, PassSt.ext, hl] <;> omega

theorem patEscape_eq (env : Env) (st : PassSt) (fn : Str) (w : World) :
    patEscape env st fn w =
      st.ext (some fn) w (escaped fn (-1) (env.v_uninit st.line.isSome)) := by
  cases hl : st.line <;>
    simp [patEscape, PassSt.ext, hl, escape_filename_null, escape_filename_fill]

theorem ext_ext (st : PassSt) (f1 f2 : Option Str) (w1 w2 : World) (x y : Str) :
    (st.ext f1 w1 x).ext f2 w2 y = st.ext f2 w2 (x ++ y) := by
  cases hl : st.line <;> simp [PassSt.ext, hl] <;> omega

theorem ext_nil (st : PassSt) : st.ext st.fname st.w [] = st := by
  obtain ⟨w, f, line, l⟩ := st
  cases line <;> simp [PassSt.ext]

theorem put_isSome (st : PassSt) (c : Nat) : (st.put c).line.isSome = st.line.isSome := by
  cases hl : st.line <;> simp [PassSt.put, hl]

theorem puts_isSome (st : PassSt) (s : Str) : (st.puts s).line.isSome = st.line.isSome := by
  cases hl : st.line <;> simp [PassSt.puts, hl]

theorem ext_isSome (st : PassSt) (fname : Option Str) (w : World) (x : Str) :
    (st.ext fname w x).line.isSome = st.line.isSome := by
  cases hl : st.line <;> simp [PassSt.ext, hl]

theorem passLoop_some (env : Env) (cmd extend rgb : Bool) (fform : Nat)
    (rect : Int × Int × Int × Int) (fn : Str) :
    ∀ (n : Nat) (pat : Str), pat.length ≤ n → ∀ (st : PassSt) (b : Bool), st.fname = some fn → st.line.isSome = b →
      passLoop env cmd extend rgb fform rect pat st =
        PassRes.done (st.ext (some fn) st.w
          (expandWith cmd extend st.w.mem_filename (patNumber rect st.w)
            (escaped fn (-1) (env.v_uninit b)) pat)) := by
  intro n
  induction n with
  | zero =>
    intro pat hlen st b hf hb
    have : pat = [] := List.eq_nil_of_length_eq_zero (by omega)
    subst this
    simp only [passLoop, expandWith]
    rw [← hf, ext_nil]
  | succ n ih =>
    intro pat hlen st b hf hb
    match pat with
    | [] =>
      simp only [passLoop, expandWith]
      rw [← hf, ext_nil]
    | [c] =>
      simp only [passLoop, expandWith]
      rw [← ext_put, ← hf]
      have : (st.put c).fname = st.fname := rfl
      have hw : (st.put c).w = st.w := rfl
      rw [← this, ← hw, ext_nil]
    | c :: d :: p =>
      have hp : p.length ≤ n := by simp at hlen; omega
      have hdp : (d :: p).length ≤ n := by simp at hlen ⊢; omega
      unfold passLoop expandWith
      simp only []
      by_cases h1 : patCode extend c d = PAT_f
      · simp only [h1, if_true]
        cases cmd with
        | true =>
          simp only [patFile, hf, Bool.not_true, Bool.false_eq_true, if_false, if_true]
          rw [ih p hp _ b (by rw [patEscape_eq]; rfl) (by rw [patEscape_eq, ext_isSome]; exact hb),
            patEscape_eq, hb, ext_ext]
          rfl
        | false =>
          simp only [patFile, Bool.not_false, if_true, Bool.false_eq_true, if_false]
          rw [ih p hp st b hf hb]
          simp
      · simp only [h1, if_false]
        by_cases h3 : patCode extend c d = PAT_N
        · simp only [h3, if_true]
          cases hn : st.w.mem_filename with
          | none =>
            simp only []
            rw [ih p hp st b hf hb, hn]
            simp
          | some name =>
            simp only []
            rw [ih p hp (st.puts name) b hf (by rw [puts_isSome]; exact hb), ext_puts]
            have hw : (st.puts name).w = st.w := rfl
            rw [hw, hn]
            simp
        · simp only [h3, if_false]
          by_cases h4 : patCode extend c d = PAT_percent
          · simp only [h4, if_true]
            rw [ih p hp (st.put c) b hf (by rw [put_isSome]; exact hb), ext_put]
            rfl
          · simp only [h4, if_false]
            by_cases h5 : patCode extend c d = PAT_NONE
            · simp only [h5, if_true]
              rw [ih (d :: p) hdp (st.put c) b hf (by rw [put_isSome]; exact hb), ext_put]
              rfl
            · simp only [h5, if_false]
              rw [ih p hp (st.puts _) b hf (by rw [puts_isSome]; exact hb), ext_puts]
              rfl

theorem passLoop_none (env : Env) (cmd extend rgb : Bool) (fform : Nat)
    (rect : Int × Int × Int × Int) :
    ∀ (n : Nat) (pat : Str), pat.length ≤ n → ∀ (st : PassSt) (b : Bool), st.fname = none → st.line.isSome = b →
      passLoop env cmd extend rgb fform rect pat st =
        if usesFile cmd extend pat then
          match get_temp_file env fform rgb st.w with
          | (none, w1) => PassRes.failed w1
          | (some fn, w1) => PassRes.done (st.ext (some fn) w1
              (expandWith cmd extend st.w.mem_filename (patNumber rect st.w)
                (escaped fn (-1) (env.v_uninit b)) pat))
        else PassRes.done (st.ext none st.w
          (expandWith cmd extend st.w.mem_filename (patNumber rect st.w) [] pat)) := by
  intro n
  induction n with
  | zero =>
    intro pat hlen st b hf hb
    have : pat = [] := List.eq_nil_of_length_eq_zero (by omega)
    subst this
    simp only [passLoop, expandWith, usesFile, Bool.false_eq_true, if_false]
    rw [← hf, ext_nil]
  | succ n ih =>
    intro pat hlen st b hf hb
    match pat with
    | [] =>
      simp only [passLoop, expandWith, usesFile, Bool.false_eq_true, if_false]
      rw [← hf, ext_nil]
    | [c] =>
      simp only [passLoop, expandWith, usesFile, Bool.false_eq_true, if_false]
      rw [← ext_put, ← hf]
      have : (st.put c).fname = st.fname := rfl
      have hw : (st.put c).w = st.w := rfl
      rw [← this, ← hw, ext_nil]
    | c :: d :: p =>
      have hp : p.length ≤ n := by simp at hlen; omega
      have hdp : (d :: p).length ≤ n := by simp at hlen ⊢; omega
      unfold passLoop expandWith usesFile
      simp only []
      by_cases h1 : patCode extend c d = PAT_f
      · simp only [h1, if_true]
        cases cmd with
        | true =>
          simp only [patFile, hf, Bool.not_true, Bool.false_eq_true, if_false, if_true,
            Bool.true_or]
          rcases hg : get_temp_file env fform rgb st.w with ⟨_ | fn, w1⟩
          · rfl
          · simp only []
            have hdoc := (get_temp_file_frame env fform rgb st.w).1
            rw [hg] at hdoc
            rw [passLoop_some env true extend rgb fform rect fn p.length p (le_refl _) _ b
              (by rw [patEscape_eq]; rfl) (by rw [patEscape_eq, ext_isSome]; exact hb),
              patEscape_eq, hb, ext_ext]
            have hw : (st.ext (some fn) w1 (escaped fn (-1) (env.v_uninit b))).w = w1 := rfl
            rw [hw, mem_filename_congr hdoc, patNumber_congr hdoc]
        | false =>
          simp only [patFile, Bool.not_false, if_true, Bool.false_eq_true, if_false,
            Bool.false_or]
          rw [ih p hp st b hf hb]
          simp
      · simp only [h1, if_false]
        by_cases h3 : patCode extend c d = PAT_N
        · have h35 : ¬ PAT_N = PAT_NONE := by decide
          simp only [h3, if_true, h35, if_false]
          cases hn : st.w.mem_filename with
          | none =>
            simp only []
            rw [ih p hp st b hf hb, hn]
            simp
          | some name =>
            simp only []
            rw [ih p hp (st.puts name) b hf (by rw [puts_isSome]; exact hb)]
            have hw : (st.puts name).w = st.w := rfl
            simp only [ext_puts, hw, hn, Option.getD_some]
        · simp only [h3, if_false]
          by_cases h4 : patCode extend c d = PAT_percent
          · have h45 : ¬ PAT_percent = PAT_NONE := by decide
            simp only [h4, if_true, h45, if_false]
            rw [ih p hp (st.put c) b hf (by rw [put_isSome]; exact hb)]
            have hw : (st.put c).w = st.w := rfl
            simp only [ext_put, hw]
          · simp only [h4, if_false]
            by_cases h5 : patCode extend c d = PAT_NONE
            · simp only [h5, if_true]
              rw [ih (d :: p) hdp (st.put c) b hf (by rw [put_isSome]; exact hb)]
              have hw : (st.put c).w = st.w := rfl
              simp only [ext_put, hw]
            · simp only [h5, if_false]
              rw [ih p hp (st.puts _) b hf (by rw [puts_isSome]; exact hb)]
              have hw : ∀ s, (st.puts s).w = st.w := fun _ => rfl
              simp only [ext_puts, hw]

/-- C6: for every template and document state, one call of
`interpolate_line` in command mode adds at most one `get_temp_file` call to the
trace, and when it returns a new string, either the state is unchanged and the
template body reaches no `%f`, or the whole change of state is that of one
`get_temp_file` call returning a name `fn`, and the string is the expansion of
the template body in which every `%f` stands for the one token
`escape_filename` makes of `fn`. -/
theorem interpolate_line_one_temp_file (env : Env) (pattern : Str) (w : World) :
    gtfCalls (interpolate_line env pattern true w).2 ≤ gtfCalls w + 1 ∧
    ∀ s, (interpolate_line env pattern true w).1 = Ret.line s →
      ((interpolate_line env pattern true w).2 = w ∧
        usesFile true (fixFormat env w (lineSetup env pattern true w).1).extend
          (lineSetup env pattern true w).2 = false ∧
        s = expandWith true (fixFormat env w (lineSetup env pattern true w).1).extend
          w.mem_filename (patNumber (w.marquee.getD (0, 0, 0, 0)) w) []
          (lineSetup env pattern true w).2) ∨
      (∃ fn,
        get_temp_file env (fixFormat env w (lineSetup env pattern true w).1).fform
          (fixFormat env w (lineSetup env pattern true w).1).rgb w =
            (some fn, (interpolate_line env pattern true w).2) ∧
        s = expandWith true (fixFormat env w (lineSetup env pattern true w).1).extend
          w.mem_filename (patNumber (w.marquee.getD (0, 0, 0, 0)) w)
          (escaped fn (-1) (env.v_uninit true)) (lineSetup env pattern true w).2) := by
  unfold interpolate_line
  simp only []
  generalize (lineSetup env pattern true w).2 = body
  generalize fixFormat env w (lineSetup env pattern true w).1 = ds
  generalize w.marquee.getD (0, 0, 0, 0) = rect
  by_cases hret : (!(lineSetup env pattern true w).1.extend && !strstr_pf pattern) = true
  · simp only [hret, if_true]
    exact ⟨Nat.le_succ _, fun s h => by cases h⟩
  · simp only [hret, Bool.false_eq_true, if_false]
    rw [passLoop_none env true ds.extend ds.rgb ds.fform rect body.length body (le_refl _)
      { w := w, fname := none, line := none, l := 0 } false rfl rfl]
    by_cases hu : usesFile true ds.extend body = true
    · simp only [hu, if_true]
      have hfr := get_temp_file_frame env ds.fform ds.rgb w
      rcases hg : get_temp_file env ds.fform ds.rgb w with ⟨_ | fn, w1⟩
      · rw [hg] at hfr
        simp only []
        exact ⟨le_of_eq hfr.2, fun s h => by cases h⟩
      · rw [hg] at hfr
        simp only []
        by_cases hc : (!env.calloc_ok w1
            (0 + (expandWith true ds.extend w.mem_filename (patNumber rect w)
              (escaped fn (-1) (env.v_uninit false)) body).length + 1)) = true
        · simp only [PassSt.ext, hc, if_true]
          exact ⟨le_of_eq hfr.2, fun s h => by cases h⟩
        · simp only [PassSt.ext, hc, Bool.false_eq_true, if_false]
          rw [passLoop_some env true ds.extend ds.rgb ds.fform rect fn body.length body (le_refl _)
            { w := w1, fname := some fn, line := some [], l := 0 } true rfl rfl]
          have hdoc : docPart w1 = docPart w := hfr.1
          simp only [PassSt.ext, Option.map_some', List.nil_append, Option.getD_some,
            mem_filename_congr hdoc, patNumber_congr hdoc]
          refine ⟨le_of_eq hfr.2, fun s h => Or.inr ⟨fn, rfl, ?_⟩⟩
          cases h
          rfl
    · simp only [hu, Bool.false_eq_true, if_false]
      by_cases hc : (!env.calloc_ok w
          (0 + (expandWith true ds.extend w.mem_filename (patNumber rect w) [] body).length + 1))
            = true
      · simp only [PassSt.ext, hc, if_true]
        exact ⟨Nat.le_succ _, fun s h => by cases h⟩
      · simp only [PassSt.ext, hc, Bool.false_eq_true, if_false]
        rw [passLoop_none env true ds.extend ds.rgb ds.fform rect body.length body (le_refl _)
          { w := w, fname := none, line := some [], l := 0 } true rfl rfl]
        simp only [hu, Bool.false_eq_true, if_false, PassSt.ext, Option.map_some',
          List.nil_append, Option.getD_some]
        have hu2 : usesFile true ds.extend body = false := by
          cases hx : usesFile true ds.extend body
          · rfl
          · exact absurd hx hu
        refine ⟨Nat.le_succ _, fun s h => Or.inl ?_⟩
        cases h
        simp [hu2]

/-- Witness for C6: the template `>RGB cp %f %f` on an indexed document
expands both placeholders to the one new temp file. -/
theorem interpolate_line_one_temp_file_witness :
    gtfCalls (interpolate_line sampleEnv
        [62, 82, 71, 66, 32, 99, 112, 32, 37, 102, 32, 37, 102] true
        (sampleWorld (some [97, 46, 112, 110, 103]))).2 ≤
      gtfCalls (sampleWorld (some [97, 46, 112, 110, 103])) + 1 ∧
    (interpolate_line sampleEnv
        [62, 82, 71, 66, 32, 99, 112, 32, 37, 102, 32, 37, 102] true
        (sampleWorld (some [97, 46, 112, 110, 103]))).1 =
      Ret.line [99, 112, 32, 47, 116, 109, 112, 47, 109, 116, 47, 97, 46, 112, 110, 103, 32,
        47, 116, 109, 112, 47, 109, 116, 47, 97, 46, 112, 110, 103] :=
  ⟨(interpolate_line_one_temp_file sampleEnv
      [62, 82, 71, 66, 32, 99, 112, 32, 37, 102, 32, 37, 102]
      (sampleWorld (some [97, 46, 112, 110, 103]))).1, by decide⟩

/-! ## `get_tempname`: what a successful creation means -/

theorem open_excl_spec (env : Env) (buf : Str) (w : World) :
    storePart (open_excl env buf w).2 = storePart w ∧
    ((open_excl env buf w).1 = true →
      buf ∉ w.files ∧ (open_excl env buf w).2.files = buf :: w.files) ∧
    ((open_excl env buf w).1 = false → (open_excl env buf w).2.files = w.files) := by
  unfold open_excl
  refine ⟨rfl, ?_, ?_⟩
  · intro h
    simp only [Bool.and_eq_true, decide_eq_true_eq] at h
    simp [h.1, h.2]
  · intro h
    simp only [] at h
    simp only [h, Bool.false_eq_true, if_false]

theorem last_temp_index_spec (idx : Int) (w : World) :
    storePart (last_temp_index idx w).2 = storePart w ∧
      (last_temp_index idx w).2.files = w.files := by
  unfold last_temp_index
  simp only []
  split_ifs <;> exact ⟨rfl, rfl⟩

theorem scanLoop_spec (env : Env) (dir f ext : Str) : ∀ (n : Nat) (st : ScanSt),
    st.fd_ok = false →
    storePart (scanLoop env dir f ext n st).w = storePart st.w ∧
    ((scanLoop env dir f ext n st).fd_ok = true →
      (scanLoop env dir f ext n st).buf ∉ st.w.files ∧
      (scanLoop env dir f ext n st).w.files = (scanLoop env dir f ext n st).buf :: st.w.files) ∧
    ((scanLoop env dir f ext n st).fd_ok = false →
      (scanLoop env dir f ext n st).w.files = st.w.files) := by
  intro n
  induction n with
  | zero =>
    intro st hst
    refine ⟨rfl, ?_, ?_⟩
    · intro h
      have h' : st.fd_ok = true := h
      rw [hst] at h'
      cases h'
    · intro _
      rfl
  | succ n ih =>
    intro st _
    unfold scanLoop
    simp only []
    generalize (if st.idx ≠ 0 then fmt_d st.idx else st.ids) = ids
    generalize (dir ++ [DIR_SEP] ++ f ++ ids ++ [46] ++ ext).take (env.PATHBUF - 1) = buf
    obtain ⟨h1, h2, h3⟩ := open_excl_spec env buf st.w
    by_cases ho : (open_excl env buf st.w).1 = true
    · simp only [ho, if_true]
      exact ⟨h1, fun _ => h2 ho, fun h => by cases h⟩
    · simp only [ho, if_false]
      have hf : (open_excl env buf st.w).1 = false := by simpa using ho
      obtain ⟨i1, i2, i3⟩ := ih
        { fd_ok := false, idx := wrapInt (st.idx + 1), ids := ids, buf := buf,
          w := (open_excl env buf st.w).2 } rfl
      simp only [h3 hf] at i2 i3
      exact ⟨i1.trans h1, i2, i3⟩

theorem scanRound_spec (env : Env) (dir f ext buf : Str) (w : World) :
    storePart (scanRound env dir f ext buf w).w = storePart w ∧
    ((scanRound env dir f ext buf w).fd_ok = true →
      (scanRound env dir f ext buf w).buf ∉ w.files ∧
      (scanRound env dir f ext buf w).w.files = (scanRound env dir f ext buf w).buf :: w.files) ∧
    ((scanRound env dir f ext buf w).fd_ok = false →
      (scanRound env dir f ext buf w).w.files = w.files) := by
  unfold scanRound
  simp only []
  obtain ⟨a1, a2⟩ := last_temp_index_spec (-1) w
  obtain ⟨b1, b2, b3⟩ := scanLoop_spec env dir f ext 256
    { fd_ok := false, idx := (last_temp_index (-1) w).1, ids := [], buf := buf,
      w := (last_temp_index (-1) w).2 } rfl
  generalize scanLoop env dir f ext 256
    { fd_ok := false, idx := (last_temp_index (-1) w).1, ids := [], buf := buf,
      w := (last_temp_index (-1) w).2 } = st at b1 b2 b3
  obtain ⟨c1, c2⟩ := last_temp_index_spec st.idx st.w
  simp only [a2] at b2 b3
  refine ⟨c1.trans (b1.trans a1), ?_, ?_⟩
  · intro h
    exact ⟨(b2 h).1, c2.trans (b2 h).2⟩
  · intro h
    exact c2.trans (b3 h)

theorem get_tempname_spec (env : Env) (f : Option Str) (type : Nat) (w : World) :
    storePart (get_tempname env f type w).2 = storePart w ∧
    ((get_tempname env f type w).1.1 = true →
      (get_tempname env f type w).1.2 ∉ w.files ∧
      (get_tempname env f type w).2.files = (get_tempname env f type w).1.2 :: w.files) := by
  have hdir : ∀ w0 : World,
      storePart (match w0.mt_temp_dir with
        | some _ => w0
        | none => { (new_temp_dir env w0).2 with mt_temp_dir := (new_temp_dir env w0).1 }) =
          storePart w0 ∧
      (match w0.mt_temp_dir with
        | some _ => w0
        | none => { (new_temp_dir env w0).2 with mt_temp_dir := (new_temp_dir env w0).1 }).files =
          w0.files := by
    intro w0
    cases h : w0.mt_temp_dir with
    | some d => exact ⟨rfl, rfl⟩
    | none =>
      unfold new_temp_dir
      cases env.mkdtemp w0 <;> exact ⟨rfl, rfl⟩
  obtain ⟨h1, h2⟩ := hdir w
  unfold get_tempname
  simp only []
  generalize (match w.mt_temp_dir with
    | some _ => w
    | none => { (new_temp_dir env w).2 with mt_temp_dir := (new_temp_dir env w).1 }) = w1
    at h1 h2
  cases hd : w1.mt_temp_dir with
  | none => exact ⟨h1, fun h => by cases h⟩
  | some dir =>
    simp only []
    obtain ⟨a1, a2, a3⟩ :=
      scanRound_spec env dir (stubify env f) (env.file_formats type).ext [] w1
    generalize scanRound env dir (stubify env f) (env.file_formats type).ext [] w1 = s1
      at a1 a2 a3
    rw [h2] at a2 a3
    by_cases ho : s1.fd_ok = true
    · simp only [ho, if_true]
      exact ⟨a1.trans h1, fun _ => a2 ho⟩
    · have hf : s1.fd_ok = false := by simpa using ho
      simp only [hf, Bool.false_eq_true, if_false]
      by_cases ht : stubify env f = [116, 109, 112]
      · simp only [ht, if_true]
        exact ⟨a1.trans h1, fun h => by cases h⟩
      · simp only [ht, if_false]
        obtain ⟨b1, b2, b3⟩ :=
          scanRound_spec env dir [116, 109, 112] (env.file_formats type).ext s1.buf s1.w
        generalize scanRound env dir [116, 109, 112] (env.file_formats type).ext s1.buf s1.w = s2
          at b1 b2 b3
        rw [a3 hf] at b2 b3
        by_cases ho2 : s2.fd_ok = true
        · simp only [ho2, if_true]
          exact ⟨b1.trans (a1.trans h1), fun _ => b2 ho2⟩
        · simp only [ho2, if_false]
          exact ⟨b1.trans (a1.trans h1), fun h => by cases h⟩

/-! ## `get_temp_file`: reuse -/

theorem map_name_modify (store : List tempfile) (a n : Nat) :
    (store.modify (fun r => { r with next := some n }) a).map (fun r => r.name) =
      store.map (fun r => r.name) := by
  apply List.ext_getElem?
  intro i
  simp only [List.getElem?_map, List.getElem?_modify]
  cases store[i]? with
  | none => rfl
  | some r => by_cases h : a = i <;> simp [h]

theorem remember_temp_file_spec (env : Env) (name : Str) (type : Nat) (rgb : Bool) (w : World)
    (p : Str) (w1 : World) (h : remember_temp_file env name type rgb w = (some p, w1)) :
    p = name ∧ w1.files = w.files ∧
    ((w.mem_tempfiles = none ∧ w1.mem_tempfiles = some w.tempstore.length ∧
        w1.tempstore = w.tempstore ++
          [{ next := w.tempchain, id := w.tempstore.length, type := type, rgb := rgb,
             name := name }]) ∨
     (∃ a nxt, w.mem_tempfiles = some a ∧ w1.mem_tempfiles = some a ∧
        w1.tempstore =
          w.tempstore.modify (fun r => { r with next := some w.tempstore.length }) a ++
            [{ next := nxt, id := a, type := type, rgb := rgb, name := name }])) := by
  unfold remember_temp_file at h
  by_cases hm : env.wjmalloc_ok w = true
  · simp only [hm, if_true] at h
    cases ha : w.mem_tempfiles with
    | none =>
      simp only [ha, Prod.mk.injEq, Option.some.injEq] at h
      obtain ⟨h1, h2⟩ := h
      subst h2
      exact ⟨h1.symm, rfl, Or.inl ⟨rfl, rfl, rfl⟩⟩
    | some a =>
      simp only [ha, Prod.mk.injEq, Option.some.injEq] at h
      obtain ⟨h1, h2⟩ := h
      subst h2
      exact ⟨h1.symm, rfl, Or.inr ⟨a, _, rfl, rfl, rfl⟩⟩
  · simp only [hm, Bool.false_eq_true, if_false, Prod.mk.injEq] at h
    cases h.1

theorem makeTemp_spec (env : Env) (type : Nat) (rgb : Bool) (f : Str) (w : World)
    (p : Str) (w1 : World) (h : makeTemp env type rgb f w = (some p, w1)) :
    ∃ w2, storePart w2 = storePart w ∧ p ∉ w.files ∧ w2.files = p :: w.files ∧
      remember_temp_file env p type rgb w2 = (some p, w1) := by
  obtain ⟨g1, g2⟩ := get_tempname_spec env (some f) type w
  unfold makeTemp at h
  simp only [] at h
  generalize get_tempname env (some f) type w = r at h g1 g2
  by_cases h1 : (!r.1.1) = true
  · simp only [h1, if_true, Prod.mk.injEq] at h
    cases h.1
  · simp only [h1, Bool.false_eq_true, if_false] at h
    have hok : r.1.1 = true := by simpa using h1
    by_cases h2 : (rgb && decide (r.2.mem_img_bpp = 1) && !env.malloc_ok r.2) = true
    · simp only [h2, if_true, Prod.mk.injEq] at h
      cases h.1
    · simp only [h2, Bool.false_eq_true, if_false] at h
      by_cases h3 : env.save_image r.2 r.1.2 type ≠ 0
      · rw [if_pos h3] at h
        cases (Prod.mk.inj h).1
      · rw [if_neg h3] at h
        have hp := (remember_temp_file_spec env _ _ _ _ _ _ h).1
        rw [← hp] at h g2
        exact ⟨{ r.2 with log := r.2.log ++ [Event.save_image p] }, g1, (g2 hok).1, (g2 hok).2, h⟩

theorem findTemp_mem (store : List tempfile) (anchor : Option Nat) (type : Nat) (rgb : Bool) :
    ∀ (fuel : Nat) (tmp : Option Nat) (nm : Str),
      findTemp store anchor type rgb fuel tmp = some nm →
      ∃ r ∈ store, r.name = nm ∧ r.type = type ∧ r.rgb = rgb := by
  intro fuel
  induction fuel with
  | zero => intro tmp nm h; simp [findTemp] at h
  | succ n ih =>
    intro tmp nm h
    cases tmp with
    | none => simp [findTemp] at h
    | some a =>
      unfold findTemp at h
      cases hr : store.get? a with
      | none => rw [hr] at h; cases h
      | some r =>
        rw [hr] at h
        simp only [] at h
        by_cases h1 : some r.id ≠ anchor
        · simp [h1] at h
        · simp only [h1, if_false] at h
          by_cases h2 : r.type = type ∧ r.rgb = rgb
          · simp only [h2, and_self, if_true, Option.some.injEq] at h
            exact ⟨r, List.get?_mem hr, h, h2.1, h2.2⟩
          · simp only [h2, if_false] at h
            exact ih _ _ h

/-- The three ways `get_temp_file` returns a name. -/
theorem get_temp_file_body_cases (env : Env) (type : Nat) (rgb : Bool) (w : World)
    (p : Str) (w1 : World) (h : get_temp_file_body env type rgb w = (some p, w1)) :
    (useOriginal env type rgb w = some p ∧ w1 = w) ∨
    (useOriginal env type rgb w = none ∧
      findTemp w.tempstore w.mem_tempfiles (tempType env type w).1 rgb (w.tempstore.length + 1)
        w.mem_tempfiles = some p ∧ w1 = w) ∨
    (useOriginal env type rgb w = none ∧
      findTemp w.tempstore w.mem_tempfiles (tempType env type w).1 rgb (w.tempstore.length + 1)
        w.mem_tempfiles = none ∧
      makeTemp env (tempType env type w).1 rgb (tempType env type w).2 w = (some p, w1)) := by
  unfold get_temp_file_body at h
  cases ho : useOriginal env type rgb w with
  | some fn =>
    simp only [ho, Prod.mk.injEq, Option.some.injEq] at h
    exact Or.inl ⟨by rw [h.1], h.2.symm⟩
  | none =>
    simp only [ho] at h
    cases hf : findTemp w.tempstore w.mem_tempfiles (tempType env type w).1 rgb
        (w.tempstore.length + 1) w.mem_tempfiles with
    | some nm =>
      simp only [hf, Prod.mk.injEq, Option.some.injEq] at h
      exact Or.inr (Or.inl ⟨rfl, by rw [h.1], h.2.symm⟩)
    | none =>
      simp only [hf] at h
      exact Or.inr (Or.inr ⟨rfl, rfl, h⟩)

theorem useOriginal_congr (env : Env) (type : Nat) (rgb : Bool) {w1 w : World}
    (h : docPart w1 = docPart w) : useOriginal env type rgb w1 = useOriginal env type rgb w := by
  simp only [docPart, Prod.mk.injEq] at h
  obtain ⟨h1, h2, h3, -⟩ := h
  simp only [useOriginal, h1, h2, h3]

theorem tempType_congr (env : Env) (type : Nat) {w1 w : World}
    (h : docPart w1 = docPart w) : tempType env type w1 = tempType env type w := by
  have h2 := mem_filename_congr h
  simp only [tempType, h, h2]

theorem useOriginal_other (env : Env) (type : Nat) (rgb : Bool) (w1 w : World)
    (h : docPart w1 = docPart w) (p q : Str) (h1 : useOriginal env type rgb w = some p)
    (h2 : useOriginal env type (!rgb) w1 = some q) : False := by
  rw [useOriginal_congr env type (!rgb) h] at h2
  unfold useOriginal at h1 h2
  cases hf : w.mem_filename with
  | none => simp [hf] at h1
  | some fn =>
    simp only [hf] at h1 h2
    cases rgb <;> cases hb : decide (w.mem_img_bpp = 3) <;> simp [hb] at h1 h2

theorem findTemp_after_remember (env : Env) (name : Str) (type : Nat) (rgb : Bool) (w : World)
    (p : Str) (w1 : World) (hok : AnchorOk w)
    (hnf : findTemp w.tempstore w.mem_tempfiles type rgb (w.tempstore.length + 1)
      w.mem_tempfiles = none)
    (h : remember_temp_file env name type rgb w = (some p, w1)) :
    findTemp w1.tempstore w1.mem_tempfiles type rgb (w1.tempstore.length + 1)
      w1.mem_tempfiles = some p := by
  obtain ⟨hp, -, hc⟩ := remember_temp_file_spec env name type rgb w p w1 h
  subst hp
  rcases hc with ⟨-, h2, h3⟩ | ⟨a, nxt, h1, h2, h3⟩
  · rw [h2, h3]
    simp [findTemp]
  · unfold AnchorOk at hok
    rw [h1] at hok hnf
    simp only [] at hok
    cases hr : w.tempstore.get? a with
    | none => rw [hr] at hok; cases hok
    | some r =>
      rw [hr] at hok
      simp only [Option.map_some', Option.some.injEq] at hok
      have hlt : a < w.tempstore.length := by
        rw [List.get?_eq_getElem?] at hr
        exact (List.getElem?_eq_some_iff.mp hr).1
      unfold findTemp at hnf
      rw [hr] at hnf
      simp only [hok, ne_eq, not_true_eq_false, if_false] at hnf
      have hnm : ¬ (r.type = type ∧ r.rgb = rgb) := by
        intro hm
        rw [if_pos hm] at hnf
        cases hnf
      rw [List.get?_eq_getElem?] at hr
      rw [h2, h3]
      simp only [List.length_append, List.length_modify, List.length_singleton]
      unfold findTemp
      simp only [List.get?_eq_getElem?]
      rw [List.getElem?_append_left (by rw [List.length_modify]; exact hlt),
        List.getElem?_modify_eq, hr]
      simp [hok, hnm, List.getElem?_append_right, List.length_modify]
      unfold findTemp
      simp [List.getElem?_append_right, List.length_modify]

theorem get_temp_file_body_memo (env : Env) (type : Nat) (rgb : Bool) (w : World)
    (p : Str) (w1 : World) (hok : AnchorOk w)
    (h : get_temp_file_body env type rgb w = (some p, w1)) (l : List Event) :
    get_temp_file_body env type rgb { w1 with log := l } = (some p, { w1 with log := l }) := by
  rcases get_temp_file_body_cases env type rgb w p w1 h with ⟨h1, h2⟩ | ⟨h1, h2, h3⟩ | ⟨h1, h2, h3⟩
  · subst h2
    have : useOriginal env type rgb { w1 with log := l } = some p := h1
    unfold get_temp_file_body
    rw [this]
  · subst h3
    have ho : useOriginal env type rgb { w1 with log := l } = none := h1
    have hf : findTemp ({ w1 with log := l } : World).tempstore
        ({ w1 with log := l } : World).mem_tempfiles
        (tempType env type { w1 with log := l }).1 rgb
        (({ w1 with log := l } : World).tempstore.length + 1)
        ({ w1 with log := l } : World).mem_tempfiles = some p := h2
    unfold get_temp_file_body
    rw [ho]
    simp only []
    rw [hf]
  · obtain ⟨w2, s1, -, -, hrem⟩ := makeTemp_spec env _ rgb _ w p w1 h3
    have hdoc : docPart w1 = docPart w := by
      have := (makeTemp_frame env (tempType env type w).1 rgb (tempType env type w).2 w).1
      rw [h3] at this
      exact this
    simp only [storePart, Prod.mk.injEq] at s1
    obtain ⟨s1, s2, -⟩ := s1
    have hok2 : AnchorOk w2 := by
      unfold AnchorOk at hok ⊢
      rw [s1, s2]
      exact hok
    have hnf : findTemp w2.tempstore w2.mem_tempfiles (tempType env type w).1 rgb
        (w2.tempstore.length + 1) w2.mem_tempfiles = none := by
      rw [s1, s2]
      exact h2
    have hfound := findTemp_after_remember env p _ rgb w2 p w1 hok2 hnf hrem
    have hdoc2 : docPart ({ w1 with log := l } : World) = docPart w := hdoc
    unfold get_temp_file_body
    rw [useOriginal_congr env type rgb hdoc2, h1]
    simp only []
    rw [tempType_congr env type hdoc2]
    have hf : findTemp ({ w1 with log := l } : World).tempstore
        ({ w1 with log := l } : World).mem_tempfiles
        (tempType env type w).1 rgb
        (({ w1 with log := l } : World).tempstore.length + 1)
        ({ w1 with log := l } : World).mem_tempfiles = some p := hfound
    rw [hf]

theorem useOriginal_some (env : Env) (type : Nat) (rgb : Bool) (w : World) (p : Str)
    (h : useOriginal env type rgb w = some p) : w.mem_filename = some p := by
  unfold useOriginal at h
  cases hf : w.mem_filename with
  | none => rw [hf] at h; cases h
  | some fn =>
    rw [hf] at h
    simp only [] at h
    split_ifs at h
    cases h
    rfl

theorem get_temp_file_body_apart (env : Env) (type : Nat) (rgb : Bool) (w : World)
    (p1 : Str) (w1 : World) (hk : FilesKept w) (hn : NamesApart w)
    (h1 : get_temp_file_body env type rgb w = (some p1, w1)) (l : List Event)
    (p2 : Str) (w2 : World)
    (h2 : get_temp_file_body env type (!rgb) { w1 with log := l } = (some p2, w2)) :
    p2 ≠ p1 := by
  obtain ⟨hnd, hdocf⟩ := hn
  -- what the first call tells about `p1` and the state it leaves
  have hdoc : docPart ({ w1 with log := l } : World) = docPart w := by
    have := (get_temp_file_body_frame env type rgb w).1
    rw [h1] at this
    exact this
  have first : (w1 = w ∧ (useOriginal env type rgb w = some p1 ∨
        ∃ r ∈ w.tempstore, r.name = p1 ∧ r.rgb = rgb)) ∨
      (p1 ∉ w.files ∧ w1.files = p1 :: w.files ∧
        ∃ base rec, w1.tempstore = base ++ [rec] ∧ rec.rgb = rgb ∧
          base.map (fun r => r.name) = w.tempstore.map (fun r => r.name)) := by
    rcases get_temp_file_body_cases env type rgb w p1 w1 h1 with
      ⟨a1, a2⟩ | ⟨-, a2, a3⟩ | ⟨-, -, a3⟩
    · exact Or.inl ⟨a2, Or.inl a1⟩
    · obtain ⟨r, hr, hrn, -, hrr⟩ := findTemp_mem _ _ _ _ _ _ _ a2
      exact Or.inl ⟨a3, Or.inr ⟨r, hr, hrn, hrr⟩⟩
    · obtain ⟨w3, s1, hnot, hfiles, hrem⟩ := makeTemp_spec env _ rgb _ w p1 w1 a3
      obtain ⟨-, hf2, hc⟩ := remember_temp_file_spec env p1 _ rgb w3 p1 w1 hrem
      simp only [storePart, Prod.mk.injEq] at s1
      refine Or.inr ⟨hnot, hf2.trans hfiles, ?_⟩
      rcases hc with ⟨-, -, c3⟩ | ⟨a, nxt, -, -, c3⟩
      · exact ⟨_, _, c3, rfl, by rw [s1.1]⟩
      · exact ⟨_, _, c3, rfl, by rw [map_name_modify, s1.1]⟩
  -- the three ways of the second call
  rcases get_temp_file_body_cases env type (!rgb) _ p2 w2 h2 with
    ⟨b1, -⟩ | ⟨-, b2, -⟩ | ⟨-, -, b3⟩
  · -- the second call returns the document's own file
    have hfn : w.mem_filename = some p2 := by
      have := useOriginal_some env type (!rgb) _ p2 b1
      exact this.symm.trans (mem_filename_congr hdoc) |>.symm
    obtain ⟨hin, hnot⟩ := hdocf p2 hfn
    rcases first with ⟨hw, ho | ⟨r, hr, hrn, -⟩⟩ | ⟨hnf, -, -⟩
    · exact fun _ => useOriginal_other env type rgb _ w hdoc p1 p2 ho b1
    · intro he
      apply hnot
      rw [he, ← hrn]
      exact List.mem_map_of_mem _ hr
    · intro he
      rw [he] at hin
      exact hnf hin
  · -- the second call finds a record
    obtain ⟨r2, hr2, hr2n, -, hr2r⟩ := findTemp_mem _ _ _ _ _ _ _ b2
    have hr2' : r2 ∈ w1.tempstore := hr2
    rcases first with ⟨hw, ho | ⟨r, hr, hrn, hrr⟩⟩ | ⟨hnf, -, base, rec, hst, hrec, hbase⟩
    · subst hw
      have hfn := useOriginal_some env type rgb _ p1 ho
      intro he
      apply (hdocf p1 hfn).2
      rw [← he, ← hr2n]
      exact List.mem_map_of_mem _ hr2'
    · subst hw
      intro he
      have := List.inj_on_of_nodup_map hnd hr2' hr (by rw [hr2n, hrn, he])
      rw [this, hrr] at hr2r
      cases rgb <;> cases hr2r
    · rw [hst, List.mem_append, List.mem_singleton] at hr2'
      rcases hr2' with hb | hb
      · have hmem : p2 ∈ w.tempstore.map (fun r => r.name) := by
          rw [← hbase, ← hr2n]
          exact List.mem_map_of_mem _ hb
        obtain ⟨r, hr, hrn⟩ := List.mem_map.mp hmem
        intro he
        apply hnf
        rw [← he, ← hrn]
        exact hk r hr
      · rw [hb, hrec] at hr2r
        cases rgb <;> cases hr2r
  · -- the second call makes a new file
    obtain ⟨w3, -, hnot2, -, -⟩ := makeTemp_spec env _ _ _ _ p2 w2 b3
    have hnot2' : p2 ∉ w1.files := hnot2
    rcases first with ⟨hw, ho | ⟨r, hr, hrn, -⟩⟩ | ⟨-, hfiles, -⟩
    · subst hw
      have hfn := useOriginal_some env type rgb _ p1 ho
      intro he
      rw [he] at hnot2'
      exact hnot2' (hdocf p1 hfn).1
    · subst hw
      intro he
      rw [he, ← hrn] at hnot2'
      exact hnot2' (hk r hr)
    · intro he
      rw [he, hfiles] at hnot2'
      exact hnot2' (List.mem_cons_self _ _)

theorem anchorOk_of_storePart {w1 w : World} (h : storePart w1 = storePart w)
    (hok : AnchorOk w) : AnchorOk w1 := by
  simp only [storePart, Prod.mk.injEq] at h
  unfold AnchorOk at hok ⊢
  rw [h.1, h.2.1]
  exact hok

theorem remember_temp_file_anchorOk (env : Env) (name : Str) (type : Nat) (rgb : Bool)
    (w : World) (hok : AnchorOk w) : AnchorOk (remember_temp_file env name type rgb w).2 := by
  unfold remember_temp_file
  by_cases hm : env.wjmalloc_ok w = true
  · simp only [hm, if_true]
    cases ha : w.mem_tempfiles with
    | none =>
      simp [AnchorOk]
    | some a =>
      unfold AnchorOk at hok ⊢
      rw [ha] at hok
      simp only [] at hok ⊢
      cases hr : w.tempstore.get? a with
      | none => rw [hr] at hok; cases hok
      | some r =>
        rw [hr] at hok
        have hlt : a < w.tempstore.length := by
          rw [List.get?_eq_getElem?] at hr
          exact (List.getElem?_eq_some_iff.mp hr).1
        rw [List.get?_eq_getElem?] at hr
        simp only [List.get?_eq_getElem?]
        rw [List.getElem?_append_left (by rw [List.length_modify]; exact hlt),
          List.getElem?_modify_eq, hr]
        simpa using hok
  · simp only [hm, Bool.false_eq_true, if_false]
    exact hok

theorem makeTemp_anchorOk (env : Env) (type : Nat) (rgb : Bool) (f : Str) (w : World)
    (hok : AnchorOk w) : AnchorOk (makeTemp env type rgb f w).2 := by
  have h1 : AnchorOk (get_tempname env (some f) type w).2 :=
    anchorOk_of_storePart (get_tempname_spec env (some f) type w).1 hok
  unfold makeTemp
  simp only []
  split_ifs
  · exact h1
  · exact h1
  · exact h1
  · exact remember_temp_file_anchorOk env _ _ _ _ h1

/-- The anchor condition is kept by `get_temp_file`, whatever it returns. -/
theorem get_temp_file_anchorOk (env : Env) (type : Nat) (rgb : Bool) (w : World)
    (hok : AnchorOk w) : AnchorOk (get_temp_file env type rgb w).2 := by
  unfold get_temp_file get_temp_file_body
  split
  · exact hok
  · simp only []
    split
    · exact hok
    · exact makeTemp_anchorOk env _ _ _ _ hok

/-- C7 (as stated, refuted): in the state `consumedWorld` (one record, for the
indexed PNG `/tmp/mt/tmp.png`, whose file a spawned command has moved away)
`get_temp_file(FT_NONE, TRUE)` succeeds by creating `/tmp/mt/tmp.png` anew, and
the call with the other `rgb` value that follows returns the same path, from
the old record. -/
theorem get_temp_file_same_path_counterexample :
    consumedWorld.tempstore =
      [{ next := none, id := 0, type := 1, rgb := false,
         name := [47, 116, 109, 112, 47, 109, 116, 47, 116, 109, 112, 46, 112, 110, 103] }] ∧
    consumedWorld.mem_tempfiles = some 0 ∧ consumedWorld.files = [] ∧ AnchorOk consumedWorld ∧
    (get_temp_file sampleEnv 0 true consumedWorld).1 =
      some [47, 116, 109, 112, 47, 109, 116, 47, 116, 109, 112, 46, 112, 110, 103] ∧
    (get_temp_file sampleEnv 0 false (get_temp_file sampleEnv 0 true consumedWorld).2).1 =
      some [47, 116, 109, 112, 47, 109, 116, 47, 116, 109, 112, 46, 112, 110, 103] := by
  decide

/-- C7 (amended): for every state whose anchor is as `remember_temp_file`
leaves it, if `get_temp_file(type, rgb)` succeeds and is called again with the
same arguments on the state it left, the second call returns the same path and
changes nothing but the trace (no new file, no new record); and if moreover
every recorded temp file and the document's own file are still on disk under
names that are all different, a successful call with the other `rgb` value
returns a different path. -/
theorem get_temp_file_reuse (env : Env) (type : Nat) (rgb : Bool) (w : World) (p : Str)
    (w1 : World) (hok : AnchorOk w) (h1 : get_temp_file env type rgb w = (some p, w1)) :
    get_temp_file env type rgb w1 =
      (some p, { w1 with log := w1.log ++ [Event.get_temp_file type rgb] }) ∧
    (FilesKept w → NamesApart w →
      ∀ p2 w2, get_temp_file env type (!rgb) w1 = (some p2, w2) → p2 ≠ p) := by
  unfold get_temp_file at h1 ⊢
  refine ⟨get_temp_file_body_memo env type rgb
    { w with log := w.log ++ [Event.get_temp_file type rgb] } p w1 hok h1 _, ?_⟩
  intro hk hn p2 w2 h2
  exact get_temp_file_body_apart env type rgb
    { w with log := w.log ++ [Event.get_temp_file type rgb] } p w1 hk hn h1 _ p2 w2 h2

/-- Witness for C7 (amended): the unmodified indexed document `a.png`: the
call with `rgb` false returns `a.png` twice, the call with `rgb` true the new
file `/tmp/mt/a.png`. -/
theorem get_temp_file_reuse_witness :
    AnchorOk (sampleWorld (some [97, 46, 112, 110, 103])) ∧
    get_temp_file sampleEnv 0 false
        (get_temp_file sampleEnv 0 false (sampleWorld (some [97, 46, 112, 110, 103]))).2 =
      (some [97, 46, 112, 110, 103],
       { (get_temp_file sampleEnv 0 false (sampleWorld (some [97, 46, 112, 110, 103]))).2 with
         log := (get_temp_file sampleEnv 0 false
            (sampleWorld (some [97, 46, 112, 110, 103]))).2.log ++
              [Event.get_temp_file 0 false] }) ∧
    [47, 116, 109, 112, 47, 109, 116, 47, 97, 46, 112, 110, 103] ≠ [97, 46, 112, 110, 103] :=
  ⟨by decide,
   (get_temp_file_reuse sampleEnv 0 false (sampleWorld (some [97, 46, 112, 110, 103]))
      [97, 46, 112, 110, 103]
      (get_temp_file sampleEnv 0 false (sampleWorld (some [97, 46, 112, 110, 103]))).2
      (by decide) (by decide)).1,
   (get_temp_file_reuse sampleEnv 0 false (sampleWorld (some [97, 46, 112, 110, 103]))
      [97, 46, 112, 110, 103]
      (get_temp_file sampleEnv 0 false (sampleWorld (some [97, 46, 112, 110, 103]))).2
      (by decide) (by decide)).2
      (by decide)
      ⟨by decide, fun fn h => by cases h; decide⟩
      [47, 116, 109, 112, 47, 109, 116, 47, 97, 46, 112, 110, 103]
      (get_temp_file sampleEnv 0 true
        (get_temp_file sampleEnv 0 false (sampleWorld (some [97, 46, 112, 110, 103]))).2).2
      (by decide)⟩

/-! ## `get_tempname`: every creation fails -/

theorem World.log_append_nil (w : World) : ({ w with log := w.log ++ [] } : World) = w := by
  cases w
  simp only [List.append_nil]

theorem wrapInt_small (b : Int) (h0 : 0 ≤ b) (h1 : b ≤ INT_MAX) : wrapInt b = b := by
  unfold wrapInt
  unfold INT_MAX at h1
  omega

theorem wrapInt_succ (b : Int) : wrapInt (wrapInt b + 1) = wrapInt (b + 1) := by
  unfold wrapInt
  omega

theorem wrapInt_eq_zero (b : Int) (h0 : 0 ≤ b) (h1 : b < 4294967296) (h : wrapInt b = 0) :
    b = 0 := by
  unfold wrapInt at h
  omega

theorem window_succ (env : Env) (dir f ext : Str) (idx : Int) (n : Nat) :
    window env dir f ext idx (n + 1) =
      Event.open_excl (candidate env dir f ext (wrapInt idx)) ::
        window env dir f ext (idx + 1) n := by
  unfold window
  rw [List.range_succ_eq_map, List.map_cons, List.map_map]
  have h0 : idx + ((0 : Nat) : Int) = idx := by simp
  rw [h0]
  congr 1
  apply List.map_congr_left
  intro k _
  have hk : idx + ((k.succ : Nat) : Int) = idx + 1 + (k : Int) := by
    rw [Nat.cast_succ]; omega
  simp only [Function.comp, hk]

theorem openCalls_window (env : Env) (dir f ext : Str) (n : Nat) : ∀ idx : Int,
    (window env dir f ext idx n).countP (fun e => match e with
      | Event.open_excl _ => true
      | _ => false) = n := by
  induction n with
  | zero => intro idx; simp [window]
  | succ n ih =>
    intro idx
    rw [window_succ, List.countP_cons, ih]
    simp

theorem open_excl_fail (env : Env) (p : Str) (w : World) (h : (open_excl env p w).1 = false) :
    open_excl env p w = (false, { w with log := w.log ++ [Event.open_excl p] }) := by
  unfold open_excl at h ⊢
  simp only [] at h ⊢
  rw [h]
  simp

theorem scanLoop_all_fail (env : Env) (dir f ext : Str) (files : List Str) :
    ∀ (n : Nat) (st : ScanSt) (b : Int), st.fd_ok = false → st.idx = wrapInt b → 0 ≤ b →
      b + (n : Int) < 4294967296 → (b = 0 → st.ids = []) → st.w.files = files →
      (∀ (w1 : World) (p : Str), w1.files = files →
        Event.open_excl p ∈ window env dir f ext b n → (open_excl env p w1).1 = false) →
      (scanLoop env dir f ext n st).fd_ok = false ∧
      (scanLoop env dir f ext n st).idx = wrapInt (b + (n : Int)) ∧
      (scanLoop env dir f ext n st).w =
        { st.w with log := st.w.log ++ window env dir f ext b n } := by
  intro n
  induction n with
  | zero =>
    intro st b hfd hb _ _ _ _ _
    refine ⟨hfd, by simp [scanLoop, hb], ?_⟩
    simp only [scanLoop, window, List.range_zero, List.map_nil]
    exact (World.log_append_nil st.w).symm
  | succ n ih =>
    intro st b _ hb h0 hn hids hfiles hfail
    have hcand : (dir ++ [DIR_SEP] ++ f ++ (if st.idx ≠ 0 then fmt_d st.idx else st.ids) ++
        [46] ++ ext).take (env.PATHBUF - 1) = candidate env dir f ext (wrapInt b) := by
      unfold candidate
      rw [← hb]
      by_cases hz : st.idx = 0
      · have hb0 : b = 0 := wrapInt_eq_zero b h0 (by omega) (by rw [← hb]; exact hz)
        simp [hz, hids hb0]
      · simp [hz]
    unfold scanLoop
    simp only [hcand]
    have hopen := open_excl_fail env (candidate env dir f ext (wrapInt b)) st.w
      (hfail st.w _ hfiles (by rw [window_succ]; exact List.mem_cons_self _ _))
    rw [hopen]
    simp only [Bool.false_eq_true, if_false]
    obtain ⟨i1, i2, i3⟩ := ih
      { fd_ok := false, idx := wrapInt (st.idx + 1),
        ids := if st.idx ≠ 0 then fmt_d st.idx else st.ids,
        buf := candidate env dir f ext (wrapInt b),
        w := { st.w with log := st.w.log ++
          [Event.open_excl (candidate env dir f ext (wrapInt b))] } }
      (b + 1) rfl (by simp only []; rw [hb, wrapInt_succ]) (by omega)
      (by push_cast at hn; omega) (by intro h; omega) hfiles
      (fun w1 p hw hp => hfail w1 p hw (by rw [window_succ]; exact List.mem_cons_of_mem _ hp))
    refine ⟨i1, ?_, ?_⟩
    · rw [i2]
      congr 1
      push_cast
      omega
    · rw [i3, window_succ]
      simp

theorem nextIndex_range (idx : Int) (h0 : 0 ≤ idx) (h1 : idx ≤ INT_MAX) :
    0 ≤ nextIndex idx ∧ nextIndex idx ≤ INT_MAX := by
  unfold nextIndex
  split_ifs <;> constructor <;> omega

theorem scanRound_all_fail (env : Env) (dir f ext buf : Str) (w : World)
    (hidx : 0 ≤ w.index) (hmax : w.index ≤ INT_MAX)
    (hfail : ∀ (w1 : World) (p : Str), w1.files = w.files →
      Event.open_excl p ∈ window env dir f ext w.index 256 → (open_excl env p w1).1 = false) :
    (scanRound env dir f ext buf w).fd_ok = false ∧
    (scanRound env dir f ext buf w).w =
      { w with index := nextIndex w.index,
               log := w.log ++ window env dir f ext w.index 256 } := by
  unfold scanRound
  have h1 : last_temp_index (-1) w = (w.index, w) := by
    simp [last_temp_index]
  rw [h1]
  simp only []
  have hm : w.index ≤ 2147483647 := hmax
  obtain ⟨a1, a2, a3⟩ := scanLoop_all_fail env dir f ext w.files 256
    { fd_ok := false, idx := w.index, ids := [], buf := buf, w := w } w.index rfl
    (wrapInt_small w.index hidx hmax).symm hidx (by push_cast; omega) (fun _ => rfl) rfl hfail
  refine ⟨a1, ?_⟩
  simp only [] at a2 a3
  unfold last_temp_index
  rw [a2, a3]
  unfold nextIndex
  by_cases hc : w.index + 256 ≤ INT_MAX
  · have hw : wrapInt (w.index + ((256 : Nat) : Int)) = w.index + 256 := by
      have := wrapInt_small (w.index + 256) (by omega) hc
      simpa using this
    have hge : w.index + 256 ≥ 0 := by omega
    rw [hw, if_pos hc]
    simp only [hge, if_true]
  · have hneg : ¬ wrapInt (w.index + ((256 : Nat) : Int)) ≥ 0 := by
      unfold INT_MAX at hc
      unfold wrapInt
      push_cast
      omega
    rw [if_neg hc]
    simp only [hneg, if_false]

theorem get_tempname_all_fail_dir (env : Env) (f : Option Str) (type : Nat) (w : World)
    (dir : Str) (hdir : w.mt_temp_dir = some dir) (hidx : 0 ≤ w.index)
    (hmax : w.index ≤ INT_MAX)
    (hfail : ∀ (w1 : World) (p : Str), w1.files = w.files →
      Event.open_excl p ∈ tries env dir (stubify env f) (env.file_formats type).ext w.index →
      (open_excl env p w1).1 = false) :
    (get_tempname env f type w).1.1 = false ∧
    (get_tempname env f type w).2 =
      { w with
        index := if stubify env f = [116, 109, 112] then nextIndex w.index
          else nextIndex (nextIndex w.index),
        log := w.log ++ tries env dir (stubify env f) (env.file_formats type).ext w.index } := by
  unfold get_tempname
  simp only [hdir]
  by_cases ht : stubify env f = [116, 109, 112]
  · have hfail1 : ∀ (w1 : World) (p : Str), w1.files = w.files →
        Event.open_excl p ∈ window env dir (stubify env f) (env.file_formats type).ext
          w.index 256 → (open_excl env p w1).1 = false := by
      intro w1 p hw hp
      apply hfail w1 p hw
      unfold tries
      rw [if_pos ht, ← ht]
      exact hp
    obtain ⟨a1, a2⟩ := scanRound_all_fail env dir (stubify env f) (env.file_formats type).ext
      [] w hidx hmax hfail1
    rw [ht] at a1 a2
    simp only [ht, a1, Bool.false_eq_true, if_false, if_true, true_and]
    rw [a2]
    simp only [hdir, tries, if_true]
  · have hfail1 : ∀ (w1 : World) (p : Str), w1.files = w.files →
        Event.open_excl p ∈ window env dir (stubify env f) (env.file_formats type).ext
          w.index 256 → (open_excl env p w1).1 = false := by
      intro w1 p hw hp
      apply hfail w1 p hw
      unfold tries
      rw [if_neg ht]
      exact List.mem_append_left _ hp
    obtain ⟨a1, a2⟩ := scanRound_all_fail env dir (stubify env f) (env.file_formats type).ext
      [] w hidx hmax hfail1
    simp only [a1, Bool.false_eq_true, if_false, ht]
    have hr := nextIndex_range w.index hidx hmax
    obtain ⟨b1, b2⟩ := scanRound_all_fail env dir [116, 109, 112] (env.file_formats type).ext
      (scanRound env dir (stubify env f) (env.file_formats type).ext [] w).buf
      (scanRound env dir (stubify env f) (env.file_formats type).ext [] w).w
      (by rw [a2]; exact hr.1) (by rw [a2]; exact hr.2)
      (by
        rw [a2]
        intro w1 p hw hp
        apply hfail w1 p hw
        unfold tries
        rw [if_neg ht]
        exact List.mem_append_right _ hp)
    simp only [b1, Bool.false_eq_true, if_false, true_and]
    rw [b2, a2]
    simp only [hdir, tries, ht, if_false, List.append_assoc]

theorem get_tempname_lazy (env : Env) (f : Option Str) (type : Nat) (w : World) (d : Str)
    (hnone : w.mt_temp_dir = none) (hmk : env.mkdtemp w = some d) :
    get_tempname env f type w =
      get_tempname env f type { w with dirs := d :: w.dirs, mt_temp_dir := some d } := by
  unfold get_tempname
  simp only [hnone, new_temp_dir, hmk]

theorem get_tempname_all_fail (env : Env) (f : Option Str) (type : Nat) (w : World)
    (dir : Str) (hdir : tempDir env w = some dir) (hidx : 0 ≤ w.index)
    (hmax : w.index ≤ INT_MAX)
    (hfail : ∀ (w1 : World) (p : Str), w1.files = w.files →
      Event.open_excl p ∈ tries env dir (stubify env f) (env.file_formats type).ext w.index →
      (open_excl env p w1).1 = false) :
    (get_tempname env f type w).1.1 = false ∧
    (get_tempname env f type w).2.files = w.files ∧
    (get_tempname env f type w).2.mt_temp_dir = some dir ∧
    (get_tempname env f type w).2.index =
      (if stubify env f = [116, 109, 112] then nextIndex w.index
        else nextIndex (nextIndex w.index)) ∧
    (get_tempname env f type w).2.log =
      w.log ++ tries env dir (stubify env f) (env.file_formats type).ext w.index := by
  cases hm : w.mt_temp_dir with
  | some d0 =>
    have hd : d0 = dir := by
      unfold tempDir at hdir
      rw [hm] at hdir
      exact Option.some.inj hdir
    subst hd
    obtain ⟨h1, h2⟩ := get_tempname_all_fail_dir env f type w d0 hm hidx hmax hfail
    rw [h2]
    exact ⟨h1, rfl, hm, rfl, rfl⟩
  | none =>
    have hmk : env.mkdtemp w = some dir := by
      unfold tempDir at hdir
      rw [hm] at hdir
      exact hdir
    rw [get_tempname_lazy env f type w dir hm hmk]
    obtain ⟨h1, h2⟩ := get_tempname_all_fail_dir env f type
      { w with dirs := dir :: w.dirs, mt_temp_dir := some dir } dir rfl hidx hmax hfail
    rw [h2]
    exact ⟨h1, rfl, rfl, rfl, rfl⟩

theorem openCalls_log (w : World) (es : List Event) :
    openCalls { w with log := w.log ++ es } =
      openCalls w + es.countP (fun e => match e with
        | Event.open_excl _ => true
        | _ => false) := by
  simp [openCalls, List.countP_append]

theorem openCalls_of_log (w w2 : World) (es : List Event) (h : w2.log = w.log ++ es) :
    openCalls w2 = openCalls w + es.countP (fun e => match e with
      | Event.open_excl _ => true
      | _ => false) := by
  simp [openCalls, h, List.countP_append]

/-! ## The stored index stays a non-negative `int` -/

theorem wrapInt_le (x : Int) : wrapInt x ≤ INT_MAX := by
  unfold wrapInt INT_MAX
  omega

theorem open_excl_index (env : Env) (buf : Str) (w : World) :
    (open_excl env buf w).2.index = w.index := rfl

theorem scanLoop_index (env : Env) (dir f ext : Str) : ∀ (n : Nat) (st : ScanSt),
    st.idx ≤ INT_MAX →
    (scanLoop env dir f ext n st).idx ≤ INT_MAX ∧
    (scanLoop env dir f ext n st).w.index = st.w.index := by
  intro n
  induction n with
  | zero => intro st h; exact ⟨h, rfl⟩
  | succ n ih =>
    intro st h
    unfold scanLoop
    simp only []
    generalize (if st.idx ≠ 0 then fmt_d st.idx else st.ids) = ids
    generalize (dir ++ [DIR_SEP] ++ f ++ ids ++ [46] ++ ext).take (env.PATHBUF - 1) = buf
    by_cases ho : (open_excl env buf st.w).1 = true
    · simp only [ho, if_true]
      exact ⟨h, rfl⟩
    · simp only [ho, if_false]
      exact ih ⟨false, wrapInt (st.idx + 1), ids, buf, (open_excl env buf st.w).2⟩
        (wrapInt_le (st.idx + 1))

theorem scanRound_index (env : Env) (dir f ext buf : Str) (w : World)
    (h : 0 ≤ w.index ∧ w.index ≤ INT_MAX) :
    0 ≤ (scanRound env dir f ext buf w).w.index ∧
      (scanRound env dir f ext buf w).w.index ≤ INT_MAX := by
  unfold scanRound
  have h1 : last_temp_index (-1) w = (w.index, w) := by
    simp [last_temp_index]
  rw [h1]
  simp only []
  obtain ⟨a1, a2⟩ := scanLoop_index env dir f ext 256
    { fd_ok := false, idx := w.index, ids := [], buf := buf, w := w } h.2
  generalize scanLoop env dir f ext 256
    { fd_ok := false, idx := w.index, ids := [], buf := buf, w := w } = st at a1 a2
  simp only [] at a2
  unfold last_temp_index
  simp only []
  split_ifs with hc
  · exact ⟨hc, a1⟩
  · rw [a2]
    exact h

/-- Every call of `get_tempname` keeps the stored index a non-negative
`int`. -/
theorem get_tempname_index (env : Env) (f : Option Str) (type : Nat) (w : World)
    (h : 0 ≤ w.index ∧ w.index ≤ INT_MAX) :
    0 ≤ (get_tempname env f type w).2.index ∧ (get_tempname env f type w).2.index ≤ INT_MAX := by
  have key : ∀ w0 : World, (0 ≤ w0.index ∧ w0.index ≤ INT_MAX) →
      ∀ dir : Str, w0.mt_temp_dir = some dir →
      0 ≤ (get_tempname env f type w0).2.index ∧
        (get_tempname env f type w0).2.index ≤ INT_MAX := by
    intro w0 h0 dir hd
    unfold get_tempname
    simp only [hd]
    have r1 := scanRound_index env dir (stubify env f) (env.file_formats type).ext [] w0 h0
    have r2 := scanRound_index env dir [116, 109, 112] (env.file_formats type).ext
      (scanRound env dir (stubify env f) (env.file_formats type).ext [] w0).buf
      (scanRound env dir (stubify env f) (env.file_formats type).ext [] w0).w r1
    split_ifs <;> first | exact r1 | exact r2
  cases hm : w.mt_temp_dir with
  | some d => exact key w h d hm
  | none =>
    cases hmk : env.mkdtemp w with
    | none =>
      unfold get_tempname
      simp only [hm, new_temp_dir, hmk]
      exact h
    | some d =>
      rw [get_tempname_lazy env f type w d hm hmk]
      exact key _ h d rfl

/-- C8 (as stated, refuted): for a missing hint, and for the hint `tmp.png`
(the one `get_temp_file` passes for a document without a file name), the stub
is `tmp` itself, and when no file can be created `get_tempname` returns failure
after one window of 256 `open` calls: there is no second window. -/
theorem get_tempname_single_window_counterexample :
    stubify fullEnv none = [116, 109, 112] ∧
    (get_tempname fullEnv none 1 dirWorld).1.1 = false ∧
    openCalls (get_tempname fullEnv none 1 dirWorld).2 = 256 ∧
    stubify fullEnv (some [116, 109, 112, 46, 112, 110, 103]) = [116, 109, 112] ∧
    (get_tempname fullEnv (some [116, 109, 112, 46, 112, 110, 103]) 1 dirWorld).1.1 = false ∧
    openCalls (get_tempname fullEnv (some [116, 109, 112, 46, 112, 110, 103]) 1 dirWorld).2 =
      256 := by
  have count : ∀ f : Option Str, stubify fullEnv f = [116, 109, 112] →
      (get_tempname fullEnv f 1 dirWorld).1.1 = false ∧
      openCalls (get_tempname fullEnv f 1 dirWorld).2 = 256 := by
    intro f hs
    obtain ⟨h1, -, -, -, h5⟩ := get_tempname_all_fail fullEnv f 1
      dirWorld [47, 116, 109, 112, 47, 109, 116] rfl (by decide) (by decide)
      (fun w1 p _ _ => by simp [open_excl, fullEnv])
    refine ⟨h1, ?_⟩
    rw [openCalls_of_log dirWorld _ _ h5]
    unfold tries
    rw [if_pos hs, openCalls_window]
    rfl
  have hs0 : stubify fullEnv none = [116, 109, 112] := by decide
  have hs1 : stubify fullEnv (some [116, 109, 112, 46, 112, 110, 103]) = [116, 109, 112] := by
    decide
  exact ⟨hs0, (count _ hs0).1, (count _ hs0).2, hs1, (count _ hs1).1, (count _ hs1).2⟩

/-- C8 (amended): for every file-name hint, in a state whose temp directory
exists or can be created and whose stored index is a non-negative `int`, when
the exclusive creation of every name `get_tempname` tries fails (the name is
taken, or `open` refuses), `get_tempname` returns failure and creates no file;
its `open` calls are one window of 256 candidate names with the stub derived
from the hint, followed, when that stub is not `tmp` itself, by exactly one
more window of 256 candidates with the stub `tmp`, and by nothing at all when
the stub is `tmp` (as for the hints `tmp.png`, `.png` or a missing hint).  The
index of a candidate is an `int`: past `INT_MAX` the window goes on at
`INT_MIN`, and a window that ends there leaves the stored index as it was. -/
theorem get_tempname_exhausted (env : Env) (f : Option Str) (type : Nat) (w : World)
    (dir : Str) (hdir : tempDir env w = some dir) (hidx : 0 ≤ w.index ∧ w.index ≤ INT_MAX)
    (hfail : ∀ (w1 : World) (p : Str), w1.files = w.files →
      Event.open_excl p ∈ tries env dir (stubify env f) (env.file_formats type).ext w.index →
      (open_excl env p w1).1 = false) :
    (get_tempname env f type w).1.1 = false ∧
    (get_tempname env f type w).2.files = w.files ∧
    (get_tempname env f type w).2.mt_temp_dir = some dir ∧
    (stubify env f = [116, 109, 112] →
      (get_tempname env f type w).2.log =
        w.log ++ window env dir [116, 109, 112] (env.file_formats type).ext w.index 256 ∧
      openCalls (get_tempname env f type w).2 = openCalls w + 256 ∧
      (get_tempname env f type w).2.index = nextIndex w.index) ∧
    (stubify env f ≠ [116, 109, 112] →
      (get_tempname env f type w).2.log =
        w.log ++ (window env dir (stubify env f) (env.file_formats type).ext w.index 256 ++
          window env dir [116, 109, 112] (env.file_formats type).ext (nextIndex w.index) 256) ∧
      openCalls (get_tempname env f type w).2 = openCalls w + 512 ∧
      (get_tempname env f type w).2.index = nextIndex (nextIndex w.index)) := by
  obtain ⟨h1, h2, h3, h4, h5⟩ := get_tempname_all_fail env f type w dir hdir hidx.1 hidx.2 hfail
  refine ⟨h1, h2, h3, ?_, ?_⟩
  · intro hs
    rw [h4, if_pos hs, openCalls_of_log w _ _ h5, h5]
    unfold tries
    rw [if_pos hs, openCalls_window]
    exact ⟨rfl, rfl, rfl⟩
  · intro hs
    rw [h4, if_neg hs, openCalls_of_log w _ _ h5, h5]
    unfold tries
    rw [if_neg hs, List.countP_append, openCalls_window, openCalls_window]
    exact ⟨rfl, rfl, rfl⟩

/-- Witness for C8 (amended): in a fresh session, on a disk where all the
names tried for the hint `a.png` are taken, the temp directory is created and
two windows are tried, every `open` being allowed by the system. -/
theorem get_tempname_exhausted_witness :
    tempDir sampleEnv occupiedWorld = some [47, 116, 109, 112, 47, 109, 116] ∧
    (get_tempname sampleEnv (some [97, 46, 112, 110, 103]) 1 occupiedWorld).1.1 = false ∧
    openCalls (get_tempname sampleEnv (some [97, 46, 112, 110, 103]) 1 occupiedWorld).2 =
      openCalls occupiedWorld + 512 :=
  have hs : stubify sampleEnv (some [97, 46, 112, 110, 103]) = [97] := by decide
  have hfail : ∀ (w1 : World) (p : Str), w1.files = occupiedWorld.files →
      Event.open_excl p ∈ tries sampleEnv [47, 116, 109, 112, 47, 109, 116]
        (stubify sampleEnv (some [97, 46, 112, 110, 103])) (sampleEnv.file_formats 1).ext
        occupiedWorld.index →
      (open_excl sampleEnv p w1).1 = false := by
    intro w1 p hw hp
    rw [hs] at hp
    have hmem : p ∈ w1.files := by
      rw [hw]
      exact List.mem_filterMap.mpr ⟨Event.open_excl p, hp, rfl⟩
    simp [open_excl, hmem]
  ⟨rfl,
   (get_tempname_exhausted sampleEnv (some [97, 46, 112, 110, 103]) 1 occupiedWorld
      [47, 116, 109, 112, 47, 109, 116] rfl ⟨by decide, by decide⟩ hfail).1,
   ((get_tempname_exhausted sampleEnv (some [97, 46, 112, 110, 103]) 1 occupiedWorld
      [47, 116, 109, 112, 47, 109, 116] rfl ⟨by decide, by decide⟩ hfail).2.2.2.2
        (by decide)).2.1⟩

/-- The window that begins at the stored index `INT_MAX`, for the stub `tmp`
in `/tmp/mt`: the first name is `tmp2147483647.png`, the second is
`tmp-2147483648.png`, and the stored index stays `INT_MAX`; the loop of
`get_tempname` run for two turns from `idx = INT_MAX` tries that second name
and leaves `idx` negative. -/
theorem window_at_INT_MAX :
    window sampleEnv [47, 116, 109, 112, 47, 109, 116] [116, 109, 112] [112, 110, 103]
        INT_MAX 2 =
      [Event.open_excl [47, 116, 109, 112, 47, 109, 116, 47, 116, 109, 112,
          50, 49, 52, 55, 52, 56, 51, 54, 52, 55, 46, 112, 110, 103],
        Event.open_excl [47, 116, 109, 112, 47, 109, 116, 47, 116, 109, 112,
          45, 50, 49, 52, 55, 52, 56, 51, 54, 52, 56, 46, 112, 110, 103]] ∧
    nextIndex INT_MAX = INT_MAX ∧
    (scanLoop fullEnv [47, 116, 109, 112, 47, 109, 116] [116, 109, 112] [112, 110, 103] 2
      { fd_ok := false, idx := INT_MAX, ids := [], buf := [], w := dirWorld }).buf =
      [47, 116, 109, 112, 47, 109, 116, 47, 116, 109, 112,
        45, 50, 49, 52, 55, 52, 56, 51, 54, 52, 56, 46, 112, 110, 103] ∧
    (scanLoop fullEnv [47, 116, 109, 112, 47, 109, 116] [116, 109, 112] [112, 110, 103] 2
      { fd_ok := false, idx := INT_MAX, ids := [], buf := [], w := dirWorld }).idx =
      -2147483647 := by
  decide

/-! ## `spawn_quit` -/

/-- C9 (the code at the failing input): `get_temp_file(FT_NONE, TRUE)` on an
indexed document, with no memory for the RGB buffer, creates
`/tmp/mt/tmp.png` through `get_tempname` and returns `NULL` without a record;
the same happens when the record itself cannot be allocated.  `spawn_quit`
then walks an empty chain: the file is still on disk and the temp directory is
still there. -/
theorem spawn_quit_leaks_unrecorded_file :
    (get_temp_file leakEnv 0 true (sampleWorld none)).1 = none ∧
    (get_temp_file leakEnv 0 true (sampleWorld none)).2.tempchain = none ∧
    (get_temp_file leakEnv 0 true (sampleWorld none)).2.files =
      [[47, 116, 109, 112, 47, 109, 116, 47, 116, 109, 112, 46, 112, 110, 103]] ∧
    (spawn_quit (get_temp_file leakEnv 0 true (sampleWorld none)).2).files =
      [[47, 116, 109, 112, 47, 109, 116, 47, 116, 109, 112, 46, 112, 110, 103]] ∧
    (spawn_quit (get_temp_file leakEnv 0 true (sampleWorld none)).2).dirs =
      [[47, 116, 109, 112, 47, 109, 116]] ∧
    (get_temp_file noRecordEnv 0 true (sampleWorld none)).1 = none ∧
    (spawn_quit (get_temp_file noRecordEnv 0 true (sampleWorld none)).2).files =
      [[47, 116, 109, 112, 47, 109, 116, 47, 116, 109, 112, 46, 112, 110, 103]] := by
  decide

/-! ## `spawn_process` -/

/-- C10 (as stated, refuted): with the empty string as working directory
(what `pressed_file_action` passes when no directory is configured) `chdir`
fails, and with every other call succeeding `spawn_process` returns 0. -/
theorem spawn_process_chdir_counterexample :
    spawn_process (some [])
      { fork_ok := true, pipe_ok := true, fork2_ok := true, chdir_ok := false,
        close_ok := true, getfd_ok := true, setfd_ok := true, exec_ok := true,
        write_n := 4, read_ok := true } = 0 := by
  decide

/-- C10 (amended): in the POSIX `spawn_process`, seen as a function of the
outcomes of its calls, and taking the grandchild's `write` of the error code
to deliver at least one of its four bytes: the outcome of `chdir` never
changes the result; whenever `fork`, `pipe`, the second `fork`, closing the
pipe read end, reading or setting the descriptor flags, or `execvp` fails,
`spawn_process` returns a non-zero value; and it returns 0 exactly when all of
these and the child's `read` succeeded. -/
theorem spawn_process_zero_iff (directory : Option Str) (o : SpawnOutcomes)
    (hw : 0 < o.write_n ∧ o.write_n ≤ 4) :
    (∀ b : Bool, spawn_process directory { o with chdir_ok := b } = spawn_process directory o) ∧
    (spawn_process directory o = 0 ↔
      (o.fork_ok = true ∧ o.pipe_ok = true ∧ o.fork2_ok = true ∧ o.close_ok = true ∧
        o.getfd_ok = true ∧ o.setfd_ok = true ∧ o.exec_ok = true ∧ o.read_ok = true)) := by
  obtain ⟨fork_ok, pipe_ok, fork2_ok, chdir_ok, close_ok, getfd_ok, setfd_ok, exec_ok, write_n,
    read_ok⟩ := o
  simp only [] at hw
  refine ⟨fun b => rfl, ?_⟩
  have hn : write_n % 256 ≠ 0 := by omega
  cases fork_ok <;> cases pipe_ok <;> cases fork2_ok <;> cases close_ok <;> cases getfd_ok <;>
    cases setfd_ok <;> cases exec_ok <;> cases read_ok <;>
    simp [spawn_process, supervisor, grandchild, WEXITSTATUS, hw.1, hn]

/-- Witness for C10 (amended): `execvp` fails, the error code is written, and
`spawn_process` returns 4, the number of bytes the child read. -/
theorem spawn_process_zero_iff_witness :
    spawn_process none
      { fork_ok := true, pipe_ok := true, fork2_ok := true, chdir_ok := true,
        close_ok := true, getfd_ok := true, setfd_ok := true, exec_ok := false,
        write_n := 4, read_ok := true } = 4 ∧
    ¬ (spawn_process none
      { fork_ok := true, pipe_ok := true, fork2_ok := true, chdir_ok := true,
        close_ok := true, getfd_ok := true, setfd_ok := true, exec_ok := false,
        write_n := 4, read_ok := true } = 0) :=
  ⟨by decide,
   fun h => by
    have := ((spawn_process_zero_iff none
      { fork_ok := true, pipe_ok := true, fork2_ok := true, chdir_ok := true,
        close_ok := true, getfd_ok := true, setfd_ok := true, exec_ok := false,
        write_n := 4, read_ok := true } (by decide)).2.mp h).2.2.2.2.2.2.1
    cases this⟩

/-! ## `interpolate_line`: directive tokens that name nothing -/

theorem strspn_blank_append (pre s : Str) (hpre : ∀ c ∈ pre, c = 32 ∨ c = 9) :
    (pre ++ 62 :: s).drop (strspn_blank (pre ++ 62 :: s)) = 62 :: s := by
  induction pre with
  | nil => simp [strspn_blank_cons]
  | cons c p ih =>
    have hc : c = 32 ∨ c = 9 := hpre c (List.mem_cons_self _ _)
    have hp : ∀ d ∈ p, d = 32 ∨ d = 9 := fun d hd => hpre d (List.mem_cons_of_mem _ hd)
    rw [List.cons_append, strspn_blank_cons, if_pos hc, List.drop_succ_cons]
    exact ih hp

theorem strcspn_dir_append (tok rest : Str) (htok : ∀ c ∈ tok, c ≠ 62 ∧ c ≠ 32 ∧ c ≠ 9)
    (hrest : rest.head? = none ∨ rest.head? = some 62 ∨ rest.head? = some 32 ∨
      rest.head? = some 9) :
    strcspn_dir (tok ++ rest) = tok.length := by
  induction tok with
  | nil =>
    cases rest with
    | nil => rfl
    | cons c r =>
      have hc : c = 62 ∨ c = 32 ∨ c = 9 := by simpa using hrest
      simp [strcspn_dir_cons, hc]
  | cons c t ih =>
    have hc := htok c (List.mem_cons_self _ _)
    have ht : ∀ d ∈ t, d ≠ 62 ∧ d ≠ 32 ∧ d ≠ 9 := fun d hd => htok d (List.mem_cons_of_mem _ hd)
    have hn : ¬ (c = 62 ∨ c = 32 ∨ c = 9) := by
      rintro (h | h | h)
      · exact hc.1 h
      · exact hc.2.1 h
      · exact hc.2.2 h
    rw [List.cons_append, strcspn_dir_cons, if_neg hn, ih ht]
    rfl

theorem strncasecmp_eq_abbrev (rest : Str) : ∀ (tok name : Str),
    strncasecmp_eq name (tok ++ rest) tok.length = isAbbrev tok name := by
  intro tok
  induction tok with
  | nil => intro name; cases name <;> cases rest <;> simp [strncasecmp_eq, isAbbrev]
  | cons x t ih =>
    intro name
    cases name with
    | nil => rfl
    | cons y n =>
      simp only [List.cons_append, List.length_cons, strncasecmp_eq, isAbbrev]
      have ih2 : strncasecmp_eq n (t.append rest) t.length = isAbbrev t n := ih n
      rw [ih2]
      by_cases h : tolower x = tolower y
      · simp [h]
      · have h2 : ¬ tolower y = tolower x := fun e => h e.symm
        simp [h, h2]

theorem strncmp_eq_percent (tok rest : Str) (h0 : tok ≠ []) (h1 : tok ≠ [37]) :
    strncmp_eq [37] (tok ++ rest) tok.length = false := by
  match tok with
  | [] => exact absurd rfl h0
  | [x] =>
    have hx : ¬ 37 = x := fun e => h1 (by rw [← e])
    simp [strncmp_eq, hx]
  | x :: y :: t => simp [strncmp_eq]

theorem foldl_keep (f : Nat → Nat → Nat) (cond : Nat → Prop) [DecidablePred cond]
    (hf : ∀ a i, f a i = if cond i then i else a) :
    ∀ (l : List Nat) (a : Nat), (∀ i ∈ l, ¬ cond i) → l.foldl f a = a := by
  intro l
  induction l with
  | nil => intro a _; rfl
  | cons i t ih =>
    intro a h
    rw [List.foldl_cons, hf, if_neg (h i (List.mem_cons_self _ _))]
    exact ih a (fun j hj => h j (List.mem_cons_of_mem _ hj))

theorem formatLoop_keep (env : Env) (tok rest : Str) (fform : Nat)
    (hff : ∀ i, env.FT_NONE < i → i < env.NUM_FTYPES →
      namesFormat env tok (env.file_formats i) = false) :
    formatLoop env (tok ++ rest) tok.length fform = fform := by
  unfold formatLoop
  apply foldl_keep _ (fun i =>
    ((env.file_formats i).flags &&& env.FF_IMAGE ≠ 0) ∧
      ¬ ((env.file_formats i).flags &&& env.FF_NOSAVE ≠ 0) ∧
      (strncasecmp_eq (env.file_formats i).name (tok ++ rest) tok.length ∨
        strncasecmp_eq (env.file_formats i).ext (tok ++ rest) tok.length ∨
        ((env.file_formats i).ext2 ≠ [] ∧
          strncasecmp_eq (env.file_formats i).ext2 (tok ++ rest) tok.length)))
  · intro a i
    rfl
  · intro i hi
    rw [List.mem_range'_1] at hi
    have h := hff i (by omega) (by omega)
    simp only [strncasecmp_eq_abbrev]
    unfold namesFormat at h
    intro hc
    obtain ⟨c1, c2, c3⟩ := hc
    have e1 : decide ((env.file_formats i).flags &&& env.FF_IMAGE ≠ 0) = true :=
      decide_eq_true c1
    have e2 : decide ((env.file_formats i).flags &&& env.FF_NOSAVE = 0) = true :=
      decide_eq_true (not_not.mp c2)
    rw [e1, e2] at h
    rcases c3 with c | c | ⟨_, c⟩ <;> simp [c] at h

theorem dirToken_keep (env : Env) (tok rest : Str) (st : DirSt)
    (hrgb : isAbbrev tok [82, 71, 66] = false) (hpc : tok ≠ [37])
    (hff : ∀ i, env.FT_NONE < i → i < env.NUM_FTYPES →
      namesFormat env tok (env.file_formats i) = false) :
    dirToken env (tok ++ rest) tok.length st = st := by
  have h0 : tok ≠ [] := by
    intro e
    rw [e] at hrgb
    exact absurd hrgb (by decide)
  unfold dirToken
  rw [strncasecmp_eq_abbrev, hrgb, strncmp_eq_percent tok rest h0 hpc,
    formatLoop_keep env tok rest st.fform hff]
  simp

theorem dirLoop_skip (env : Env) (fuel : Nat) (pre tok rest : Str) (st : DirSt)
    (hpre : ∀ c ∈ pre, c = 32 ∨ c = 9) (htok : ∀ c ∈ tok, c ≠ 62 ∧ c ≠ 32 ∧ c ≠ 9)
    (hrest : rest.head? = none ∨ rest.head? = some 62 ∨ rest.head? = some 32 ∨
      rest.head? = some 9)
    (hrgb : isAbbrev tok [82, 71, 66] = false) (hpc : tok ≠ [37])
    (hff : ∀ i, env.FT_NONE < i → i < env.NUM_FTYPES →
      namesFormat env tok (env.file_formats i) = false) :
    dirLoop env (fuel + 1) (pre ++ 62 :: (tok ++ rest)) st = dirLoop env fuel rest st := by
  rw [dirLoop]
  simp only [strspn_blank_append pre (tok ++ rest) hpre,
    strcspn_dir_append tok rest htok hrest, List.drop_left,
    dirToken_keep env tok rest st hrgb hpc hff]

theorem lineSetup_skip (env : Env) (w : World) (pre tok rest : Str)
    (hpre : ∀ c ∈ pre, c = 32 ∨ c = 9) (htok : ∀ c ∈ tok, c ≠ 62 ∧ c ≠ 32 ∧ c ≠ 9)
    (hrest : rest.head? = none ∨ rest.head? = some 62 ∨ rest.head? = some 32 ∨
      rest.head? = some 9)
    (hrgb : isAbbrev tok [82, 71, 66] = false) (hpc : tok ≠ [37])
    (hff : ∀ i, env.FT_NONE < i → i < env.NUM_FTYPES →
      namesFormat env tok (env.file_formats i) = false) :
    lineSetup env (pre ++ 62 :: (tok ++ rest)) true w = lineSetup env rest true w := by
  unfold lineSetup
  simp only [if_true]
  rw [dirLoop_skip env _ pre tok rest _ hpre htok hrest hrgb hpc hff]
  apply dirLoop_fuel
  · simp
    omega
  · omega

theorem strstr_pf_suffix (a b : Str) (h : strstr_pf b = true) : strstr_pf (a ++ b) = true := by
  unfold strstr_pf at h ⊢
  rw [decide_eq_true_eq] at h ⊢
  exact h.trans (List.suffix_append a b).isInfix
/-- C11 (as stated, refuted): on the unmodified document `a.png`, the token
`foo` of the template `>foo %f` is no directive (it abbreviates neither `RGB`
nor the name or an extension of a format, and is not `%`), yet directive
parsing goes past it: the body left to expand is `%f` and the result is
`a.png`, in which the token does not appear.  And the token `r` of `>r %f`,
which is not `RGB`, is not kept either: it sets `rgb`. -/
theorem interpolate_line_token_counterexample :
    (lineSetup sampleEnv [62, 102, 111, 111, 32, 37, 102] true
      (sampleWorld (some [97, 46, 112, 110, 103]))) =
      ({ rgb := false, fform := 0, extend := false }, [37, 102]) ∧
    (interpolate_line sampleEnv [62, 102, 111, 111, 32, 37, 102] true
      (sampleWorld (some [97, 46, 112, 110, 103]))).1 =
      Ret.line [97, 46, 112, 110, 103] ∧
    (interpolate_line sampleEnv [62, 102, 111, 111, 32, 37, 102] true
      (sampleWorld (some [97, 46, 112, 110, 103]))).1 ≠
      Ret.line [62, 102, 111, 111, 32, 97, 46, 112, 110, 103] ∧
    (lineSetup sampleEnv [62, 114, 32, 37, 102] true
      (sampleWorld (some [97, 46, 112, 110, 103]))) =
      ({ rgb := true, fform := 0, extend := false }, [37, 102]) := by
  decide

/-- C11 (amended): in command mode, for every template that begins (after
blanks) with a `>` token which abbreviates, letter case aside, neither `RGB`
nor the name or an extension of a savable image format, and is not `%`,
directive parsing of `interpolate_line` passes over that token without effect
and goes on with what follows it: the directive variables and the template
body are those of the string after the token, and whenever that string
contains `%f` or sets `extend`, the whole result is the result for the string
after the token, so the token is not part of the expanded output. -/
theorem interpolate_line_skips_token (env : Env) (w : World) (pre tok rest : Str)
    (hpre : ∀ c ∈ pre, c = 32 ∨ c = 9) (htok : ∀ c ∈ tok, c ≠ 62 ∧ c ≠ 32 ∧ c ≠ 9)
    (hrest : rest.head? = none ∨ rest.head? = some 62 ∨ rest.head? = some 32 ∨
      rest.head? = some 9)
    (hrgb : isAbbrev tok [82, 71, 66] = false) (hpc : tok ≠ [37])
    (hff : ∀ i, env.FT_NONE < i → i < env.NUM_FTYPES →
      namesFormat env tok (env.file_formats i) = false) :
    lineSetup env (pre ++ 62 :: (tok ++ rest)) true w = lineSetup env rest true w ∧
    (strstr_pf rest = true ∨ (lineSetup env rest true w).1.extend = true →
      interpolate_line env (pre ++ 62 :: (tok ++ rest)) true w =
        interpolate_line env rest true w) := by
  have hs := lineSetup_skip env w pre tok rest hpre htok hrest hrgb hpc hff
  refine ⟨hs, fun h => ?_⟩
  have h1 : (!(lineSetup env rest true w).1.extend && !strstr_pf rest) = false := by
    rcases h with h | h <;> simp [h]
  have h2 : (!(lineSetup env rest true w).1.extend &&
      !strstr_pf (pre ++ 62 :: (tok ++ rest))) = false := by
    rcases h with h | h
    · have h3 : strstr_pf (pre ++ 62 :: (tok ++ rest)) = true := by
        have := strstr_pf_suffix (pre ++ 62 :: tok) rest h
        simpa using this
      simp [h3]
    · simp [h]
  unfold interpolate_line
  simp only [hs, h1, h2, Bool.false_eq_true, if_false]

/-- Witness for C11 (amended): the template `>foo %f` on the unmodified
document `a.png`. -/
theorem interpolate_line_skips_token_witness :
    lineSetup sampleEnv ([] ++ 62 :: ([102, 111, 111] ++ [32, 37, 102])) true
        (sampleWorld (some [97, 46, 112, 110, 103])) =
      lineSetup sampleEnv [32, 37, 102] true (sampleWorld (some [97, 46, 112, 110, 103])) ∧
    (strstr_pf [32, 37, 102] = true ∨
      (lineSetup sampleEnv [32, 37, 102] true
        (sampleWorld (some [97, 46, 112, 110, 103]))).1.extend = true →
      interpolate_line sampleEnv ([] ++ 62 :: ([102, 111, 111] ++ [32, 37, 102])) true
          (sampleWorld (some [97, 46, 112, 110, 103])) =
        interpolate_line sampleEnv [32, 37, 102] true
          (sampleWorld (some [97, 46, 112, 110, 103]))) :=
  interpolate_line_skips_token sampleEnv (sampleWorld (some [97, 46, 112, 110, 103]))
    [] [102, 111, 111] [32, 37, 102] (by decide) (by decide) (by decide) (by decide)
    (by decide) (by
      intro i h1 h2
      have h3 : 0 < i := h1
      have h4 : i < 3 := h2
      interval_cases i <;> decide)

/-! ## `interpolate_action` -/

theorem puts_puts (st : ActSt) (a b : Str) : (st.puts a).puts b = st.puts (a ++ b) := by
  cases hl : st.line <;> simp [ActSt.puts, hl] <;> omega

theorem puts_nil (st : ActSt) : st.puts [] = st := by
  obtain ⟨line, l⟩ := st
  cases line <;> simp [ActSt.puts]

theorem puts_isSome_act (st : ActSt) (s : Str) : (st.puts s).line.isSome = st.line.isSome := by
  cases hl : st.line <;> simp [ActSt.puts, hl]

theorem actEscape_eq (env : Env) (st : ActSt) (name : Str) (tail : Int) :
    actEscape env st name tail =
      st.puts (escaped name tail (env.v_uninit st.line.isSome)) := by
  cases hl : st.line <;>
    simp [actEscape, ActSt.puts, hl, escape_filename_null, escape_filename_fill]

theorem strncmp_eq_isPrefixOf (rest : Str) : ∀ (name v : Str),
    strncmp_eq (name ++ rest) v name.length = name.isPrefixOf v := by
  intro name
  induction name with
  | nil => intro v; cases v <;> cases rest <;> simp [strncmp_eq]
  | cons x t ih =>
    intro v
    cases v with
    | nil => simp [strncmp_eq]
    | cons y n =>
      have ih2 : strncmp_eq (t.append rest) n t.length = t.isPrefixOf n := ih n
      simp only [List.cons_append, List.length_cons, strncmp_eq, List.isPrefixOf]
      rw [ih2]
      by_cases h : x = y <;> simp [h]

theorem strstr_close_name (post : Str) : ∀ (name : Str),
    ¬ [41, 41] <:+: name → name.getLast? ≠ some 41 →
    strstr_close (name ++ 41 :: 41 :: post) = some name.length
  | [], _, _ => by simp [strstr_close]
  | [x], _, hl => by
    have hx : x ≠ 41 := by simpa using hl
    simp [strstr_close, hx]
  | x :: y :: t, hi, hl => by
    have hxy : ¬ (x = 41 ∧ y = 41) := by
      rintro ⟨rfl, rfl⟩
      exact hi ⟨[], t, rfl⟩
    have hi2 : ¬ [41, 41] <:+: y :: t := fun h =>
      hi (h.trans (List.suffix_cons x (y :: t)).isInfix)
    have hl2 : (y :: t).getLast? ≠ some 41 := by
      rw [List.getLast?_cons_cons] at hl
      exact hl
    have ih := strstr_close_name post (y :: t) hi2 hl2
    simp only [List.cons_append] at ih ⊢
    rw [strstr_close, if_neg hxy, ih]
    simp

theorem actLoop_nil (env : Env) (ds : da_settings) (fuel : Nat) (st : ActSt) :
    actLoop env ds fuel [] st = st := by
  cases fuel <;> rfl

/-- The fuel of `actLoop` is never used up: any two amounts from the length
of `p` on give the same result. -/
theorem actLoop_fuel (env : Env) (ds : da_settings) : ∀ (n m : Nat) (p : Str) (st : ActSt),
    p.length ≤ n → p.length ≤ m → actLoop env ds n p st = actLoop env ds m p st := by
  intro n
  induction n with
  | zero =>
    intro m p st hn hm
    have : p = [] := List.eq_nil_of_length_eq_zero (by omega)
    subst this
    rw [actLoop_nil, actLoop_nil]
  | succ n ih =>
    intro m p st hn hm
    cases p with
    | nil => rw [actLoop_nil, actLoop_nil]
    | cons c p =>
      cases m with
      | zero => simp at hm
      | succ m =>
        simp only [List.length_cons] at hn hm
        unfold actLoop
        by_cases h : c ≠ 40 ∨ p.getD 0 0 ≠ 40 ∨ p.getD 1 0 = 40
        · rw [if_pos h, if_pos h]
          exact ih m p _ (by omega) (by omega)
        · rw [if_neg h, if_neg h]
          cases strstr_close (p.drop 1) with
          | none => exact ih m p _ (by omega) (by omega)
          | some k =>
            have hd : ((p.drop 1).drop (k + 2)).length ≤ p.length := by
              simp only [List.length_drop]
              omega
            exact ih m _ _ (by omega) (by omega)

theorem actLoop_lit (env : Env) (ds : da_settings) (fuel : Nat) (c : Nat) (p : Str) (st : ActSt)
    (hc : c ≠ 40) :
    actLoop env ds (fuel + 1) (c :: p) st = actLoop env ds fuel p (st.puts [c]) := by
  rw [actLoop, if_pos (Or.inl hc)]

theorem actLoop_ref (env : Env) (ds : da_settings) (fuel : Nat) (name post : Str) (st : ActSt)
    (hh : name.head? ≠ some 40) (hi : ¬ [41, 41] <:+: name) (hl : name.getLast? ≠ some 41) :
    actLoop env ds (fuel + 1) (40 :: 40 :: (name ++ 41 :: 41 :: post)) st =
      actLoop env ds fuel post (actVar env ds (name ++ 41 :: 41 :: post) name.length st) := by
  have h1 : (name ++ 41 :: 41 :: post).getD 0 0 ≠ 40 := by
    cases name with
    | nil => simp
    | cons x t =>
      have hx : x ≠ 40 := by simpa using hh
      simpa using hx
  have hc : ¬ ((40 : Nat) ≠ 40 ∨ (40 :: (name ++ 41 :: 41 :: post)).getD 0 0 ≠ 40 ∨
      (40 :: (name ++ 41 :: 41 :: post)).getD 1 0 = 40) := by
    simp only [List.getD_cons_zero, List.getD_cons_succ]
    rintro (h | h | h)
    · exact h rfl
    · exact h rfl
    · exact h1 h
  rw [actLoop, if_neg hc]
  simp only [List.drop_succ_cons, List.drop_zero]
  rw [strstr_close_name post name hi hl]
  simp only []
  have hd : (name ++ 41 :: 41 :: post).drop (name.length + 2) = post := by
    have e : name ++ 41 :: 41 :: post = (name ++ [41, 41]) ++ post := by simp
    rw [e]
    exact List.drop_left' (by simp)
  rw [hd]

theorem actVar_name (env : Env) (ds : da_settings) (name rest : Str) (st : ActSt) :
    actVar env ds (name ++ rest) name.length st =
      if name.length = 0 then st
      else if name.isPrefixOf [115, 114, 99] then actEscape env st ds.sname (-1)
      else if name.isPrefixOf [115, 114, 99, 109, 97, 115, 107] then
        actEscape env st ds.sname
          (match strrchr ds.sname DIR_SEP with
            | some i => (i : Int)
            | none => 0)
      else if name.isPrefixOf [100, 101, 115, 116] then actEscape env st ds.dname (-1)
      else if name.isPrefixOf [100, 101, 108, 97, 121] then st.puts (fmt_d ds.delay)
      else if name.isPrefixOf [119] then
        if ds.width ≠ 0 then st.puts ([45, 119, 32] ++ fmt_d ds.width) else st
      else if name.isPrefixOf [104] then
        if ds.height ≠ 0 then st.puts ([45, 104, 32] ++ fmt_d ds.height) else st
      else st := by
  unfold actVar
  simp only [strncmp_eq_isPrefixOf]

/-- The scan of the template `((src)) ((w)) ((h))` from any state. -/
theorem actLoop_src_w_h (env : Env) (ds : da_settings) (st : ActSt) :
    actLoop env ds 20
        [40, 40, 115, 114, 99, 41, 41, 32, 40, 40, 119, 41, 41, 32, 40, 40, 104, 41, 41] st =
      st.puts (escaped ds.sname (-1) (env.v_uninit st.line.isSome) ++ [32] ++
        (if ds.width ≠ 0 then [45, 119, 32] ++ fmt_d ds.width else []) ++ [32] ++
        (if ds.height ≠ 0 then [45, 104, 32] ++ fmt_d ds.height else [])) := by
  have s1 := actLoop_ref env ds 19 [115, 114, 99]
    [32, 40, 40, 119, 41, 41, 32, 40, 40, 104, 41, 41] st (by decide) (by decide) (by decide)
  have v1 := actVar_name env ds [115, 114, 99]
    [41, 41, 32, 40, 40, 119, 41, 41, 32, 40, 40, 104, 41, 41] st
  rw [v1] at s1
  simp +decide only [List.cons_append, List.nil_append, List.length_cons, List.length_nil,
    if_true, if_false, actEscape_eq] at s1
  rw [s1]
  rw [actLoop_lit env ds 18 32 _ _ (by decide), puts_puts]
  have s2 := actLoop_ref env ds 17 [119] [32, 40, 40, 104, 41, 41]
    (st.puts (escaped ds.sname (-1) (env.v_uninit st.line.isSome) ++ [32]))
    (by decide) (by decide) (by decide)
  rw [actVar_name] at s2
  simp +decide only [List.cons_append, List.nil_append, List.length_cons, List.length_nil,
    if_true, if_false] at s2
  rw [s2, actLoop_lit env ds 16 32 _ _ (by decide)]
  have s3 := actLoop_ref env ds 15 [104] []
    (((if ds.width ≠ 0 then
        (st.puts (escaped ds.sname (-1) (env.v_uninit st.line.isSome) ++ [32])).puts
          ([45, 119, 32] ++ fmt_d ds.width)
      else st.puts (escaped ds.sname (-1) (env.v_uninit st.line.isSome) ++ [32])).puts [32]))
    (by decide) (by decide) (by decide)
  rw [actVar_name] at s3
  simp +decide only [List.cons_append, List.nil_append, List.length_cons, List.length_nil,
    if_true, if_false] at s3
  rw [s3, actLoop_nil]
  by_cases hw : ds.width = 0 <;> by_cases hh : ds.height = 0 <;>
    simp [hw, hh, puts_puts]

/-- C12 (as stated, refuted): for the source name `a`, whose escaped form is
`a` itself, `interpolate_action` applied to `((src)) ((w)) ((h))` with width 0
and height 0 returns `a` followed by two spaces, not by exactly one. -/
theorem interpolate_action_spaces_counterexample :
    escaped [97] (-1) 0 = [97] ∧
    interpolate_action sampleEnv (sampleWorld none)
      [40, 40, 115, 114, 99, 41, 41, 32, 40, 40, 119, 41, 41, 32, 40, 40, 104, 41, 41]
      { sname := [97], dname := [], delay := 0, width := 0, height := 0 } =
        some [97, 32, 32] ∧
    interpolate_action sampleEnv (sampleWorld none)
      [40, 40, 115, 114, 99, 41, 41, 32, 40, 40, 119, 41, 41, 32, 40, 40, 104, 41, 41]
      { sname := [97], dname := [], delay := 0, width := 0, height := 0 } ≠
        some [97, 32] := by
  decide

/-- C12 (amended): for every source name, when `calloc` succeeds,
`interpolate_action` applied to the template `((src)) ((w)) ((h))` with width 0
and height 0 returns the escaped source name followed by exactly two spaces
(the two separators of the template) and nothing else, and with width 100 and
height 0 returns the escaped source name followed by ` -w 100 `. -/
theorem interpolate_action_src_w_h (env : Env) (w : World) (sname dname : Str) (delay : Int)
    (hca : ∀ n, env.calloc_ok w n = true) :
    interpolate_action env w
      [40, 40, 115, 114, 99, 41, 41, 32, 40, 40, 119, 41, 41, 32, 40, 40, 104, 41, 41]
      { sname := sname, dname := dname, delay := delay, width := 0, height := 0 } =
        some (escaped sname (-1) (env.v_uninit true) ++ [32, 32]) ∧
    interpolate_action env w
      [40, 40, 115, 114, 99, 41, 41, 32, 40, 40, 119, 41, 41, 32, 40, 40, 104, 41, 41]
      { sname := sname, dname := dname, delay := delay, width := 100, height := 0 } =
        some (escaped sname (-1) (env.v_uninit true) ++ [32, 45, 119, 32, 49, 48, 48, 32]) := by
  have h100 : fmt_d 100 = [49, 48, 48] := by decide
  constructor <;>
    simp [interpolate_action, actLoop_src_w_h, hca, ActSt.puts, h100]

/-- Witness for C12 (amended): the source name `a b`, escaped as `'a b'`. -/
theorem interpolate_action_src_w_h_witness :
    interpolate_action sampleEnv (sampleWorld none)
      [40, 40, 115, 114, 99, 41, 41, 32, 40, 40, 119, 41, 41, 32, 40, 40, 104, 41, 41]
      { sname := [97, 32, 98], dname := [], delay := 0, width := 0, height := 0 } =
        some (escaped [97, 32, 98] (-1) (sampleEnv.v_uninit true) ++ [32, 32]) ∧
    interpolate_action sampleEnv (sampleWorld none)
      [40, 40, 115, 114, 99, 41, 41, 32, 40, 40, 119, 41, 41, 32, 40, 40, 104, 41, 41]
      { sname := [97, 32, 98], dname := [], delay := 0, width := 100, height := 0 } =
        some (escaped [97, 32, 98] (-1) (sampleEnv.v_uninit true) ++
          [32, 45, 119, 32, 49, 48, 48, 32]) :=
  interpolate_action_src_w_h sampleEnv (sampleWorld none) [97, 32, 98] [] 0 (fun _ => rfl)

theorem actVar_unknown (env : Env) (ds : da_settings) (name rest : Str) (st : ActSt)
    (hv : ∀ v ∈ actNames, ¬ name <+: v) :
    actVar env ds (name ++ rest) name.length st = st := by
  have hp : ∀ v ∈ actNames, name.isPrefixOf v = false := by
    intro v hm
    cases hb : name.isPrefixOf v with
    | false => rfl
    | true => exact absurd (List.isPrefixOf_iff_prefix.mp hb) (hv v hm)
  rw [actVar_name, hp _ (by decide), hp _ (by decide), hp _ (by decide), hp _ (by decide),
    hp _ (by decide), hp _ (by decide)]
  simp

theorem actVar_out (env : Env) (ds : da_settings) (p : Str) (n : Nat) (b : Bool) :
    ∃ t, ∀ st : ActSt, st.line.isSome = b → actVar env ds p n st = st.puts t := by
  refine ⟨if n = 0 then []
    else if strncmp_eq p [115, 114, 99] n then escaped ds.sname (-1) (env.v_uninit b)
    else if strncmp_eq p [115, 114, 99, 109, 97, 115, 107] n then
      escaped ds.sname
        (match strrchr ds.sname DIR_SEP with
          | some i => (i : Int)
          | none => 0) (env.v_uninit b)
    else if strncmp_eq p [100, 101, 115, 116] n then escaped ds.dname (-1) (env.v_uninit b)
    else if strncmp_eq p [100, 101, 108, 97, 121] n then fmt_d ds.delay
    else if strncmp_eq p [119] n then
      (if ds.width ≠ 0 then [45, 119, 32] ++ fmt_d ds.width else [])
    else if strncmp_eq p [104] n then
      (if ds.height ≠ 0 then [45, 104, 32] ++ fmt_d ds.height else [])
    else [], fun st hb => ?_⟩
  subst hb
  unfold actVar
  simp only [actEscape_eq]
  split_ifs <;> simp only [puts_nil]

theorem actLoop_out (env : Env) (ds : da_settings) : ∀ (fuel : Nat) (p : Str) (b : Bool),
    ∃ out, ∀ st : ActSt, st.line.isSome = b → actLoop env ds fuel p st = st.puts out := by
  intro fuel
  induction fuel with
  | zero => intro p b; exact ⟨[], fun st _ => by rw [actLoop, puts_nil]⟩
  | succ n ih =>
    intro p b
    cases p with
    | nil => exact ⟨[], fun st _ => by rw [actLoop_nil, puts_nil]⟩
    | cons c p =>
      have lit : ∃ out, ∀ st : ActSt, st.line.isSome = b →
          actLoop env ds n p (st.puts [c]) = st.puts out := by
        obtain ⟨o, ho⟩ := ih p b
        exact ⟨[c] ++ o, fun st hb => by
          rw [ho (st.puts [c]) (by rw [puts_isSome_act]; exact hb), puts_puts]⟩
      unfold actLoop
      by_cases h : c ≠ 40 ∨ p.getD 0 0 ≠ 40 ∨ p.getD 1 0 = 40
      · simp only [if_pos h]
        exact lit
      · simp only [if_neg h]
        cases strstr_close (p.drop 1) with
        | none => exact lit
        | some k =>
          simp only []
          obtain ⟨t, ht⟩ := actVar_out env ds (p.drop 1) k b
          obtain ⟨o, ho⟩ := ih ((p.drop 1).drop (k + 2)) b
          exact ⟨t ++ o, fun st hb => by
            rw [ht st hb, ho (st.puts t) (by rw [puts_isSome_act]; exact hb), puts_puts]⟩

theorem actLoop_literal (env : Env) (ds : da_settings) (fuel : Nat) (s : Str) :
    ∀ (pre : Str) (st : ActSt), 40 ∉ pre →
      actLoop env ds (pre.length + fuel) (pre ++ s) st = actLoop env ds fuel s (st.puts pre) := by
  intro pre
  induction pre with
  | nil => intro st _; simp [puts_nil]
  | cons c t ih =>
    intro st h
    have hc : c ≠ 40 := fun e => h (by rw [e]; exact List.mem_cons_self _ _)
    have ht : 40 ∉ t := fun m => h (List.mem_cons_of_mem _ m)
    have e : (c :: t).length + fuel = (t.length + fuel) + 1 := by
      simp only [List.length_cons]; omega
    rw [e, List.cons_append, actLoop_lit env ds _ c _ _ hc, ih _ ht, puts_puts]
    rfl
theorem actLoop_reference (env : Env) (ds : da_settings) (pre name post : Str) (st : ActSt)
    (hi : ¬ [41, 41] <:+: name) (hh : name.head? ≠ some 40) (hl : name.getLast? ≠ some 41)
    (hv : ∀ v ∈ actNames, ¬ name <+: v) (hpre : 40 ∉ pre) :
    actLoop env ds ((pre ++ 40 :: 40 :: (name ++ 41 :: 41 :: post)).length + 1)
        (pre ++ 40 :: 40 :: (name ++ 41 :: 41 :: post)) st =
      actLoop env ds (post.length + 1) post (st.puts pre) := by
  have e : (pre ++ 40 :: 40 :: (name ++ 41 :: 41 :: post)).length + 1 =
      pre.length + ((name ++ 41 :: 41 :: post).length + 2 + 1) := by
    simp only [List.length_append, List.length_cons]
    omega
  rw [e, actLoop_literal env ds _ _ pre st hpre, actLoop_ref env ds _ name post _ hh hi hl,
    actVar_unknown env ds name _ _ hv]
  apply actLoop_fuel
  · simp only [List.length_append, List.length_cons]
    omega
  · omega

/-- C13 (as stated, refuted): the names `s`, `(x` and `a)` are not empty,
contain no `))` and are none of `src`, `srcmask`, `dest`, `delay`, `w`, `h`; yet
with the source name `a` the template `x((s))y` gives `xay` (the name `s` is
taken for `src`), the reference `(((x))` gives `(`, and the reference `((a)))`
gives `)`. -/
theorem interpolate_action_abbrev_counterexample :
    ([115] ∉ actNames ∧ ¬ [41, 41] <:+: [115]) ∧
    interpolate_action sampleEnv (sampleWorld none) [120, 40, 40, 115, 41, 41, 121]
      { sname := [97], dname := [98], delay := 0, width := 0, height := 0 } =
        some [120, 97, 121] ∧
    ([40, 120] ∉ actNames ∧ ¬ [41, 41] <:+: [40, 120]) ∧
    interpolate_action sampleEnv (sampleWorld none) [40, 40, 40, 120, 41, 41]
      { sname := [97], dname := [98], delay := 0, width := 0, height := 0 } = some [40] ∧
    ([97, 41] ∉ actNames ∧ ¬ [41, 41] <:+: [97, 41]) ∧
    interpolate_action sampleEnv (sampleWorld none) [40, 40, 97, 41, 41, 41]
      { sname := [97], dname := [98], delay := 0, width := 0, height := 0 } = some [41] := by
  decide

/-- C13 (amended): for every variable name that contains no `))`, does not
begin with `(` or end with `)`, and is not the beginning of any of `src`,
`srcmask`, `dest`, `delay`, `w`, `h` (so it is not empty and not an
abbreviation of one of them), `interpolate_action` expands the reference
`((name))` to the empty string: the turn of its loop that meets the reference
stores nothing, leaves `l` as it was and goes on right after the reference;
and, when `calloc` succeeds, for a template made of literal text without `(`,
the reference, and any text `post`, the result is the literal text followed by
what `interpolate_action` returns for `post`. -/
theorem interpolate_action_unknown (env : Env) (w : World) (ds : da_settings)
    (pre name post : Str)
    (hi : ¬ [41, 41] <:+: name) (hh : name.head? ≠ some 40) (hl : name.getLast? ≠ some 41)
    (hv : ∀ v ∈ actNames, ¬ name <+: v) :
    (∀ (fuel : Nat) (st : ActSt),
      actLoop env ds (fuel + 1) (40 :: 40 :: (name ++ 41 :: 41 :: post)) st =
        actLoop env ds fuel post st) ∧
    (40 ∉ pre → (∀ n, env.calloc_ok w n = true) →
      interpolate_action env w (pre ++ 40 :: 40 :: (name ++ 41 :: 41 :: post)) ds =
        (interpolate_action env w post ds).map (fun x => pre ++ x)) := by
  constructor
  · intro fuel st
    rw [actLoop_ref env ds fuel name post st hh hi hl, actVar_unknown env ds name _ st hv]
  · intro hpre hca
    obtain ⟨o2, h2⟩ := actLoop_out env ds (post.length + 1) post true
    unfold interpolate_action
    simp only [actLoop_reference env ds pre name post _ hi hh hl hv hpre, hca]
    have a := h2 (({ line := some [], l := 0 } : ActSt).puts pre) (by simp [ActSt.puts])
    have b := h2 { line := some [], l := 0 } rfl
    rw [a, b]
    simp [ActSt.puts]

/-- Witness for C13 (amended): the name `foo` in the template
`x ((foo)) ((w))` with width 7. -/
theorem interpolate_action_unknown_witness :
    interpolate_action sampleEnv (sampleWorld none)
        ([120, 32] ++ 40 :: 40 :: ([102, 111, 111] ++ 41 :: 41 :: [32, 40, 40, 119, 41, 41]))
        { sname := [97], dname := [98], delay := 0, width := 7, height := 0 } =
      (interpolate_action sampleEnv (sampleWorld none) [32, 40, 40, 119, 41, 41]
        { sname := [97], dname := [98], delay := 0, width := 7, height := 0 }).map
        (fun x => [120, 32] ++ x) :=
  (interpolate_action_unknown sampleEnv (sampleWorld none)
    { sname := [97], dname := [98], delay := 0, width := 7, height := 0 }
    [120, 32] [102, 111, 111] [32, 40, 40, 119, 41, 41]
    (by decide) (by decide) (by decide) (by decide)).2 (by decide) (fun _ => rfl)

/-! ## The two passes: counted length against stored bytes -/

/-- For a name that is not empty the first loop of `escape_filename` assigns
`v` before anything reads it: the count returned for a `NULL` buffer and the
count returned when a buffer is filled agree, whatever `v` held on entry to
either call, and both are the length of the token stored. -/
theorem escape_filename_length_agrees (name : Str) (tail : Int) (v0 v1 : Nat)
    (hne : name ≠ []) :
    (escape_filename none name tail v0).1 = (escape_filename (some []) name tail v1).1 ∧
    (escape_filename (some []) name tail v1).1 = (escaped name tail v1).length := by
  have hv : escaped name tail v0 = escaped name tail v1 := by
    cases name with
    | nil => exact absurd rfl hne
    | cons c cs => rfl
  rw [escape_filename_null, escape_filename_fill, hv]
  exact ⟨rfl, rfl⟩

/-- C14 (the code at the failing input, the empty file name): with the stale
value 0 the call `escape_filename(NULL, "", -1)` returns 0, and with the stale
value 1 the call that fills a buffer stores the two quotes `''` and returns 2.
So for the unmodified document whose file name is the empty string the length
pass of `interpolate_line("%f", TRUE)` counts `l = 0`, one byte is allocated,
and the fill pass stores two bytes and the terminator; the returned string
has length 2.  The same holds for `interpolate_action` on `((src))` with an
empty source name. -/
theorem interpolate_line_empty_name_overflow :
    escape_filename none [] (-1) 0 = (0, none) ∧
    escape_filename (some []) [] (-1) 1 = (2, some [39, 39]) ∧
    passLoop staleEnv true false false 0 (0, 0, 0, 0) [37, 102]
        { w := sampleWorld (some []), fname := none, line := none, l := 0 } =
      PassRes.done
        { w := { sampleWorld (some []) with log := [Event.get_temp_file 0 false] },
          fname := some [], line := none, l := 0 } ∧
    interpolate_line staleEnv [37, 102] true (sampleWorld (some [])) =
      (Ret.line [39, 39],
        { sampleWorld (some []) with log := [Event.get_temp_file 0 false] }) ∧
    (actLoop staleEnv { sname := [], dname := [], delay := 0, width := 0, height := 0 } 8
        [40, 40, 115, 114, 99, 41, 41] { line := none, l := 0 }).l = 0 ∧
    interpolate_action staleEnv (sampleWorld none) [40, 40, 115, 114, 99, 41, 41]
        { sname := [], dname := [], delay := 0, width := 0, height := 0 } =
      some [39, 39] := by
  decide

/-- When the stale value of `v` is the same in both passes, the string
`interpolate_line` returns in command mode has exactly the length `l` its
length pass counted. -/
theorem interpolate_line_fill_length (env : Env) (pattern : Str) (w : World)
    (hv : env.v_uninit false = env.v_uninit true) (s : Str)
    (hs : (interpolate_line env pattern true w).1 = Ret.line s) :
    ∃ st1, passLoop env true (fixFormat env w (lineSetup env pattern true w).1).extend
        (fixFormat env w (lineSetup env pattern true w).1).rgb
        (fixFormat env w (lineSetup env pattern true w).1).fform
        (w.marquee.getD (0, 0, 0, 0)) (lineSetup env pattern true w).2
        { w := w, fname := none, line := none, l := 0 } = PassRes.done st1 ∧
      s.length = st1.l := by
  unfold interpolate_line at hs
  simp only [] at hs
  generalize (lineSetup env pattern true w).2 = body at hs ⊢
  generalize fixFormat env w (lineSetup env pattern true w).1 = ds at hs ⊢
  generalize w.marquee.getD (0, 0, 0, 0) = rect at hs ⊢
  by_cases hret : (!(lineSetup env pattern true w).1.extend && !strstr_pf pattern) = true
  · simp only [hret, if_true] at hs
    cases hs
  · simp only [hret, Bool.false_eq_true, if_false] at hs
    rw [passLoop_none env true ds.extend ds.rgb ds.fform rect body.length body (le_refl _)
      { w := w, fname := none, line := none, l := 0 } false rfl rfl] at hs ⊢
    by_cases hu : usesFile true ds.extend body = true
    · simp only [hu, if_true] at hs ⊢
      have hfr := get_temp_file_frame env ds.fform ds.rgb w
      rcases hg : get_temp_file env ds.fform ds.rgb w with ⟨_ | fn, w1⟩
      · rw [hg] at hs
        simp only [] at hs
        cases hs
      · rw [hg] at hs hfr
        simp only [] at hs ⊢
        refine ⟨_, rfl, ?_⟩
        by_cases hc : (!env.calloc_ok w1
            (0 + (expandWith true ds.extend w.mem_filename (patNumber rect w)
              (escaped fn (-1) (env.v_uninit false)) body).length + 1)) = true
        · simp only [PassSt.ext, hc, if_true] at hs
          cases hs
        · simp only [PassSt.ext, hc, Bool.false_eq_true, if_false] at hs
          rw [passLoop_some env true ds.extend ds.rgb ds.fform rect fn body.length body
            (le_refl _) { w := w1, fname := some fn, line := some [], l := 0 } true rfl rfl] at hs
          have hdoc : docPart w1 = docPart w := hfr.1
          simp only [PassSt.ext, Option.map_some', List.nil_append, Option.getD_some,
            mem_filename_congr hdoc, patNumber_congr hdoc, ← hv] at hs
          cases hs
          simp [PassSt.ext]
    · simp only [hu, Bool.false_eq_true, if_false] at hs ⊢
      refine ⟨_, rfl, ?_⟩
      by_cases hc : (!env.calloc_ok w
          (0 + (expandWith true ds.extend w.mem_filename (patNumber rect w) [] body).length + 1))
            = true
      · simp only [PassSt.ext, hc, if_true] at hs
        cases hs
      · simp only [PassSt.ext, hc, Bool.false_eq_true, if_false] at hs
        rw [passLoop_none env true ds.extend ds.rgb ds.fform rect body.length body (le_refl _)
          { w := w, fname := none, line := some [], l := 0 } true rfl rfl] at hs
        simp only [hu, Bool.false_eq_true, if_false, PassSt.ext, Option.map_some',
          List.nil_append, Option.getD_some] at hs
        cases hs
        simp [PassSt.ext]

end Spawn
